import Mathlib

/-!
# EOG monitor (`src/main.c`): ring buffer, mean filter and main-loop detector

A shallow embedding of the firmware in `src/main.c`, built for the AVR target the
source is written for (`int` is 16 bits wide, `long` is 32 bits wide).

Conventions of the embedding

* unsigned machine integers are `Nat`, signed ones are `Int`; every place where the C
  arithmetic can wrap is written with an explicit modulus (`u32`, `sub32`, `sub16`,
  `toInt16`, `% 256`, `% 65536`);
* the globals of `main.c` are the fields of `State`; `data` and `bufferPointer` are
  grouped in `Ring`, the part of the state that `pushBuffer` and `calculateMean` touch;
* one pass through the body of `if (time to sample) { ... }` is `sampleStep`; it is the
  composition, in source order, of one function per block of that body;
* the pass receives the value of the volatile tick counter `millis_now` at which it begins;
  the detector blocks (lines 112-183) read its 32-bit truncation `(uint32_t)millis_now`,
  called `now`; a pass that enters REM calls the blocking `flash_rapid()` (line 181), so
  its calibrator blocks (lines 186-233) read the counter `flash_rapid_ticks` later
  (`calTick`), and the next pass cannot begin before that tick (`passEnd`); the counter
  ticks once a millisecond (lines 273-275, 396-398), and the statements of a pass other
  than `flash_rapid()` are taken to run within one tick;
* `read_adc()` is an input: the pass receives the reading as an argument;
* the UART trace is not modelled; the STATUS_LED bit of PORTC is the field `status_led`
  and the calls of `flash_rapid()` are counted in the field `flash_rapid_calls`;
* the division `temp_baseLine / Bs_cnt` is undefined in C when `Bs_cnt = 0`; the pass
  returns `none` there and `some` of the next state everywhere else;
* the blocking startup functions `getBaseLine` and `getMaxAmplitude` receive the readings
  of `read_adc()` as a list and end in an `Outcome` (a returned value, or the permanent
  halt of `die()`); they are `none` when the list is too short for the loop to be left;
* `abs` is the C library function on `int`, 16 bits wide on this target (`abs16`).
-/

namespace Eog

/-! ## Constants (`main.c`, lines 5-11) -/

/-- Sample period in ticks (`const uint8_t Ts = 20`). -/
def Ts : Nat := 20

/-- Baseline refresh period in minutes (`const uint8_t Bs = 1`). -/
def Bs : Nat := 1

/-- Number of slots of the ring buffer that are in use (`const uint8_t BUFFERLEN = 3`). -/
def BUFFERLEN : Nat := 3

/-- Length of a REM episode in minutes (`const uint8_t REM_cycle_length = 15`). -/
def REM_cycle_length : Nat := 15

/-- Spike count at which REM is declared (`const uint8_t spikes_needed = 15`). -/
def spikes_needed : Nat := 15

/-- Seconds without spike event before the counter decays
(`const uint8_t spike_decrement_delay = 15`). -/
def spike_decrement_delay : Nat := 15

/-- Idle minutes after boot (`const uint8_t idle_delay = 60`). -/
def idle_delay : Nat := 60

/-! ## Machine arithmetic -/

/-- Truncation to `uint32_t`. -/
def u32 (n : Nat) : Nat := n % 4294967296

/-- Subtraction of two `uint32_t` values, modulo `2^32`. -/
def sub32 (a b : Nat) : Nat := (a % 4294967296 + 4294967296 - b % 4294967296) % 4294967296

/-- Subtraction of two `uint16_t` values on AVR (`unsigned int` arithmetic, modulo `2^16`). -/
def sub16 (a b : Nat) : Nat := (a % 65536 + 65536 - b % 65536) % 65536

/-- Conversion of a wider signed value to `int16_t` (two's complement wrap-around). -/
def toInt16 (x : Int) : Int :=
  if x % 65536 < 32768 then x % 65536 else x % 65536 - 65536

/-! ## Ring buffer and mean filter (`main.c`, lines 14-15 and 280-306) -/

/-- The globals `uint16_t data[6]` and `int16_t bufferPointer`. -/
structure Ring where
  data : List Nat
  bufferPointer : Int
  deriving DecidableEq

/-- The ring buffer at program start: zero-initialised globals. -/
def initRing : Ring := { data := [0, 0, 0, 0, 0, 0], bufferPointer := 0 }

/-- Source `pushBuffer` (lines 281-289): pre-decrement `bufferPointer`, loop back to
`BUFFERLEN - 1` on underflow, store the value at the new head. -/
def pushBuffer (r : Ring) (val : Nat) : Ring :=
  let p := toInt16 (r.bufferPointer - 1)
  let q := if p < 0 then (BUFFERLEN : Int) - 1 else p
  { data := r.data.set q.toNat val, bufferPointer := q }

/-- The physical slot read at loop index `i` of `calculateMean` (line 296):
`uint8_t pos = (bufferPointer + i) % BUFFERLEN`. -/
def slotPos (r : Ring) (i : Nat) : Nat :=
  (((r.bufferPointer + (i : Int)).tmod (BUFFERLEN : Int)) % 256).toNat

/-- The content of the slot at logical position `i`: `data[pos]`. -/
def slotAt (r : Ring) (i : Nat) : Nat := r.data.getD (slotPos r i) 0

/-- One iteration of the loop of `calculateMean` (lines 296-302): a slot holding 0 is
skipped, any other slot adds `(int32_t)data[pos] - baseLine` to the accumulator. -/
def meanIter (r : Ring) (baseLine : Nat) (mean : Int) (i : Nat) : Int :=
  if slotAt r i = 0 then mean else mean + ((slotAt r i : Int) - (baseLine : Int))

/-- The accumulator `mean` of `calculateMean` when the loop over `i = 0 .. BUFFERLEN-1`
is left. -/
def calculateMeanSum (r : Ring) (baseLine : Nat) : Int :=
  (List.range BUFFERLEN).foldl (meanIter r baseLine) 0

/-- The 32-bit value `mean/BUFFERLEN` of line 305 (signed division, truncating). -/
def calculateMean32 (r : Ring) (baseLine : Nat) : Int :=
  (calculateMeanSum r baseLine).tdiv (BUFFERLEN : Int)

/-- Source `calculateMean` (lines 292-306): the quotient converted to the `int16_t`
return type. -/
def calculateMean (r : Ring) (baseLine : Nat) : Int :=
  toInt16 (calculateMean32 r baseLine)

/-- The buffer after pushing the samples of `xs` in order, oldest first. -/
def pushAll (r : Ring) (xs : List Nat) : Ring := xs.foldl pushBuffer r

/-- The populated slots as the specification counts them: the non-zero ones among the
three logical positions. -/
def populatedSlots (r : Ring) : List Nat :=
  ((List.range BUFFERLEN).map (slotAt r)).filter (fun v => v != 0)

/-- The mean as the specification words it: the sum of `slot - baseLine` over the
populated slots divided by their number, and 0 when no slot is populated. -/
def specMean (r : Ring) (baseLine : Nat) : Int :=
  if (populatedSlots r).length = 0 then 0
  else Int.tdiv (((populatedSlots r).map (fun v => (v : Int) - (baseLine : Int))).sum)
    ((populatedSlots r).length : Int)

/-! ## Program state (`main.c`, lines 13-39) -/

/-- The globals of `main.c` that the main loop reads or writes, the STATUS_LED output bit
and a counter of the `flash_rapid()` calls made so far. -/
structure State where
  ring : Ring
  max_amplitude : Nat
  baseLine : Nat
  temp_baseLine : Nat
  Bs_cnt : Nat
  max_value : Nat
  min_value : Nat
  unstable_base_line : Bool
  calculating_base_line : Bool
  spike : Bool
  REM : Bool
  spike_value : Nat
  spike_counter : Nat
  last_baseline_timestamp : Nat
  last_sample_timestamp : Nat
  last_spike_event_timestamp : Nat
  REM_cycle_start_timestamp : Nat
  base_line_calculation_start : Nat
  idling : Bool
  status_led : Bool
  flash_rapid_calls : Nat
  deriving DecidableEq

/-- The state in which the main loop is entered (lines 100-106 and the zero-initialised
globals), for the `baseLine` and `max_amplitude` found by the startup calibration. -/
def initState (baseLine max_amplitude : Nat) : State :=
  { ring := initRing
    max_amplitude := max_amplitude
    baseLine := baseLine
    temp_baseLine := 0
    Bs_cnt := 0
    max_value := 0
    min_value := 0
    unstable_base_line := false
    calculating_base_line := false
    spike := false
    REM := false
    spike_value := 0
    spike_counter := 0
    last_baseline_timestamp := 0
    last_sample_timestamp := 0
    last_spike_event_timestamp := 0
    REM_cycle_start_timestamp := 0
    base_line_calculation_start := 0
    idling := true
    status_led := false
    flash_rapid_calls := 0 }

/-! ## The blocks of the main-loop body (`main.c`, lines 114-240) -/

/-- Lines 114-120: a REM episode older than `60000 * REM_cycle_length` ticks is ended. -/
def remTimeout (s : State) (now : Nat) : State :=
  if s.REM then
    if sub32 now s.REM_cycle_start_timestamp ≥ 60000 * REM_cycle_length then
      { s with REM := false }
    else s
  else s

/-- Lines 122-125: record the sample time and push the reading. -/
def takeSample (s : State) (now sample : Nat) : State :=
  { s with last_sample_timestamp := now, ring := pushBuffer s.ring sample }

/-- Line 134: `uint16_t abs_mean = abs(mean)` for the `int16_t mean` of line 126. -/
def absMean (s : State) : Nat := (calculateMean s.ring s.baseLine).natAbs

/-- Lines 135-143: at or above the threshold `max_amplitude / 4` a spike is open and
its peak is raised to `abs_mean` when that is higher. -/
def spikeDetect (s : State) (abs_mean : Nat) : State :=
  if abs_mean ≥ s.max_amplitude / 4 then
    { s with spike := true,
             spike_value := if abs_mean > s.spike_value then abs_mean else s.spike_value }
  else s

/-- Lines 146-157: an open spike whose signal fell below a third of its peak is closed:
timestamp, `spike_counter++` on a `uint8_t`, flag and peak cleared. -/
def spikeClose (s : State) (now abs_mean : Nat) : State :=
  if s.spike then
    if abs_mean < s.spike_value / 3 then
      { s with last_spike_event_timestamp := now,
               spike_counter := (s.spike_counter + 1) % 256,
               spike := false,
               spike_value := 0 }
    else s
  else s

/-- Lines 160-165: decay of the spike counter. -/
def spikeDecay (s : State) (now : Nat) : State :=
  if s.spike_counter > 0 then
    if sub32 now s.last_spike_event_timestamp ≥ 1000 * spike_decrement_delay then
      { s with spike_counter := s.spike_counter - 1,
               last_spike_event_timestamp := now }
    else s
  else s

/-- Lines 168-173: end of the idle period. -/
def idleGate (s : State) (now : Nat) : State :=
  if s.idling then
    if now ≥ 60000 * idle_delay then
      { s with idling := false, spike_counter := 0 }
    else s
  else s

/-- Lines 176-183: REM detection; `flash_rapid()` is called once when REM starts. -/
def remDetect (s : State) (now : Nat) : State :=
  if (!s.REM && !s.idling) then
    if s.spike_counter ≥ spikes_needed then
      { s with REM_cycle_start_timestamp := now,
               REM := true,
               flash_rapid_calls := s.flash_rapid_calls + 1 }
    else s
  else s

/-- Lines 186-199: start of a baseline calibration window. -/
def baselineStart (s : State) (now sample : Nat) : State :=
  if !s.calculating_base_line then
    if sub32 now s.last_baseline_timestamp ≥ 60000 * Bs then
      { s with calculating_base_line := true,
               base_line_calculation_start := now,
               Bs_cnt := 0,
               temp_baseLine := 0,
               max_value := sample,
               min_value := sample,
               unstable_base_line := false }
    else s
  else s

/-- Lines 215-220: the sample is folded into the running maximum, else into the running
minimum. -/
def foldMinMax (s : State) (sample : Nat) : State :=
  if sample > s.max_value then { s with max_value := sample }
  else if sample < s.min_value then { s with min_value := sample }
  else s

/-- Lines 202-233: the calibration window. When the window has elapsed the baseline is
replaced by `temp_baseLine / Bs_cnt` (a `uint32_t` quotient stored in a `uint16_t`);
before that the sample is folded into min/max and either the window is aborted (spread
above 20) or the sample is accumulated. The result is `none` when the division would be
by zero. -/
def baselineUpdate (s : State) (now sample : Nat) : Option State :=
  if s.calculating_base_line then
    if sub32 now s.base_line_calculation_start ≥ 3000 then
      if s.Bs_cnt = 0 then none
      else some { s with calculating_base_line := false,
                         last_baseline_timestamp := now,
                         baseLine := (s.temp_baseLine / s.Bs_cnt) % 65536 }
    else
      if sub16 (foldMinMax s sample).max_value (foldMinMax s sample).min_value > 20 then
        some { foldMinMax s sample with unstable_base_line := true,
                                        last_baseline_timestamp := now,
                                        calculating_base_line := false }
      else
        some { foldMinMax s sample with temp_baseLine := u32 (s.temp_baseLine + sample),
                                        Bs_cnt := (s.Bs_cnt + 1) % 65536 }
  else some s

/-- Lines 236-240: the status LED shows `REM | spike`. -/
def updateStatusLed (s : State) : State :=
  { s with status_led := s.REM || s.spike }

/-! ## The main-loop body and the loop -/

/-- The state after lines 114-125 of a pass: REM timeout, then the sample is pushed. -/
def afterSample (s : State) (now sample : Nat) : State :=
  takeSample (remTimeout s now) now sample

/-- The state right after the spike-close block (line 157) of a pass. -/
def afterSpikeClose (s : State) (now sample : Nat) : State :=
  spikeClose (spikeDetect (afterSample s now sample) (absMean (afterSample s now sample)))
    now (absMean (afterSample s now sample))

/-- The state right after the decay block (line 165) of a pass. -/
def afterDecay (s : State) (now sample : Nat) : State :=
  spikeDecay (afterSpikeClose s now sample) now

/-- The state at the REM check (line 176) of a pass, the idle gate already applied. -/
def atRemCheck (s : State) (now sample : Nat) : State :=
  idleGate (afterDecay s now sample) now

/-- The state after the REM detection block (line 183) of a pass. -/
def afterRemDetect (s : State) (now sample : Nat) : State :=
  remDetect (atRemCheck s now sample) now

/-- The ticks that pass during `flash_rapid()` (lines 377-389): ten times `flash_once()`,
each with `_delay_ms(200)` and `_delay_ms(500)`, the tick interrupt running. -/
def flash_rapid_ticks : Nat := 10 * (200 + 500)

/-- Whether the REM detection block (lines 176-181), run in the state `t`, enters REM and
so calls `flash_rapid()`. -/
def detectEnters (t : State) : Bool :=
  !t.REM && !t.idling && decide (t.spike_counter ≥ spikes_needed)

/-- Whether the pass enters REM and so calls `flash_rapid()`. -/
def remEnters (s : State) (now sample : Nat) : Bool :=
  detectEnters (atRemCheck s now sample)

/-- The value of `millis_now` when the pass that began at tick `millis_now` reaches the
calibrator blocks: the same tick, or `flash_rapid_ticks` later when the pass entered
REM. -/
def passEnd (s : State) (millis_now sample : Nat) : Nat :=
  millis_now + (if remEnters s (u32 millis_now) sample then flash_rapid_ticks else 0)

/-- The 32-bit tick `(uint32_t)millis_now` that the calibrator blocks (lines 186-233) of
the pass read. -/
def calTick (s : State) (millis_now sample : Nat) : Nat :=
  u32 (passEnd s millis_now sample)

/-- The calibrator blocks and the LED update (lines 186-240) in the state `t` the detector
blocks left, on the 32-bit tick `tick`. -/
def calibratorBlocks (t : State) (tick sample : Nat) : Option State :=
  (baselineUpdate (baselineStart t tick sample) tick sample).map updateStatusLed

/-- One pass through the body of the main loop (lines 114-246) that begins at tick
`millis_now` with the ADC reading `sample`: the detector blocks on the tick of the pass,
the calibrator blocks on the tick `calTick` at which they are reached. -/
def sampleStep (s : State) (millis_now sample : Nat) : Option State :=
  calibratorBlocks (afterRemDetect s (u32 millis_now) sample) (calTick s millis_now sample)
    sample

/-- One iteration of `for(;;)` (lines 109-248): the body runs when at least `Ts` ticks
have passed since the last sample, otherwise nothing changes. -/
def mainLoopPass (s : State) (millis_now sample : Nat) : Option State :=
  if sub32 (u32 millis_now) s.last_sample_timestamp ≥ Ts then sampleStep s millis_now sample
  else some s

/-- The passes of the main-loop body over a list of `(millis_now, sample)` inputs; `none`
as soon as one pass is undefined. -/
def runSteps (s : State) : List (Nat × Nat) → Option State
  | [] => some s
  | (t, x) :: rest =>
    match sampleStep s t x with
    | some s1 => runSteps s1 rest
    | none => none

/-- Whether the spike-close block of the pass closes a spike (lines 146-147). -/
def spikeCloses (s : State) (now sample : Nat) : Bool :=
  (spikeDetect (afterSample s now sample) (absMean (afterSample s now sample))).spike &&
    decide (absMean (afterSample s now sample) <
      (spikeDetect (afterSample s now sample) (absMean (afterSample s now sample))).spike_value / 3)

/-- Whether the decay block of the pass decrements the counter (lines 160-161). -/
def decayFires (s : State) (now sample : Nat) : Bool :=
  decide ((afterSpikeClose s now sample).spike_counter > 0) &&
    decide (sub32 now (afterSpikeClose s now sample).last_spike_event_timestamp
      ≥ 1000 * spike_decrement_delay)

/-- The states the main loop can be in: the entry state for some 16-bit `baseLine` and
`max_amplitude`, and every state a pass of the body leads to from such a state, for any
tick value and any 16-bit reading. -/
inductive Reachable : State → Prop
  | init (baseLine max_amplitude : Nat) (hb : baseLine < 65536) (ha : max_amplitude < 65536) :
      Reachable (initState baseLine max_amplitude)
  | step (s s1 : State) (millis_now sample : Nat) (hs : Reachable s) (hx : sample < 65536)
      (h : sampleStep s millis_now sample = some s1) : Reachable s1

/-- Shape of the ring buffer that every push preserves: six slots, head index in 0..2. -/
def RingOk (r : Ring) : Prop :=
  r.data.length = 6 ∧ 0 ≤ r.bufferPointer ∧ r.bufferPointer ≤ 2

/-- The state `t` agrees with `s` on every variable of the baseline calibrator. -/
def SameCalibration (s t : State) : Prop :=
  t.baseLine = s.baseLine ∧ t.temp_baseLine = s.temp_baseLine ∧ t.Bs_cnt = s.Bs_cnt ∧
  t.max_value = s.max_value ∧ t.min_value = s.min_value ∧
  t.unstable_base_line = s.unstable_base_line ∧
  t.calculating_base_line = s.calculating_base_line ∧
  t.last_baseline_timestamp = s.last_baseline_timestamp ∧
  t.base_line_calculation_start = s.base_line_calculation_start

/-- The state `t` agrees with `s` on every variable of the spike and REM detector, on the
ring buffer and on the stimulus counter. -/
def SameDetector (s t : State) : Prop :=
  t.ring = s.ring ∧ t.max_amplitude = s.max_amplitude ∧ t.spike = s.spike ∧
  t.spike_value = s.spike_value ∧ t.spike_counter = s.spike_counter ∧ t.REM = s.REM ∧
  t.idling = s.idling ∧ t.last_sample_timestamp = s.last_sample_timestamp ∧
  t.last_spike_event_timestamp = s.last_spike_event_timestamp ∧
  t.REM_cycle_start_timestamp = s.REM_cycle_start_timestamp ∧
  t.flash_rapid_calls = s.flash_rapid_calls

/-- The state after the passes of `runSteps`; the start state when a pass is undefined. -/
def afterPasses (s : State) (ins : List (Nat × Nat)) : State :=
  (runSteps s ins).getD s

/-- An input trace for `n` spikes: one reading of 1000 followed by three readings of 500,
`n` times over, the passes 20 ticks apart starting at tick 20. -/
def spikeTrain (n : Nat) : List (Nat × Nat) :=
  (List.range (4 * n)).map (fun i => (20 * (i + 1), if i % 4 = 0 then 1000 else 500))

/-- The ticks of the passes of a run in which the decay block decremented the counter. -/
def decayTicks (s : State) : List (Nat × Nat) → List Nat
  | [] => []
  | (t, x) :: rest =>
    (if decayFires s (u32 t) x then [t] else []) ++
      (match sampleStep s t x with
       | some s1 => decayTicks s1 rest
       | none => [])

/-- The variable `last_spike_event_timestamp` holds the 32-bit truncation of a tick between
`t0` and `tc`. -/
def EventStamp (s : State) (t0 tc : Nat) : Prop :=
  ∃ e, t0 ≤ e ∧ e ≤ tc ∧ s.last_spike_event_timestamp = u32 e

/-- The input trace of `spikeTrain n` shifted to start after tick `t0`. -/
def spikeTrainFrom (t0 n : Nat) : List (Nat × Nat) :=
  (spikeTrain n).map (fun p => (t0 + p.1, p.2))

/-- An input trace that ends the idle period at tick 3600000 with a quiet reading and then
delivers the first `k` passes of a train of `n` spikes. -/
def watchTrace (n k : Nat) : List (Nat × Nat) :=
  (3600000, 500) :: (spikeTrainFrom 3600000 n).take k

/-- The state `s` with the STATUS_LED bit set to `b`. -/
def withLed (s : State) (b : Bool) : State := { s with status_led := b }

/-- The ticks of the passes of a run in which the spike-close block closed a spike. -/
def closeTicks (s : State) : List (Nat × Nat) → List Nat
  | [] => []
  | (t, x) :: rest =>
    (if spikeCloses s (u32 t) x then [t] else []) ++
      (match sampleStep s t x with
       | some s1 => closeTicks s1 rest
       | none => [])

/-! ## Startup calibration (`main.c`, lines 61-81 and 308-374) -/

/-- How a startup calibration function ends: it returns a value, or it halts for good in
`die()`. -/
inductive Outcome where
  | returned (v : Nat)
  | died
  deriving DecidableEq

/-- Lines 341-350 of `getBaseLine`: `base /= 300`, then `die()` when the quotient is
below 200 or above 800, else the quotient is returned as `uint16_t`. -/
def baseLineFinish (base : Int) : Outcome :=
  if base.tdiv 300 < 200 ∨ base.tdiv 300 > 800 then Outcome.died
  else Outcome.returned ((base.tdiv 300) % 65536).toNat

/-- The loop of `getBaseLine` (lines 322-339) with `n` iterations left, the `int32_t`
variables `min`, `max` and `base`, and the readings `read_adc()` will deliver. A spread
above 20 returns the global `baseLine`; the result is `none` when the readings run out
before the loop is left. -/
def baseLineLoop (baseLine : Nat) : Nat → Int → Int → Int → List Nat → Option Outcome
  | 0, _, _, base, _ => some (baseLineFinish base)
  | _ + 1, _, _, _, [] => none
  | n + 1, mn, mx, base, c :: rest =>
    if (if (c : Int) < mn then mx else if (c : Int) > mx then (c : Int) else mx)
        - (if (c : Int) < mn then (c : Int) else mn) > 20 then
      some (Outcome.returned baseLine)
    else
      baseLineLoop baseLine n (if (c : Int) < mn then (c : Int) else mn)
        (if (c : Int) < mn then mx else if (c : Int) > mx then (c : Int) else mx)
        (base + (c : Int)) rest

/-- Source `getBaseLine` (lines 309-351) for the current global `baseLine`, the initial
reading `first` and the readings of the loop. -/
def getBaseLine (baseLine first : Nat) (readings : List Nat) : Option Outcome :=
  baseLineLoop baseLine 300 (first : Int) (first : Int) 0 readings

/-- The loop `while (baseLine == 0)` of `main` (lines 62-71) over the readings of the
successive attempts; `none` when the attempts run out while `baseLine` is still 0. -/
def startupBaseLine : Nat → List (Nat × List Nat) → Option Outcome
  | baseLine, [] => if baseLine = 0 then none else some (Outcome.returned baseLine)
  | baseLine, (first, readings) :: rest =>
    if baseLine = 0 then
      match getBaseLine baseLine first readings with
      | none => none
      | some Outcome.died => some Outcome.died
      | some (Outcome.returned v) => startupBaseLine v rest
    else some (Outcome.returned baseLine)

/-- The running minimum of the specification: the least of `first` and the readings. -/
def runMin (first : Nat) (readings : List Nat) : Nat := readings.foldl min first

/-- The running maximum of the specification: the greatest of `first` and the readings. -/
def runMax (first : Nat) (readings : List Nat) : Nat := readings.foldl max first

/-- The running spread exceeds 20 at loop reading `i` (counted from 0). -/
def unstableAt (first : Nat) (readings : List Nat) (i : Nat) : Prop :=
  runMin first (readings.take (i + 1)) + 20 < runMax first (readings.take (i + 1))

/-- Whether the pass starts a calibration window (lines 186-187). -/
def windowStarts (s : State) (now : Nat) : Bool :=
  !s.calculating_base_line && decide (sub32 now s.last_baseline_timestamp ≥ 60000 * Bs)

/-- Whether the pass accumulates its sample into `temp_baseLine` (lines 228-231). -/
def accumulates (s : State) (now sample : Nat) : Bool :=
  (baselineStart s now sample).calculating_base_line &&
    decide (sub32 now (baselineStart s now sample).base_line_calculation_start < 3000) &&
    decide (sub16 (foldMinMax (baselineStart s now sample) sample).max_value
      (foldMinMax (baselineStart s now sample) sample).min_value ≤ 20)

/-- The samples accumulated in the current calibration window after a pass, newest first,
given those accumulated before it: a window start empties the list, an accumulating pass
adds its sample. -/
def windowSamples (s : State) (w : List Nat) (now sample : Nat) : List Nat :=
  (if accumulates s now sample then [sample] else []) ++
    (if windowStarts s now then [] else w)

/-- The states the main loop reaches under its sampling schedule, with the tick at which
the last pass ended and the samples accumulated in the current calibration window. A pass
begins no earlier than the previous one ended, passes the gate of the main loop (at least
`Ts` ticks on the 32-bit sample timestamp), and begins less than `2^32 - 10000` ticks
after the previous one ended, so that the 32-bit tick differences of a window do not
wrap. -/
inductive Scheduled : State → Nat → List Nat → Prop
  | init (baseLine max_amplitude : Nat) (hb : baseLine < 65536) (ha : max_amplitude < 65536) :
      Scheduled (initState baseLine max_amplitude) 0 []
  | step (s s1 : State) (t t1 : Nat) (w : List Nat) (sample : Nat) (hs : Scheduled s t w)
      (hmono : t ≤ t1) (hgate : sub32 (u32 t1) s.last_sample_timestamp ≥ Ts)
      (hwrap : t1 + 10000 < t + 4294967296) (hx : sample < 65536)
      (h : sampleStep s t1 sample = some s1) :
      Scheduled s1 (passEnd s t1 sample) (windowSamples s w (calTick s t1 sample) sample)

/-- What holds of a state under the schedule. The last pass began at a tick `T` at most
`flash_rapid_ticks` before it ended. In a calibrating state the window was stamped at a
tick `S` less than 3000 ticks ago, at most one sample per `Ts` ticks was accumulated after
the pass that opened it, the counter and the sum are those of the accumulated samples, and
these lie between the running minimum and maximum, which are at most 20 apart. -/
def WindowInv (s : State) (t : Nat) (w : List Nat) : Prop :=
  (∃ T, s.last_sample_timestamp = u32 T ∧ T ≤ t ∧ t ≤ T + flash_rapid_ticks) ∧
  (s.calculating_base_line = true →
    (∃ S, s.base_line_calculation_start = u32 S ∧ S ≤ t ∧ t < S + 3000 ∧
      20 * w.length + S ≤ t + 40 ∧
      (s.last_sample_timestamp = u32 t ∨ (w.length = 1 ∧ S = t))) ∧
    w.length = s.Bs_cnt ∧ 1 ≤ s.Bs_cnt ∧ s.temp_baseLine = w.sum ∧
    (∀ y ∈ w, s.min_value ≤ y ∧ y ≤ s.max_value) ∧
    s.min_value ≤ s.max_value ∧ s.max_value ≤ s.min_value + 20 ∧ s.max_value < 65536)

/-- The passes of a run under the sampling schedule, from a state whose last pass ended at
tick `t` with the window samples `w`: the state, end tick and window samples after the
run; `none` when a pass violates the schedule or is undefined. -/
def runScheduled (s : State) (t : Nat) (w : List Nat) :
    List (Nat × Nat) → Option (State × Nat × List Nat)
  | [] => some (s, t, w)
  | (t1, x) :: rest =>
    if t ≤ t1 ∧ sub32 (u32 t1) s.last_sample_timestamp ≥ Ts ∧
        t1 + 10000 < t + 4294967296 ∧ x < 65536 then
      match sampleStep s t1 x with
      | some s1 => runScheduled s1 (passEnd s t1 x) (windowSamples s w (calTick s t1 x) x) rest
      | none => none
    else none

/-- The result of `runScheduled`; the start when the run is `none`. -/
def scheduledEnd (s : State) (t : Nat) (w : List Nat) (ins : List (Nat × Nat)) :
    State × Nat × List Nat :=
  (runScheduled s t w ins).getD (s, t, w)

/-- An input trace that ends the idle period and a first calibration window, closes
fourteen spikes and opens a fifteenth while no window is due, and then opens a window with
two readings of 510 while that spike is still open. -/
def remWindowTrace : List (Nat × Nat) :=
  (3600000, 500) :: (3603000, 500) ::
    ((List.range 57).map (fun i => (3605000 + 1000 * (i + 1), if i % 4 = 0 then 1000 else 500))
      ++ [(3663000, 510), (3664000, 510)])

/-- An input trace whose last but `k` passes close fifteen spikes, the fifteenth in the
pass at tick 3663000 when a calibration window is due, followed by `k` quiet passes, the
first as soon as `flash_rapid()` has returned and the others `Ts` ticks apart. -/
def flashWindowTrace (k : Nat) : List (Nat × Nat) :=
  (3600000, 500) :: (3603000, 500) ::
    ((List.range 60).map (fun i => (3603000 + 1000 * (i + 1), if i % 4 = 0 then 1000 else 500))
      ++ (List.range k).map (fun i => (3670000 + 20 * i, 500)))

/-- The values of `abs_mean` observed since the open spike was opened, newest first, after a
pass, given those observed before it; empty when no spike is open after the pass. -/
def spikeObserved (s : State) (g : List Nat) (now sample : Nat) : List Nat :=
  if (afterSpikeClose s now sample).spike then
    absMean (afterSample s now sample) :: (if s.spike then g else [])
  else []

/-- The reachable states of the main loop together with the `abs_mean` values observed
since the currently open spike was opened. -/
inductive SpikeTraced : State → List Nat → Prop
  | init (baseLine max_amplitude : Nat) (hb : baseLine < 65536) (ha : max_amplitude < 65536) :
      SpikeTraced (initState baseLine max_amplitude) []
  | step (s s1 : State) (millis_now sample : Nat) (g : List Nat) (hs : SpikeTraced s g)
      (hx : sample < 65536) (h : sampleStep s millis_now sample = some s1) :
      SpikeTraced s1 (spikeObserved s g (u32 millis_now) sample)

/-! # Theorems -/

/-! ## Ring buffer -/

theorem ringOk_cases (r : Ring) (h : RingOk r) :
    ∃ a b c d e f : Nat, r = ⟨[a, b, c, d, e, f], 0⟩ ∨ r = ⟨[a, b, c, d, e, f], 1⟩ ∨
      r = ⟨[a, b, c, d, e, f], 2⟩ := by
  obtain ⟨data, bp⟩ := r
  obtain ⟨hl, h0, h2⟩ := h
  simp only at hl h0 h2
  match data, hl with
  | [a, b, c, d, e, f], _ =>
    refine ⟨a, b, c, d, e, f, ?_⟩
    have : bp = 0 ∨ bp = 1 ∨ bp = 2 := by omega
    rcases this with rfl | rfl | rfl <;> simp

theorem initRing_ok : RingOk initRing := by
  simp [RingOk, initRing]

theorem pushBuffer_ok (r : Ring) (x : Nat) (h : RingOk r) : RingOk (pushBuffer r x) := by
  obtain ⟨a, b, c, d, e, f, rfl | rfl | rfl⟩ := ringOk_cases r h <;>
    simp [RingOk, pushBuffer, toInt16, BUFFERLEN]

theorem pushAll_snoc (r : Ring) (xs : List Nat) (x : Nat) :
    pushAll r (xs ++ [x]) = pushBuffer (pushAll r xs) x := by
  simp [pushAll, List.foldl_append]

theorem pushAll_ok (r : Ring) (xs : List Nat) (h : RingOk r) : RingOk (pushAll r xs) := by
  induction xs using List.reverseRecOn with
  | nil => simpa [pushAll] using h
  | append_singleton xs x ih => rw [pushAll_snoc]; exact pushBuffer_ok _ _ ih

/-- The pushed value is found at logical position 0. -/
theorem slotAt_push_zero (r : Ring) (x : Nat) (h : RingOk r) :
    slotAt (pushBuffer r x) 0 = x := by
  obtain ⟨a, b, c, d, e, f, rfl | rfl | rfl⟩ := ringOk_cases r h <;>
    simp [slotAt, slotPos, pushBuffer, toInt16, BUFFERLEN] <;> rfl

/-- A push moves the values at logical positions 0 and 1 to positions 1 and 2. -/
theorem slotAt_push_succ (r : Ring) (x : Nat) (j : Nat) (hj : j < 2) (h : RingOk r) :
    slotAt (pushBuffer r x) (j + 1) = slotAt r j := by
  have hj2 : j = 0 ∨ j = 1 := by omega
  obtain ⟨a, b, c, d, e, f, rfl | rfl | rfl⟩ := ringOk_cases r h <;>
    rcases hj2 with rfl | rfl <;>
    simp [slotAt, slotPos, pushBuffer, toInt16, BUFFERLEN] <;> rfl

/-- The three logical positions after any sequence of pushes from the initial buffer. -/
theorem slotAt_pushAll (xs : List Nat) (i : Nat) (hi : i < 3) :
    slotAt (pushAll initRing xs) i = if i < xs.length then xs.reverse.getD i 0 else 0 := by
  induction xs using List.reverseRecOn generalizing i with
  | nil =>
    have : i = 0 ∨ i = 1 ∨ i = 2 := by omega
    rcases this with rfl | rfl | rfl <;> rfl
  | append_singleton xs x ih =>
    rw [pushAll_snoc]
    have hok : RingOk (pushAll initRing xs) := pushAll_ok _ _ initRing_ok
    cases i with
    | zero => simp [slotAt_push_zero _ _ hok]
    | succ j =>
      rw [slotAt_push_succ _ _ j (by omega) hok, ih j (by omega)]
      simp

/-- The accumulator of `calculateMean` written out over the three logical positions. -/
theorem calculateMeanSum_eq (r : Ring) (b : Nat) :
    calculateMeanSum r b = meanIter r b (meanIter r b (meanIter r b 0 0) 1) 2 := by
  rfl

/-- C1: evaluation of the code at the failing input. After a single push of the reading 500
into the initial buffer, with `baseLine = 200`, exactly one slot is populated and its
baseline-subtracted mean is 300, but `calculateMean` returns 100: the populated slot's
deviation is divided by `BUFFERLEN = 3`, not by the number of populated slots. -/
theorem calculateMean_single_push_divides_by_bufferlen :
    populatedSlots (pushBuffer initRing 500) = [500] ∧
    specMean (pushBuffer initRing 500) 200 = 300 ∧
    calculateMean (pushBuffer initRing 500) 200 = 100 := by
  decide

/-- C2: for every baseline, `calculateMean` on a buffer whose three slots all hold the
sentinel 0 returns 0; this is the buffer before any push and after pushes of zero
samples only. -/
theorem calculateMean_all_sentinel (r : Ring) (baseLine : Nat)
    (h : ∀ i, i < 3 → slotAt r i = 0) :
    calculateMean r baseLine = 0 ∧
    (∀ xs : List Nat, (∀ x ∈ xs, x = 0) → ∀ i, i < 3 → slotAt (pushAll initRing xs) i = 0) := by
  constructor
  · have h0 := h 0 (by omega)
    have h1 := h 1 (by omega)
    have h2 := h 2 (by omega)
    simp [calculateMean, calculateMean32, calculateMeanSum_eq, meanIter, h0, h1, h2, toInt16]
  · intro xs hxs i hi
    rw [slotAt_pushAll xs i hi]
    split
    · rename_i hlt
      have hmem : xs.reverse.getD i 0 ∈ xs := by
        rw [List.getD_eq_getElem _ _ (by simpa using hlt)]
        exact List.mem_reverse.mp (List.getElem_mem _)
      exact hxs _ hmem
    · rfl

/-- Witness for C2: the initial buffer, with baseline 512. -/
theorem calculateMean_all_sentinel_witness :
    (∀ i, i < 3 → slotAt initRing i = 0) ∧ calculateMean initRing 512 = 0 :=
  ⟨by decide, (calculateMean_all_sentinel initRing 512 (by decide)).1⟩

/-- C3: after any sequence of pushes from the initial state, `bufferPointer` is in 0..2
and the slot at physical index `(bufferPointer + i) mod 3` holds the `(i+1)`-th most
recently pushed sample for `i < min(k, 3)` and still 0 for the logical positions `i >= k`;
each push writes the slot that held the oldest sample and shifts the two younger ones by
one logical position. -/
theorem pushBuffer_ring_order (xs : List Nat) :
    (0 ≤ (pushAll initRing xs).bufferPointer ∧ (pushAll initRing xs).bufferPointer ≤ 2) ∧
    (∀ i, i < 3 →
      slotPos (pushAll initRing xs) i
        = (((pushAll initRing xs).bufferPointer + (i : Int)) % 3).toNat ∧
      slotAt (pushAll initRing xs) i = if i < xs.length then xs.reverse.getD i 0 else 0) ∧
    (∀ x : Nat,
      slotPos (pushBuffer (pushAll initRing xs) x) 0 = slotPos (pushAll initRing xs) 2 ∧
      slotAt (pushBuffer (pushAll initRing xs) x) 0 = x ∧
      slotAt (pushBuffer (pushAll initRing xs) x) 1 = slotAt (pushAll initRing xs) 0 ∧
      slotAt (pushBuffer (pushAll initRing xs) x) 2 = slotAt (pushAll initRing xs) 1) := by
  have hok : RingOk (pushAll initRing xs) := pushAll_ok _ _ initRing_ok
  refine ⟨⟨hok.2.1, hok.2.2⟩, ?_, ?_⟩
  · intro i hi
    refine ⟨?_, slotAt_pushAll xs i hi⟩
    have hi3 : i = 0 ∨ i = 1 ∨ i = 2 := by omega
    obtain ⟨a, b, c, d, e, f, h | h | h⟩ := ringOk_cases _ hok <;>
      rcases hi3 with rfl | rfl | rfl <;> rw [h] <;> rfl
  · intro x
    refine ⟨?_, slotAt_push_zero _ _ hok, slotAt_push_succ _ _ 0 (by omega) hok,
      slotAt_push_succ _ _ 1 (by omega) hok⟩
    obtain ⟨a, b, c, d, e, f, h | h | h⟩ := ringOk_cases _ hok <;> rw [h] <;> rfl

/-! ## Frame lemmas for the blocks of the main-loop body -/

theorem SameCalibration.trans {s t u : State} (h1 : SameCalibration s t)
    (h2 : SameCalibration t u) : SameCalibration s u := by
  obtain ⟨a1, a2, a3, a4, a5, a6, a7, a8, a9⟩ := h1
  obtain ⟨b1, b2, b3, b4, b5, b6, b7, b8, b9⟩ := h2
  exact ⟨b1.trans a1, b2.trans a2, b3.trans a3, b4.trans a4, b5.trans a5, b6.trans a6,
    b7.trans a7, b8.trans a8, b9.trans a9⟩

theorem remTimeout_calibration (s : State) (now : Nat) :
    SameCalibration s (remTimeout s now) := by
  unfold remTimeout; split_ifs <;> simp [SameCalibration]

theorem takeSample_calibration (s : State) (now x : Nat) :
    SameCalibration s (takeSample s now x) := by
  simp [takeSample, SameCalibration]

theorem spikeDetect_calibration (s : State) (a : Nat) :
    SameCalibration s (spikeDetect s a) := by
  unfold spikeDetect; split_ifs <;> simp [SameCalibration]

theorem spikeClose_calibration (s : State) (now a : Nat) :
    SameCalibration s (spikeClose s now a) := by
  unfold spikeClose; split_ifs <;> simp [SameCalibration]

theorem spikeDecay_calibration (s : State) (now : Nat) :
    SameCalibration s (spikeDecay s now) := by
  unfold spikeDecay; split_ifs <;> simp [SameCalibration]

theorem idleGate_calibration (s : State) (now : Nat) :
    SameCalibration s (idleGate s now) := by
  unfold idleGate; split_ifs <;> simp [SameCalibration]

theorem remDetect_calibration (s : State) (now : Nat) :
    SameCalibration s (remDetect s now) := by
  unfold remDetect; split_ifs <;> simp [SameCalibration]

/-- The detector blocks of a pass leave the calibrator variables as they were. -/
theorem afterRemDetect_calibration (s : State) (now x : Nat) :
    SameCalibration s (afterRemDetect s now x) := by
  unfold afterRemDetect atRemCheck afterDecay afterSpikeClose afterSample
  exact (((((remTimeout_calibration s now).trans (takeSample_calibration _ now x)).trans
    (spikeDetect_calibration _ _)).trans (spikeClose_calibration _ now _)).trans
    (spikeDecay_calibration _ now) |>.trans (idleGate_calibration _ now)).trans
    (remDetect_calibration _ now)

theorem baselineStart_detector (s : State) (now x : Nat) :
    SameDetector s (baselineStart s now x) := by
  unfold baselineStart; split_ifs <;> simp [SameDetector]

theorem foldMinMax_detector (s : State) (x : Nat) : SameDetector s (foldMinMax s x) := by
  unfold foldMinMax; split_ifs <;> simp [SameDetector]

theorem baselineUpdate_detector (s s1 : State) (now x : Nat)
    (h : baselineUpdate s now x = some s1) : SameDetector s s1 := by
  have hf := foldMinMax_detector s x
  unfold baselineUpdate at h
  split_ifs at h <;> simp only [Option.some.injEq] at h <;> subst h <;>
    first
      | exact hf
      | simp [SameDetector]

/-- The calibrator blocks and the LED update of a pass leave the detector variables as the
REM detection block left them. -/
theorem sampleStep_detector (s s1 : State) (millis_now x : Nat)
    (h : sampleStep s millis_now x = some s1) :
    SameDetector (afterRemDetect s (u32 millis_now) x) s1 := by
  unfold sampleStep calibratorBlocks at h
  obtain ⟨t, ht, rfl⟩ := Option.map_eq_some'.mp h
  have h1 := baselineStart_detector (afterRemDetect s (u32 millis_now) x)
    (calTick s millis_now x) x
  have h2 := baselineUpdate_detector _ _ _ _ ht
  simp only [SameDetector, updateStatusLed] at h1 h2 ⊢
  obtain ⟨a1, a2, a3, a4, a5, a6, a7, a8, a9, a10, a11⟩ := h1
  obtain ⟨b1, b2, b3, b4, b5, b6, b7, b8, b9, b10, b11⟩ := h2
  exact ⟨b1.trans a1, b2.trans a2, b3.trans a3, b4.trans a4, b5.trans a5, b6.trans a6,
    b7.trans a7, b8.trans a8, b9.trans a9, b10.trans a10, b11.trans a11⟩
/-! ## Baseline calibrator -/

theorem foldMinMax_max_value (s : State) (x : Nat) :
    (foldMinMax s x).max_value = if x > s.max_value then x else s.max_value := by
  unfold foldMinMax; split_ifs <;> rfl

theorem foldMinMax_min_value (s : State) (x : Nat) :
    (foldMinMax s x).min_value
      = if x > s.max_value then s.min_value else if x < s.min_value then x else s.min_value := by
  unfold foldMinMax; split_ifs <;> rfl

theorem foldMinMax_rest (s : State) (x : Nat) :
    (foldMinMax s x).baseLine = s.baseLine ∧ (foldMinMax s x).temp_baseLine = s.temp_baseLine ∧
    (foldMinMax s x).Bs_cnt = s.Bs_cnt ∧
    (foldMinMax s x).base_line_calculation_start = s.base_line_calculation_start := by
  unfold foldMinMax; split_ifs <;> simp

/-- The calibrator tick of a pass that does not enter REM is the tick of the pass. -/
theorem calTick_of_not_enters (s : State) (millis_now x : Nat)
    (h : remEnters s (u32 millis_now) x = false) : calTick s millis_now x = u32 millis_now := by
  unfold calTick passEnd
  rw [h]
  simp

/-- The calibrator tick of a pass that enters REM is `flash_rapid_ticks` later. -/
theorem calTick_of_enters (s : State) (millis_now x : Nat)
    (h : remEnters s (u32 millis_now) x = true) :
    calTick s millis_now x = u32 (millis_now + flash_rapid_ticks) := by
  unfold calTick passEnd
  rw [h]
  simp

/-- The REM detection block calls `flash_rapid()` exactly when `detectEnters` holds. -/
theorem remDetect_flash_calls (t : State) (now : Nat) :
    (remDetect t now).flash_rapid_calls
      = t.flash_rapid_calls + (if detectEnters t then 1 else 0) := by
  unfold remDetect detectEnters
  cases t.REM <;> cases t.idling <;> by_cases h : t.spike_counter ≥ spikes_needed <;>
    simp [h]

/-- The pass is undefined exactly when the window-end division has a zero divisor. -/
theorem sampleStep_eq_none_iff (s : State) (millis_now x : Nat) :
    sampleStep s millis_now x = none ↔
      (s.calculating_base_line = true ∧
        sub32 (calTick s millis_now x) s.base_line_calculation_start ≥ 3000 ∧
        s.Bs_cnt = 0) := by
  obtain ⟨-, -, c3, -, -, -, c7, c8, c9⟩ := afterRemDetect_calibration s (u32 millis_now) x
  unfold sampleStep calibratorBlocks
  generalize afterRemDetect s (u32 millis_now) x = t at *
  generalize calTick s millis_now x = c
  rw [Option.map_eq_none']
  unfold baselineUpdate baselineStart
  cases hc : s.calculating_base_line <;> rw [hc] at c7 <;>
    split_ifs <;> simp_all [sub32, Bs]

/-- The calibrator part of a pass in a state that is calibrating: the window is not
restarted, and the update block sees the calibrator variables of the pass's start. -/
theorem sampleStep_calibrating (s : State) (millis_now x : Nat)
    (hcal : s.calculating_base_line = true) :
    ∃ t, SameCalibration s t ∧
      sampleStep s millis_now x
        = (baselineUpdate t (calTick s millis_now x) x).map updateStatusLed := by
  refine ⟨afterRemDetect s (u32 millis_now) x, afterRemDetect_calibration _ _ _, ?_⟩
  have h7 := (afterRemDetect_calibration s (u32 millis_now) x).2.2.2.2.2.2.1
  unfold sampleStep calibratorBlocks
  congr 2
  unfold baselineStart
  simp [h7, hcal]

theorem sub16_gt_of_spread (mx mn : Nat) (hmx : mx < 65536) (h : mn + 20 < mx) :
    sub16 mx mn > 20 := by
  unfold sub16; omega

/-- The update block in a calibrating state, before the window end, with a spread above
20 after folding the sample: the window is aborted. -/
theorem baselineUpdate_abort (t : State) (now x : Nat)
    (hcal : t.calculating_base_line = true)
    (hwin : sub32 now t.base_line_calculation_start < 3000)
    (hmax : t.max_value < 65536) (hx : x < 65536)
    (hspread : (foldMinMax t x).min_value + 20 < (foldMinMax t x).max_value) :
    baselineUpdate t now x
      = some { foldMinMax t x with unstable_base_line := true,
                                   last_baseline_timestamp := now,
                                   calculating_base_line := false } := by
  have hm : (foldMinMax t x).max_value < 65536 := by
    rw [foldMinMax_max_value]; split_ifs <;> assumption
  have h16 := sub16_gt_of_spread _ _ hm hspread
  unfold baselineUpdate
  rw [if_pos hcal, if_neg (by omega), if_pos h16]

/-- The pass that opens a calibration window: it is defined, the window is stamped with the
calibrator tick and the running minimum and maximum are the sample. -/
theorem window_open_pass (s0 : State) (t1 a : Nat)
    (hidle : s0.calculating_base_line = false)
    (hdue : sub32 (calTick s0 t1 a) s0.last_baseline_timestamp ≥ 60000) :
    ∃ s1, sampleStep s0 t1 a = some s1 ∧ s1.calculating_base_line = true ∧
      s1.baseLine = s0.baseLine ∧ s1.max_value = a ∧ s1.min_value = a ∧
      s1.base_line_calculation_start = calTick s0 t1 a := by
  obtain ⟨c1, -, -, -, -, -, c7, c8, -⟩ := afterRemDetect_calibration s0 (u32 t1) a
  unfold sampleStep calibratorBlocks
  generalize afterRemDetect s0 (u32 t1) a = t at *
  generalize calTick s0 t1 a = c at *
  have h0 : sub32 c c = 0 := by unfold sub32; omega
  simp [baselineStart, baselineUpdate, c7, c8, hidle, hdue, Bs, h0, updateStatusLed,
    foldMinMax, sub16, c1]

/-- The pass that follows a window start (sample `a`) with a sample `b` more than 20 away
from `a`, before the window end, aborts the window. -/
theorem window_start_then_abort (s0 s1 : State) (t1 t2 a b : Nat)
    (hidle : s0.calculating_base_line = false)
    (hdue : sub32 (calTick s0 t1 a) s0.last_baseline_timestamp ≥ 60000)
    (h1 : sampleStep s0 t1 a = some s1)
    (hwin : sub32 (calTick s1 t2 b) (calTick s0 t1 a) < 3000)
    (ha : a < 65536) (hb : b < 65536) (hab : a + 20 < b ∨ b + 20 < a) :
    s1.calculating_base_line = true ∧ s1.baseLine = s0.baseLine ∧
    ∃ s2, sampleStep s1 t2 b = some s2 ∧
      s2.baseLine = s0.baseLine ∧ s2.calculating_base_line = false ∧
      s2.unstable_base_line = true ∧ s2.last_baseline_timestamp = calTick s1 t2 b := by
  obtain ⟨u, hu, hc1, hb1, hmx1, hmn1, hst1⟩ := window_open_pass s0 t1 a hidle hdue
  rw [h1, Option.some.injEq] at hu
  subst hu
  obtain ⟨t, hsame, hstep2⟩ := sampleStep_calibrating s1 t2 b hc1
  obtain ⟨d1, -, -, d4, d5, -, d7, -, d9⟩ := hsame
  have habort := baselineUpdate_abort t (calTick s1 t2 b) b (d7.trans hc1)
    (by rw [d9, hst1]; exact hwin)
    (by rw [d4, hmx1]; exact ha) hb
    (by rw [foldMinMax_max_value, foldMinMax_min_value, d4, d5, hmx1, hmn1]
        split_ifs <;> omega)
  refine ⟨hc1, hb1, _, hstep2.trans (by rw [habort]; rfl), ?_, rfl, rfl, rfl⟩
  simp only [updateStatusLed]
  rw [(foldMinMax_rest t b).1, d1, hb1]

/-- C4, amended: a pass whose calibrator block runs while the calibrator is calibrating and
the window has not elapsed at the tick that block reads (`calTick`: the tick of the pass,
or `flash_rapid_ticks` later when the pass entered REM), and in which the spread
`max_value - min_value` exceeds 20 once the sample is folded into the running minimum and
maximum, aborts the cycle: `baseLine`, `temp_baseLine` and `Bs_cnt` are unchanged,
`unstable_base_line` is set, `last_baseline_timestamp` becomes that tick and
`calculating_base_line` becomes false. In particular a window started by the sample 400
(or 425) and then fed 425 (or 400) before it has elapsed aborts without changing
`baseLine`. -/
theorem calibration_abort_on_spread (s : State) (millis_now sample : Nat)
    (hcal : s.calculating_base_line = true)
    (hwin : sub32 (calTick s millis_now sample) s.base_line_calculation_start < 3000)
    (hmax : s.max_value < 65536) (hx : sample < 65536)
    (hspread : (foldMinMax s sample).min_value + 20 < (foldMinMax s sample).max_value) :
    (∃ s1, sampleStep s millis_now sample = some s1 ∧
      s1.baseLine = s.baseLine ∧ s1.temp_baseLine = s.temp_baseLine ∧
      s1.Bs_cnt = s.Bs_cnt ∧ s1.unstable_base_line = true ∧
      s1.last_baseline_timestamp = calTick s millis_now sample ∧
      s1.calculating_base_line = false) ∧
    (remEnters s (u32 millis_now) sample = false →
      calTick s millis_now sample = u32 millis_now) ∧
    (remEnters s (u32 millis_now) sample = true →
      calTick s millis_now sample = u32 (millis_now + flash_rapid_ticks)) ∧
    (∀ (s0 s1 : State) (t1 t2 a b : Nat), s0.calculating_base_line = false →
      sub32 (calTick s0 t1 a) s0.last_baseline_timestamp ≥ 60000 →
      sampleStep s0 t1 a = some s1 →
      sub32 (calTick s1 t2 b) (calTick s0 t1 a) < 3000 →
      ((a = 400 ∧ b = 425) ∨ (a = 425 ∧ b = 400)) →
      s1.calculating_base_line = true ∧ s1.baseLine = s0.baseLine ∧
      ∃ s2, sampleStep s1 t2 b = some s2 ∧
        s2.baseLine = s0.baseLine ∧ s2.calculating_base_line = false ∧
        s2.unstable_base_line = true ∧ s2.last_baseline_timestamp = calTick s1 t2 b) := by
  refine ⟨?_, calTick_of_not_enters s millis_now sample,
    calTick_of_enters s millis_now sample, ?_⟩
  · obtain ⟨t, hsame, hstep⟩ := sampleStep_calibrating s millis_now sample hcal
    obtain ⟨d1, d2, d3, d4, d5, -, d7, -, d9⟩ := hsame
    have habort := baselineUpdate_abort t (calTick s millis_now sample) sample (d7.trans hcal)
      (by rw [d9]; exact hwin) (by rw [d4]; exact hmax) hx
      (by rw [foldMinMax_max_value, foldMinMax_min_value, d4, d5]
          rw [foldMinMax_max_value, foldMinMax_min_value] at hspread
          exact hspread)
    refine ⟨_, hstep.trans (by rw [habort]; rfl), ?_, ?_, ?_, rfl, rfl, rfl⟩
    · simp only [updateStatusLed]; rw [(foldMinMax_rest t sample).1, d1]
    · simp only [updateStatusLed]; rw [(foldMinMax_rest t sample).2.1, d2]
    · simp only [updateStatusLed]; rw [(foldMinMax_rest t sample).2.2.1, d3]
  · intro s0 s1 t1 t2 a b hidle hdue h1 hw hab
    refine window_start_then_abort s0 s1 t1 t2 a b hidle hdue h1 hw ?_ ?_ ?_ <;>
      rcases hab with ⟨rfl, rfl⟩ | ⟨rfl, rfl⟩ <;> omega

/-- Witness for C4: from the entry state with baseline 500, the pass at tick 60000 starts
a window with the sample 400; the pass at tick 60020 with the sample 425 aborts it. -/
theorem calibration_abort_on_spread_witness :
    (afterPasses (initState 500 400) [(60000, 400)]).calculating_base_line = true ∧
    sub32 (calTick (afterPasses (initState 500 400) [(60000, 400)]) 60020 425)
      (afterPasses (initState 500 400) [(60000, 400)]).base_line_calculation_start < 3000 ∧
    (foldMinMax (afterPasses (initState 500 400) [(60000, 400)]) 425).min_value + 20
      < (foldMinMax (afterPasses (initState 500 400) [(60000, 400)]) 425).max_value ∧
    ∃ s1, sampleStep (afterPasses (initState 500 400) [(60000, 400)]) 60020 425 = some s1 ∧
      s1.baseLine = (afterPasses (initState 500 400) [(60000, 400)]).baseLine ∧
      s1.temp_baseLine = (afterPasses (initState 500 400) [(60000, 400)]).temp_baseLine ∧
      s1.Bs_cnt = (afterPasses (initState 500 400) [(60000, 400)]).Bs_cnt ∧
      s1.unstable_base_line = true ∧
      s1.last_baseline_timestamp
        = calTick (afterPasses (initState 500 400) [(60000, 400)]) 60020 425 ∧
      s1.calculating_base_line = false :=
  ⟨by decide, by decide, by decide,
    (calibration_abort_on_spread (afterPasses (initState 500 400) [(60000, 400)]) 60020 425
      (by decide) (by decide) (by decide) (by decide) (by decide)).1⟩

/-- C5, amended: `baseLine` after a pass differs from `baseLine` before it only if the
calibrator was calibrating and the window had elapsed at the tick the calibrator block of
that pass reads (`calTick - base_line_calculation_start >= 3000`, with `calTick` the tick
of the pass, or `flash_rapid_ticks` later when the pass entered REM); in that case the new
`baseLine` is `temp_baseLine / Bs_cnt` (integer division, stored in the 16-bit variable),
`calculating_base_line` becomes false and `last_baseline_timestamp` becomes that tick;
every other pass leaves `baseLine` unchanged. The pass is defined unless that division has
a zero divisor. -/
theorem baseLine_replaced_only_at_window_end (s : State) (millis_now sample : Nat) :
    (sampleStep s millis_now sample = none ↔
      (s.calculating_base_line = true ∧
        sub32 (calTick s millis_now sample) s.base_line_calculation_start ≥ 3000 ∧
        s.Bs_cnt = 0)) ∧
    (remEnters s (u32 millis_now) sample = false →
      calTick s millis_now sample = u32 millis_now) ∧
    (remEnters s (u32 millis_now) sample = true →
      calTick s millis_now sample = u32 (millis_now + flash_rapid_ticks)) ∧
    (∀ s1, sampleStep s millis_now sample = some s1 →
      (s1.baseLine ≠ s.baseLine →
        s.calculating_base_line = true ∧
          sub32 (calTick s millis_now sample) s.base_line_calculation_start ≥ 3000) ∧
      (s.calculating_base_line = true ∧
          sub32 (calTick s millis_now sample) s.base_line_calculation_start ≥ 3000 →
        s.Bs_cnt ≠ 0 ∧
        s1.baseLine = (s.temp_baseLine / s.Bs_cnt) % 65536 ∧
        (s.temp_baseLine / s.Bs_cnt < 65536 → s1.baseLine = s.temp_baseLine / s.Bs_cnt) ∧
        s1.calculating_base_line = false ∧
        s1.last_baseline_timestamp = calTick s millis_now sample) ∧
      (¬ (s.calculating_base_line = true ∧
          sub32 (calTick s millis_now sample) s.base_line_calculation_start ≥ 3000) →
        s1.baseLine = s.baseLine)) := by
  refine ⟨sampleStep_eq_none_iff s millis_now sample, calTick_of_not_enters s millis_now sample,
    calTick_of_enters s millis_now sample, ?_⟩
  intro s1 h
  have key : (s.calculating_base_line = true ∧
        sub32 (calTick s millis_now sample) s.base_line_calculation_start ≥ 3000 →
      s.Bs_cnt ≠ 0 ∧ s1.baseLine = (s.temp_baseLine / s.Bs_cnt) % 65536 ∧
        s1.calculating_base_line = false ∧
        s1.last_baseline_timestamp = calTick s millis_now sample) ∧
      (¬ (s.calculating_base_line = true ∧
          sub32 (calTick s millis_now sample) s.base_line_calculation_start ≥ 3000) →
        s1.baseLine = s.baseLine) := by
    obtain ⟨c1, c2, c3, c4, c5, c6, c7, c8, c9⟩ :=
      afterRemDetect_calibration s (u32 millis_now) sample
    unfold sampleStep calibratorBlocks at h
    generalize afterRemDetect s (u32 millis_now) sample = t at *
    generalize calTick s millis_now sample = c at *
    obtain ⟨t1, ht1, rfl⟩ := Option.map_eq_some'.mp h
    have hfm := (foldMinMax_rest (baselineStart t c sample) sample).1
    have h0 : sub32 c c = 0 := by unfold sub32; omega
    unfold baselineUpdate at ht1
    cases hc : s.calculating_base_line <;> rw [hc] at c7
    · have hbs : (baselineStart t c sample).baseLine = s.baseLine := by
        unfold baselineStart; split_ifs <;> simp [c1]
      have hst : (baselineStart t c sample).calculating_base_line = true →
          (baselineStart t c sample).base_line_calculation_start = c := by
        unfold baselineStart; split_ifs <;> simp [c7]
      refine ⟨by simp, fun _ => ?_⟩
      split_ifs at ht1 with g1 g2 g3 g4 <;> simp only [Option.some.injEq] at ht1 <;>
        subst ht1 <;> simp only [updateStatusLed]
      · rw [hst g1, h0] at g2; omega
      · rw [hfm, hbs]
      · rw [hfm, hbs]
      · exact hbs
    · have hbs : baselineStart t c sample = t := by
        unfold baselineStart; simp [c7]
      rw [hbs] at ht1 hfm
      simp only [c7, if_true, c9, c3, c2] at ht1
      constructor
      · intro hh
        simp only [if_pos hh.2] at ht1
        split_ifs at ht1 with g
        simp only [Option.some.injEq] at ht1
        subst ht1
        exact ⟨g, rfl, rfl, rfl⟩
      · intro hh
        have hlt : ¬ sub32 c s.base_line_calculation_start ≥ 3000 :=
          fun g => hh ⟨rfl, g⟩
        simp only [if_neg hlt] at ht1
        split_ifs at ht1 <;> simp only [Option.some.injEq] at ht1 <;> subst ht1 <;>
          simp only [updateStatusLed] <;> rw [hfm, c1]
  refine ⟨fun hne => ?_, fun hh => ?_, key.2⟩
  · by_contra hcon
    exact hne (key.2 hcon)
  · obtain ⟨k1, k2, k3, k4⟩ := key.1 hh
    exact ⟨k1, k2, fun hlt => by rw [k2, Nat.mod_eq_of_lt hlt], k3, k4⟩

/-- Witness for C5: a window started at tick 60000 and fed the sample 400 at ticks 60000
and 60020 ends in the pass at tick 63000 with `baseLine = 800 / 2 = 400`. -/
theorem baseLine_replaced_only_at_window_end_witness :
    (afterPasses (initState 500 400) [(60000, 400), (60020, 400)]).calculating_base_line = true ∧
    sub32 (calTick (afterPasses (initState 500 400) [(60000, 400), (60020, 400)]) 63000 400)
      (afterPasses (initState 500 400) [(60000, 400), (60020, 400)]).base_line_calculation_start
        ≥ 3000 ∧
    ∃ s1, sampleStep (afterPasses (initState 500 400) [(60000, 400), (60020, 400)]) 63000 400
        = some s1 ∧
      s1.baseLine = 400 ∧ s1.calculating_base_line = false ∧
      s1.last_baseline_timestamp = 63000 :=
  ⟨by decide, by decide, _, rfl,
    (((baseLine_replaced_only_at_window_end
      (afterPasses (initState 500 400) [(60000, 400), (60020, 400)]) 63000 400).2.2.2 _ rfl).2.1
      ⟨by decide, by decide⟩).2.1,
    by decide, by decide⟩

/-! ## Fields that each detector block leaves unchanged -/

@[simp] theorem remTimeout_keeps (s : State) (now : Nat) :
    (remTimeout s now).ring = s.ring ∧
    (remTimeout s now).max_amplitude = s.max_amplitude ∧
    (remTimeout s now).baseLine = s.baseLine ∧
    (remTimeout s now).temp_baseLine = s.temp_baseLine ∧
    (remTimeout s now).Bs_cnt = s.Bs_cnt ∧
    (remTimeout s now).max_value = s.max_value ∧
    (remTimeout s now).min_value = s.min_value ∧
    (remTimeout s now).unstable_base_line = s.unstable_base_line ∧
    (remTimeout s now).calculating_base_line = s.calculating_base_line ∧
    (remTimeout s now).spike = s.spike ∧
    (remTimeout s now).spike_value = s.spike_value ∧
    (remTimeout s now).spike_counter = s.spike_counter ∧
    (remTimeout s now).last_baseline_timestamp = s.last_baseline_timestamp ∧
    (remTimeout s now).last_sample_timestamp = s.last_sample_timestamp ∧
    (remTimeout s now).last_spike_event_timestamp = s.last_spike_event_timestamp ∧
    (remTimeout s now).REM_cycle_start_timestamp = s.REM_cycle_start_timestamp ∧
    (remTimeout s now).base_line_calculation_start = s.base_line_calculation_start ∧
    (remTimeout s now).idling = s.idling ∧
    (remTimeout s now).status_led = s.status_led ∧
    (remTimeout s now).flash_rapid_calls = s.flash_rapid_calls := by
  unfold remTimeout; split_ifs <;> simp

@[simp] theorem takeSample_keeps (s : State) (now x : Nat) :
    (takeSample s now x).max_amplitude = s.max_amplitude ∧
    (takeSample s now x).baseLine = s.baseLine ∧
    (takeSample s now x).temp_baseLine = s.temp_baseLine ∧
    (takeSample s now x).Bs_cnt = s.Bs_cnt ∧
    (takeSample s now x).max_value = s.max_value ∧
    (takeSample s now x).min_value = s.min_value ∧
    (takeSample s now x).unstable_base_line = s.unstable_base_line ∧
    (takeSample s now x).calculating_base_line = s.calculating_base_line ∧
    (takeSample s now x).spike = s.spike ∧
    (takeSample s now x).REM = s.REM ∧
    (takeSample s now x).spike_value = s.spike_value ∧
    (takeSample s now x).spike_counter = s.spike_counter ∧
    (takeSample s now x).last_baseline_timestamp = s.last_baseline_timestamp ∧
    (takeSample s now x).last_spike_event_timestamp = s.last_spike_event_timestamp ∧
    (takeSample s now x).REM_cycle_start_timestamp = s.REM_cycle_start_timestamp ∧
    (takeSample s now x).base_line_calculation_start = s.base_line_calculation_start ∧
    (takeSample s now x).idling = s.idling ∧
    (takeSample s now x).status_led = s.status_led ∧
    (takeSample s now x).flash_rapid_calls = s.flash_rapid_calls := by
  simp [takeSample]

@[simp] theorem spikeDetect_keeps (s : State) (a : Nat) :
    (spikeDetect s a).ring = s.ring ∧
    (spikeDetect s a).max_amplitude = s.max_amplitude ∧
    (spikeDetect s a).baseLine = s.baseLine ∧
    (spikeDetect s a).temp_baseLine = s.temp_baseLine ∧
    (spikeDetect s a).Bs_cnt = s.Bs_cnt ∧
    (spikeDetect s a).max_value = s.max_value ∧
    (spikeDetect s a).min_value = s.min_value ∧
    (spikeDetect s a).unstable_base_line = s.unstable_base_line ∧
    (spikeDetect s a).calculating_base_line = s.calculating_base_line ∧
    (spikeDetect s a).REM = s.REM ∧
    (spikeDetect s a).spike_counter = s.spike_counter ∧
    (spikeDetect s a).last_baseline_timestamp = s.last_baseline_timestamp ∧
    (spikeDetect s a).last_sample_timestamp = s.last_sample_timestamp ∧
    (spikeDetect s a).last_spike_event_timestamp = s.last_spike_event_timestamp ∧
    (spikeDetect s a).REM_cycle_start_timestamp = s.REM_cycle_start_timestamp ∧
    (spikeDetect s a).base_line_calculation_start = s.base_line_calculation_start ∧
    (spikeDetect s a).idling = s.idling ∧
    (spikeDetect s a).status_led = s.status_led ∧
    (spikeDetect s a).flash_rapid_calls = s.flash_rapid_calls := by
  unfold spikeDetect; split_ifs <;> simp

@[simp] theorem spikeClose_keeps (s : State) (now a : Nat) :
    (spikeClose s now a).ring = s.ring ∧
    (spikeClose s now a).max_amplitude = s.max_amplitude ∧
    (spikeClose s now a).baseLine = s.baseLine ∧
    (spikeClose s now a).temp_baseLine = s.temp_baseLine ∧
    (spikeClose s now a).Bs_cnt = s.Bs_cnt ∧
    (spikeClose s now a).max_value = s.max_value ∧
    (spikeClose s now a).min_value = s.min_value ∧
    (spikeClose s now a).unstable_base_line = s.unstable_base_line ∧
    (spikeClose s now a).calculating_base_line = s.calculating_base_line ∧
    (spikeClose s now a).REM = s.REM ∧
    (spikeClose s now a).last_baseline_timestamp = s.last_baseline_timestamp ∧
    (spikeClose s now a).last_sample_timestamp = s.last_sample_timestamp ∧
    (spikeClose s now a).REM_cycle_start_timestamp = s.REM_cycle_start_timestamp ∧
    (spikeClose s now a).base_line_calculation_start = s.base_line_calculation_start ∧
    (spikeClose s now a).idling = s.idling ∧
    (spikeClose s now a).status_led = s.status_led ∧
    (spikeClose s now a).flash_rapid_calls = s.flash_rapid_calls := by
  unfold spikeClose; split_ifs <;> simp

@[simp] theorem spikeDecay_keeps (s : State) (now : Nat) :
    (spikeDecay s now).ring = s.ring ∧
    (spikeDecay s now).max_amplitude = s.max_amplitude ∧
    (spikeDecay s now).baseLine = s.baseLine ∧
    (spikeDecay s now).temp_baseLine = s.temp_baseLine ∧
    (spikeDecay s now).Bs_cnt = s.Bs_cnt ∧
    (spikeDecay s now).max_value = s.max_value ∧
    (spikeDecay s now).min_value = s.min_value ∧
    (spikeDecay s now).unstable_base_line = s.unstable_base_line ∧
    (spikeDecay s now).calculating_base_line = s.calculating_base_line ∧
    (spikeDecay s now).spike = s.spike ∧
    (spikeDecay s now).REM = s.REM ∧
    (spikeDecay s now).spike_value = s.spike_value ∧
    (spikeDecay s now).last_baseline_timestamp = s.last_baseline_timestamp ∧
    (spikeDecay s now).last_sample_timestamp = s.last_sample_timestamp ∧
    (spikeDecay s now).REM_cycle_start_timestamp = s.REM_cycle_start_timestamp ∧
    (spikeDecay s now).base_line_calculation_start = s.base_line_calculation_start ∧
    (spikeDecay s now).idling = s.idling ∧
    (spikeDecay s now).status_led = s.status_led ∧
    (spikeDecay s now).flash_rapid_calls = s.flash_rapid_calls := by
  unfold spikeDecay; split_ifs <;> simp

@[simp] theorem idleGate_keeps (s : State) (now : Nat) :
    (idleGate s now).ring = s.ring ∧
    (idleGate s now).max_amplitude = s.max_amplitude ∧
    (idleGate s now).baseLine = s.baseLine ∧
    (idleGate s now).temp_baseLine = s.temp_baseLine ∧
    (idleGate s now).Bs_cnt = s.Bs_cnt ∧
    (idleGate s now).max_value = s.max_value ∧
    (idleGate s now).min_value = s.min_value ∧
    (idleGate s now).unstable_base_line = s.unstable_base_line ∧
    (idleGate s now).calculating_base_line = s.calculating_base_line ∧
    (idleGate s now).spike = s.spike ∧
    (idleGate s now).REM = s.REM ∧
    (idleGate s now).spike_value = s.spike_value ∧
    (idleGate s now).last_baseline_timestamp = s.last_baseline_timestamp ∧
    (idleGate s now).last_sample_timestamp = s.last_sample_timestamp ∧
    (idleGate s now).last_spike_event_timestamp = s.last_spike_event_timestamp ∧
    (idleGate s now).REM_cycle_start_timestamp = s.REM_cycle_start_timestamp ∧
    (idleGate s now).base_line_calculation_start = s.base_line_calculation_start ∧
    (idleGate s now).status_led = s.status_led ∧
    (idleGate s now).flash_rapid_calls = s.flash_rapid_calls := by
  unfold idleGate; split_ifs <;> simp

@[simp] theorem remDetect_keeps (s : State) (now : Nat) :
    (remDetect s now).ring = s.ring ∧
    (remDetect s now).max_amplitude = s.max_amplitude ∧
    (remDetect s now).baseLine = s.baseLine ∧
    (remDetect s now).temp_baseLine = s.temp_baseLine ∧
    (remDetect s now).Bs_cnt = s.Bs_cnt ∧
    (remDetect s now).max_value = s.max_value ∧
    (remDetect s now).min_value = s.min_value ∧
    (remDetect s now).unstable_base_line = s.unstable_base_line ∧
    (remDetect s now).calculating_base_line = s.calculating_base_line ∧
    (remDetect s now).spike = s.spike ∧
    (remDetect s now).spike_value = s.spike_value ∧
    (remDetect s now).spike_counter = s.spike_counter ∧
    (remDetect s now).last_baseline_timestamp = s.last_baseline_timestamp ∧
    (remDetect s now).last_sample_timestamp = s.last_sample_timestamp ∧
    (remDetect s now).last_spike_event_timestamp = s.last_spike_event_timestamp ∧
    (remDetect s now).base_line_calculation_start = s.base_line_calculation_start ∧
    (remDetect s now).idling = s.idling ∧
    (remDetect s now).status_led = s.status_led := by
  unfold remDetect; split_ifs <;> simp

/-! ## Reachable states -/

theorem reachable_runSteps (ins : List (Nat × Nat)) (s s1 : State) (hs : Reachable s)
    (hx : ∀ p ∈ ins, p.2 < 65536) (h : runSteps s ins = some s1) : Reachable s1 := by
  induction ins generalizing s with
  | nil =>
    simp only [runSteps, Option.some.injEq] at h
    exact h ▸ hs
  | cons p rest ih =>
    obtain ⟨t, x⟩ := p
    simp only [runSteps] at h
    cases hstep : sampleStep s t x with
    | none => rw [hstep] at h; exact absurd h (by simp)
    | some s2 =>
      rw [hstep] at h
      exact ih s2 (Reachable.step s s2 t x hs (hx (t, x) (List.mem_cons_self _ _)) hstep)
        (fun p hp => hx p (List.mem_cons_of_mem _ hp)) h

theorem reachable_afterPasses (ins : List (Nat × Nat)) (s : State) (hs : Reachable s)
    (hx : ∀ p ∈ ins, p.2 < 65536) : Reachable (afterPasses s ins) := by
  unfold afterPasses
  cases h : runSteps s ins with
  | none => exact hs
  | some s1 => exact reachable_runSteps ins s s1 hs hx h

/-! ## Spike counter -/

/-- The spike counter at the end of a pass, read off the detector blocks. -/
theorem sampleStep_spike_counter (s s1 : State) (millis_now x : Nat)
    (h : sampleStep s millis_now x = some s1) :
    s1.spike_counter = (atRemCheck s (u32 millis_now) x).spike_counter := by
  have hd := (sampleStep_detector s s1 millis_now x h).2.2.2.2.1
  rw [hd]; simp [afterRemDetect]

theorem spikeClose_counter_lt (s : State) (now a : Nat) (h : s.spike_counter < 256) :
    (spikeClose s now a).spike_counter < 256 := by
  unfold spikeClose; split_ifs <;> first | exact h | exact Nat.mod_lt _ (by decide)

theorem spikeDecay_counter_le (s : State) (now : Nat) :
    (spikeDecay s now).spike_counter ≤ s.spike_counter := by
  unfold spikeDecay; split_ifs <;> simp

theorem idleGate_counter_le (s : State) (now : Nat) :
    (idleGate s now).spike_counter ≤ s.spike_counter := by
  unfold idleGate; split_ifs <;> simp

/-- After the REM detection block a state that is neither idling nor in REM has a counter
below `spikes_needed`. -/
theorem remDetect_watching (s : State) (now : Nat)
    (h : (remDetect s now).idling = false ∧ (remDetect s now).REM = false) :
    (remDetect s now).spike_counter < spikes_needed := by
  unfold remDetect at h ⊢
  split_ifs at h ⊢ <;> simp_all

theorem reachable_counter_bounds (s : State) (hs : Reachable s) :
    s.spike_counter < 256 ∧
    (s.idling = false ∧ s.REM = false → s.spike_counter < spikes_needed) := by
  induction hs with
  | init b a hb ha => simp [initState]
  | step s s1 m x hs hx h ih =>
    obtain ⟨-, -, -, -, d5, d6, d7, -⟩ := sampleStep_detector s s1 m x h
    constructor
    · rw [sampleStep_spike_counter s s1 m x h]
      unfold atRemCheck afterDecay afterSpikeClose
      refine lt_of_le_of_lt (idleGate_counter_le _ _) (lt_of_le_of_lt (spikeDecay_counter_le _ _)
        (spikeClose_counter_lt _ _ _ ?_))
      simpa [afterSample] using ih.1
    · intro hw
      rw [d5]
      exact remDetect_watching _ _ ⟨d7 ▸ hw.1, d6 ▸ hw.2⟩

/-- C6, counterexample: the entry state with `baseLine = 500` and `max_amplitude = 400`,
fed sixteen spikes within 1280 ticks while idling, reaches `spike_counter = 16`, above
`spikes_needed = 15`. -/
theorem spike_counter_exceeds_spikes_needed :
    Reachable (afterPasses (initState 500 400) (spikeTrain 16)) ∧
    (afterPasses (initState 500 400) (spikeTrain 16)).spike_counter = 16 ∧
    ¬ (afterPasses (initState 500 400) (spikeTrain 16)).spike_counter ≤ spikes_needed := by
  refine ⟨reachable_afterPasses _ _ (Reachable.init 500 400 (by decide) (by decide)) ?_,
    by decide, by decide⟩
  decide

/-- C6, amended: in every reachable state `spike_counter` is within its 8-bit range
0..255, and it is below `spikes_needed` whenever the detector is watching (neither idling
nor in REM); below 255 the spike-close block increments the counter by exactly one, with
no saturation at `spikes_needed`. -/
theorem spike_counter_bounded_while_watching (s : State) (hs : Reachable s) :
    s.spike_counter ≤ 255 ∧
    (s.idling = false ∧ s.REM = false → s.spike_counter < spikes_needed) ∧
    (∀ now sample, spikeCloses s now sample = true → s.spike_counter < 255 →
      (afterSpikeClose s now sample).spike_counter = s.spike_counter + 1) := by
  obtain ⟨h1, h2⟩ := reachable_counter_bounds s hs
  refine ⟨by omega, h2, ?_⟩
  intro now sample hc hlt
  unfold spikeCloses at hc
  simp only [Bool.and_eq_true, decide_eq_true_eq] at hc
  unfold afterSpikeClose spikeClose
  rw [if_pos hc.1, if_pos hc.2]
  simp only [afterSample, spikeDetect_keeps, takeSample_keeps, remTimeout_keeps]
  exact Nat.mod_eq_of_lt (by omega)

/-- Witness for C6 (amended): the state reached by fifteen spikes while idling. -/
theorem spike_counter_bounded_while_watching_witness :
    Reachable (afterPasses (initState 500 400) (spikeTrain 15)) ∧
    (afterPasses (initState 500 400) (spikeTrain 15)).spike_counter ≤ 255 :=
  ⟨reachable_afterPasses _ _ (Reachable.init 500 400 (by decide) (by decide)) (by decide),
    (spike_counter_bounded_while_watching _
      (reachable_afterPasses _ _ (Reachable.init 500 400 (by decide) (by decide))
        (by decide))).1⟩

/-! ## Decay of the spike counter -/

/-- The decay block, case by case. -/
theorem spikeDecay_cases (t : State) (now : Nat) :
    (t.spike_counter > 0 ∧ sub32 now t.last_spike_event_timestamp ≥ 15000 ∧
      (spikeDecay t now).spike_counter + 1 = t.spike_counter ∧
      (spikeDecay t now).last_spike_event_timestamp = now) ∨
    (¬ (t.spike_counter > 0 ∧ sub32 now t.last_spike_event_timestamp ≥ 15000) ∧
      spikeDecay t now = t) := by
  unfold spikeDecay spike_decrement_delay
  split_ifs with h1 h2
  · left; exact ⟨h1, h2, by simp only; omega, rfl⟩
  · right; exact ⟨fun h => h2 h.2, rfl⟩
  · right; exact ⟨fun h => h1 h.1, rfl⟩

theorem decayFires_iff (s : State) (now x : Nat) :
    decayFires s now x = true ↔
      ((afterSpikeClose s now x).spike_counter > 0 ∧
        sub32 now (afterSpikeClose s now x).last_spike_event_timestamp ≥ 15000) := by
  simp [decayFires, spike_decrement_delay]

theorem spikeCloses_iff (s : State) (now x : Nat) :
    spikeCloses s now x = true ↔
      ((spikeDetect (afterSample s now x) (absMean (afterSample s now x))).spike = true ∧
        absMean (afterSample s now x) <
          (spikeDetect (afterSample s now x) (absMean (afterSample s now x))).spike_value / 3) := by
  simp [spikeCloses]

/-- The timestamp after the spike-close block: now when a spike closed, else unchanged. -/
theorem afterSpikeClose_stamp (s : State) (now x : Nat) :
    (afterSpikeClose s now x).last_spike_event_timestamp
      = if spikeCloses s now x = true then now else s.last_spike_event_timestamp := by
  have hiff := spikeCloses_iff s now x
  unfold afterSpikeClose spikeClose
  by_cases hc : spikeCloses s now x = true
  · rw [if_pos hc, if_pos (hiff.mp hc).1, if_pos (hiff.mp hc).2]
  · rw [if_neg hc]
    split_ifs with h1 h2
    · exact absurd (hiff.mpr ⟨h1, h2⟩) hc
    · simp [afterSample]
    · simp [afterSample]

theorem sub32_self (n : Nat) : sub32 n n = 0 := by
  unfold sub32; omega

/-- No decay decrement in a pass that closes a spike. -/
theorem decayFires_of_spikeCloses (s : State) (now x : Nat)
    (h : spikeCloses s now x = true) : decayFires s now x = false := by
  have hst := afterSpikeClose_stamp s now x
  rw [if_pos h] at hst
  rw [Bool.eq_false_iff]
  intro hf
  rw [decayFires_iff, hst, sub32_self] at hf
  omega

/-- The timestamp at the end of a pass. -/
theorem sampleStep_stamp (s s1 : State) (millis_now x : Nat)
    (h : sampleStep s millis_now x = some s1) :
    s1.last_spike_event_timestamp
      = if spikeCloses s (u32 millis_now) x = true ∨ decayFires s (u32 millis_now) x = true
        then u32 millis_now else s.last_spike_event_timestamp := by
  have hd := (sampleStep_detector s s1 millis_now x h).2.2.2.2.2.2.2.2.1
  have hst := afterSpikeClose_stamp s (u32 millis_now) x
  have hdf := decayFires_iff s (u32 millis_now) x
  rw [hd]
  simp only [afterRemDetect, atRemCheck, remDetect_keeps, idleGate_keeps, afterDecay]
  rcases spikeDecay_cases (afterSpikeClose s (u32 millis_now) x) (u32 millis_now) with
    ⟨c1, c2, -, c4⟩ | ⟨c1, c2⟩
  · rw [c4, if_pos (Or.inr (hdf.mpr ⟨c1, c2⟩))]
  · rw [c2, hst]
    have : ¬ decayFires s (u32 millis_now) x = true := fun hf => c1 (hdf.mp hf)
    by_cases hc : spikeCloses s (u32 millis_now) x = true
    · simp [hc]
    · simp [hc, this]
theorem eventStamp_step (s s1 : State) (t0 tc t x : Nat) (hst : EventStamp s t0 tc)
    (htc : tc ≤ t) (h : sampleStep s t x = some s1) : EventStamp s1 t0 t := by
  obtain ⟨e, h0, h1, he⟩ := hst
  have hs1 := sampleStep_stamp s s1 t x h
  split_ifs at hs1
  · exact ⟨t, by omega, le_refl _, hs1⟩
  · exact ⟨e, h0, by omega, hs1.trans he⟩

theorem eventStamp_of_decay (s s1 : State) (t x : Nat) (hf : decayFires s (u32 t) x = true)
    (h : sampleStep s t x = some s1) : EventStamp s1 t t := by
  have hs1 := sampleStep_stamp s s1 t x h
  rw [if_pos (Or.inr hf)] at hs1
  exact ⟨t, le_refl _, le_refl _, hs1⟩

/-- A decay decrement comes at least 15000 ticks after the event that the timestamp
records. -/
theorem decay_after_stamp (s : State) (t0 tc t x : Nat) (hst : EventStamp s t0 tc)
    (htc : tc ≤ t) (hf : decayFires s (u32 t) x = true) : t0 + 15000 ≤ t := by
  obtain ⟨e, h0, h1, he⟩ := hst
  have hcl : ¬ spikeCloses s (u32 t) x = true := by
    intro hc
    rw [decayFires_of_spikeCloses s (u32 t) x hc] at hf
    exact absurd hf (by simp)
  have hstamp := afterSpikeClose_stamp s (u32 t) x
  rw [if_neg hcl, he] at hstamp
  rw [decayFires_iff, hstamp] at hf
  have h2 := hf.2
  unfold sub32 u32 at h2
  omega

theorem decayTicks_ge (ins : List (Nat × Nat)) (s : State) (t0 tc : Nat)
    (hst : EventStamp s t0 tc) (htc : ∀ p ∈ ins, tc ≤ p.1)
    (hsorted : (ins.map Prod.fst).Pairwise (fun a b => a ≤ b)) :
    ∀ d ∈ decayTicks s ins, t0 + 15000 ≤ d := by
  induction ins generalizing s tc with
  | nil => intro d hd; simp [decayTicks] at hd
  | cons p rest ih =>
    obtain ⟨t, x⟩ := p
    have ht : tc ≤ t := htc (t, x) (List.mem_cons_self _ _)
    simp only [List.map_cons, List.pairwise_cons] at hsorted
    intro d hd
    simp only [decayTicks, List.mem_append] at hd
    rcases hd with hd | hd
    · split_ifs at hd with hf
      · simp only [List.mem_singleton] at hd
        subst hd
        exact decay_after_stamp s t0 tc d x hst ht hf
      · simp at hd
    · cases hstep : sampleStep s t x with
      | none => rw [hstep] at hd; simp at hd
      | some s1 =>
        rw [hstep] at hd
        refine ih s1 t (eventStamp_step s s1 t0 tc t x hst ht hstep) ?_ hsorted.2 d hd
        intro p hp
        exact hsorted.1 p.1 (List.mem_map_of_mem _ hp)

/-- Two decay decrements of a run with non-decreasing ticks are at least 15000 ticks
apart. -/
theorem decayTicks_spaced (ins : List (Nat × Nat)) (s : State)
    (hsorted : (ins.map Prod.fst).Pairwise (fun a b => a ≤ b)) :
    (decayTicks s ins).Pairwise (fun a b => a + 15000 ≤ b) := by
  induction ins generalizing s with
  | nil => simp [decayTicks]
  | cons p rest ih =>
    obtain ⟨t, x⟩ := p
    simp only [List.map_cons, List.pairwise_cons] at hsorted
    simp only [decayTicks]
    cases hstep : sampleStep s t x with
    | none =>
      simp only [List.append_nil]
      split_ifs <;> simp
    | some s1 =>
      simp only
      split_ifs with hf
      · simp only [List.singleton_append, List.pairwise_cons]
        refine ⟨?_, ih s1 hsorted.2⟩
        refine decayTicks_ge rest s1 t t (eventStamp_of_decay s s1 t x hf hstep) ?_ hsorted.2
        intro p hp
        exact hsorted.1 p.1 (List.mem_map_of_mem _ hp)
      · simpa using ih s1 hsorted.2

/-- C7: in every pass the decay block decrements `spike_counter` only when the counter is
positive and `now - last_spike_event_timestamp >= 15000`; it then decrements by exactly 1
and sets `last_spike_event_timestamp` to now. That timestamp is rewritten, to now, by the
spike-close block and by the decay block only. No decay decrement happens in a pass that
closes a spike, and over a run with non-decreasing ticks two decay decrements are at
least 15000 ticks apart. -/
theorem decay_needs_full_interval (s : State) (millis_now sample : Nat) :
    (decayFires s (u32 millis_now) sample = true ↔
      ((afterSpikeClose s (u32 millis_now) sample).spike_counter > 0 ∧
        sub32 (u32 millis_now)
          (afterSpikeClose s (u32 millis_now) sample).last_spike_event_timestamp ≥ 15000)) ∧
    (decayFires s (u32 millis_now) sample = true →
      (afterDecay s (u32 millis_now) sample).spike_counter + 1
        = (afterSpikeClose s (u32 millis_now) sample).spike_counter ∧
      (afterDecay s (u32 millis_now) sample).last_spike_event_timestamp = u32 millis_now) ∧
    (decayFires s (u32 millis_now) sample = false →
      afterDecay s (u32 millis_now) sample = afterSpikeClose s (u32 millis_now) sample) ∧
    (spikeCloses s (u32 millis_now) sample = true →
      decayFires s (u32 millis_now) sample = false) ∧
    (∀ s1, sampleStep s millis_now sample = some s1 →
      s1.last_spike_event_timestamp
        = if spikeCloses s (u32 millis_now) sample = true ∨
            decayFires s (u32 millis_now) sample = true
          then u32 millis_now else s.last_spike_event_timestamp) ∧
    (∀ ins : List (Nat × Nat), (ins.map Prod.fst).Pairwise (fun a b => a ≤ b) →
      (decayTicks s ins).Pairwise (fun a b => a + 15000 ≤ b)) := by
  have hiff := decayFires_iff s (u32 millis_now) sample
  refine ⟨hiff, ?_, ?_, decayFires_of_spikeCloses s _ sample,
    fun s1 h => sampleStep_stamp s s1 millis_now sample h,
    fun ins hs => decayTicks_spaced ins s hs⟩
  · intro hf
    unfold afterDecay
    rcases spikeDecay_cases (afterSpikeClose s (u32 millis_now) sample) (u32 millis_now) with
      ⟨-, -, c3, c4⟩ | ⟨c1, -⟩
    · exact ⟨c3, c4⟩
    · exact absurd (hiff.mp hf) c1
  · intro hf
    unfold afterDecay
    rcases spikeDecay_cases (afterSpikeClose s (u32 millis_now) sample) (u32 millis_now) with
      ⟨c1, c2, -, -⟩ | ⟨-, c2⟩
    · rw [hiff.mpr ⟨c1, c2⟩] at hf
      exact absurd hf (by simp)
    · exact c2

/-- Witness for C7: after two spikes closed by tick 160, the quiet passes at ticks 15160
and 30160 are the two decay decrements of the run. -/
theorem decay_needs_full_interval_witness :
    decayTicks (initState 500 400) (spikeTrain 2 ++ [(15160, 500), (30160, 500)])
      = [15160, 30160] ∧
    ((spikeTrain 2 ++ [(15160, 500), (30160, 500)]).map Prod.fst).Pairwise
      (fun a b => a ≤ b) ∧
    (decayTicks (initState 500 400) (spikeTrain 2 ++ [(15160, 500), (30160, 500)])).Pairwise
      (fun a b => a + 15000 ≤ b) :=
  ⟨by decide, by decide,
    (decay_needs_full_interval (initState 500 400) 0 0).2.2.2.2.2
      (spikeTrain 2 ++ [(15160, 500), (30160, 500)]) (by decide)⟩

/-! ## REM detection and the idle gate -/

/-- The REM detection block, case by case. -/
theorem remDetect_cases (t : State) (now : Nat) :
    (t.REM = false ∧ t.idling = false ∧ t.spike_counter ≥ spikes_needed ∧
      (remDetect t now).REM = true ∧ (remDetect t now).REM_cycle_start_timestamp = now ∧
      (remDetect t now).flash_rapid_calls = t.flash_rapid_calls + 1) ∨
    (¬ (t.REM = false ∧ t.idling = false ∧ t.spike_counter ≥ spikes_needed) ∧
      remDetect t now = t) := by
  unfold remDetect
  by_cases hc : t.REM = false ∧ t.idling = false
  · by_cases hn : t.spike_counter ≥ spikes_needed
    · left; simp [hc.1, hc.2, hn]
    · right; simp [hc.1, hc.2, hn]
  · right
    refine ⟨fun h => hc ⟨h.1, h.2.1⟩, ?_⟩
    cases hr : t.REM <;> cases hi : t.idling <;> simp_all

/-- The idle gate, case by case. -/
theorem idleGate_cases (t : State) (now : Nat) :
    (t.idling = true ∧ now ≥ 3600000 ∧ (idleGate t now).idling = false ∧
      (idleGate t now).spike_counter = 0) ∨
    (¬ (t.idling = true ∧ now ≥ 3600000) ∧ idleGate t now = t) := by
  unfold idleGate idle_delay
  by_cases hi : t.idling = true
  · by_cases hn : now ≥ 3600000
    · left; simp [hi, hn]
    · right; simp [hi, hn]
  · right; simp [hi]

theorem atRemCheck_REM (s : State) (now x : Nat) :
    (atRemCheck s now x).REM = (remTimeout s now).REM := by
  simp [atRemCheck, afterDecay, afterSpikeClose, afterSample]

theorem atRemCheck_keeps (s : State) (now x : Nat) :
    (atRemCheck s now x).REM_cycle_start_timestamp = s.REM_cycle_start_timestamp ∧
    (atRemCheck s now x).flash_rapid_calls = s.flash_rapid_calls := by
  simp [atRemCheck, afterDecay, afterSpikeClose, afterSample]

theorem afterDecay_idling (s : State) (now x : Nat) :
    (afterDecay s now x).idling = s.idling := by
  simp [afterDecay, afterSpikeClose, afterSample]

/-- The REM variables at the end of a pass are those the REM detection block left. -/
theorem sampleStep_rem (s s1 : State) (millis_now x : Nat)
    (h : sampleStep s millis_now x = some s1) :
    s1.REM = (afterRemDetect s (u32 millis_now) x).REM ∧
    s1.idling = (atRemCheck s (u32 millis_now) x).idling ∧
    s1.REM_cycle_start_timestamp
      = (afterRemDetect s (u32 millis_now) x).REM_cycle_start_timestamp ∧
    s1.flash_rapid_calls = (afterRemDetect s (u32 millis_now) x).flash_rapid_calls := by
  obtain ⟨-, -, -, -, -, d6, d7, -, -, d10, d11⟩ := sampleStep_detector s s1 millis_now x h
  refine ⟨d6, ?_, d10, d11⟩
  rw [d7]; simp [afterRemDetect]

theorem reachable_idling_not_rem (s : State) (hs : Reachable s) (hi : s.idling = true) :
    s.REM = false := by
  induction hs with
  | init b a hb ha => rfl
  | step s s1 m x hs hx h ih =>
    obtain ⟨r1, r2, -, -⟩ := sampleStep_rem s s1 m x h
    rw [r2] at hi
    have hsi : s.idling = true := by
      rcases idleGate_cases (afterDecay s (u32 m) x) (u32 m) with ⟨-, -, c, -⟩ | ⟨-, c⟩
      · rw [atRemCheck, c] at hi; exact absurd hi (by simp)
      · rw [atRemCheck, c, afterDecay_idling] at hi; exact hi
    have hrem : (atRemCheck s (u32 m) x).REM = false := by
      rw [atRemCheck_REM]
      have := ih hsi
      unfold remTimeout
      simp [this]
    rw [r1]
    unfold afterRemDetect
    rcases remDetect_cases (atRemCheck s (u32 m) x) (u32 m) with ⟨-, c, -⟩ | ⟨-, c⟩
    · rw [c] at hi; exact absurd hi (by simp)
    · rw [c]; exact hrem

/-- C8: in every pass REM is set to true, with `REM_cycle_start_timestamp := now` and
exactly one `flash_rapid()` call, only if at the REM check of that pass REM is false,
idling is false and `spike_counter >= spikes_needed`; otherwise the REM detection block
changes nothing. Hence in every reachable state idling implies that REM is false, and REM
is not entered in the pass that ends the idle period, which has reset `spike_counter` to
0. -/
theorem rem_entered_only_when_watching (s s1 : State) (millis_now sample : Nat)
    (h : sampleStep s millis_now sample = some s1) :
    (((atRemCheck s (u32 millis_now) sample).REM = false ∧
        (atRemCheck s (u32 millis_now) sample).idling = false ∧
        (atRemCheck s (u32 millis_now) sample).spike_counter ≥ spikes_needed ∧
        s1.REM = true ∧ s1.REM_cycle_start_timestamp = u32 millis_now ∧
        s1.flash_rapid_calls = s.flash_rapid_calls + 1) ∨
      (¬ ((atRemCheck s (u32 millis_now) sample).REM = false ∧
          (atRemCheck s (u32 millis_now) sample).idling = false ∧
          (atRemCheck s (u32 millis_now) sample).spike_counter ≥ spikes_needed) ∧
        s1.REM = (atRemCheck s (u32 millis_now) sample).REM ∧
        s1.REM_cycle_start_timestamp = s.REM_cycle_start_timestamp ∧
        s1.flash_rapid_calls = s.flash_rapid_calls)) ∧
    (atRemCheck s (u32 millis_now) sample).REM = (remTimeout s (u32 millis_now)).REM ∧
    (Reachable s → s.idling = true → s.REM = false) ∧
    (Reachable s → s.idling = true → s1.idling = false →
      s1.spike_counter = 0 ∧ s1.REM = false ∧ s1.flash_rapid_calls = s.flash_rapid_calls) := by
  obtain ⟨r1, r2, r3, r4⟩ := sampleStep_rem s s1 millis_now sample h
  obtain ⟨k1, k2⟩ := atRemCheck_keeps s (u32 millis_now) sample
  have hcases := remDetect_cases (atRemCheck s (u32 millis_now) sample) (u32 millis_now)
  have hmain : ((atRemCheck s (u32 millis_now) sample).REM = false ∧
        (atRemCheck s (u32 millis_now) sample).idling = false ∧
        (atRemCheck s (u32 millis_now) sample).spike_counter ≥ spikes_needed ∧
        s1.REM = true ∧ s1.REM_cycle_start_timestamp = u32 millis_now ∧
        s1.flash_rapid_calls = s.flash_rapid_calls + 1) ∨
      (¬ ((atRemCheck s (u32 millis_now) sample).REM = false ∧
          (atRemCheck s (u32 millis_now) sample).idling = false ∧
          (atRemCheck s (u32 millis_now) sample).spike_counter ≥ spikes_needed) ∧
        s1.REM = (atRemCheck s (u32 millis_now) sample).REM ∧
        s1.REM_cycle_start_timestamp = s.REM_cycle_start_timestamp ∧
        s1.flash_rapid_calls = s.flash_rapid_calls) := by
    unfold afterRemDetect at r1 r3 r4
    rcases hcases with ⟨c1, c2, c3, c4, c5, c6⟩ | ⟨c1, c2⟩
    · left
      exact ⟨c1, c2, c3, r1.trans c4, r3.trans c5, by rw [r4, c6, k2]⟩
    · right
      rw [c2] at r1 r3 r4
      exact ⟨c1, r1, r3.trans k1, r4.trans k2⟩
  refine ⟨hmain, atRemCheck_REM s _ sample, reachable_idling_not_rem s, ?_⟩
  intro hs hi hi1
  have hsrem := reachable_idling_not_rem s hs hi
  have hcnt : (atRemCheck s (u32 millis_now) sample).spike_counter = 0 := by
    rcases idleGate_cases (afterDecay s (u32 millis_now) sample) (u32 millis_now) with
      ⟨-, -, -, c⟩ | ⟨-, c⟩
    · exact c
    · rw [r2, atRemCheck, c, afterDecay_idling, hi] at hi1
      exact absurd hi1 (by simp)
  have hrem0 : (atRemCheck s (u32 millis_now) sample).REM = false := by
    rw [atRemCheck_REM]; unfold remTimeout; simp [hsrem]
  refine ⟨(sampleStep_spike_counter s s1 millis_now sample h).trans hcnt, ?_, ?_⟩
  · rcases hmain with ⟨-, -, c3, -⟩ | ⟨-, c2, -, -⟩
    · rw [hcnt] at c3; simp [spikes_needed] at c3
    · rw [c2, hrem0]
  · rcases hmain with ⟨-, -, c3, -⟩ | ⟨-, -, -, c4⟩
    · rw [hcnt] at c3; simp [spikes_needed] at c3
    · exact c4

/-- Witness for C8: the pass at tick 3601200 that closes the fifteenth spike of a train
delivered after the idle period enters REM with one stimulus call. -/
theorem rem_entered_only_when_watching_witness :
    sampleStep (afterPasses (initState 500 400) (watchTrace 15 59)) 3601200 500
      = some (afterPasses (initState 500 400) (watchTrace 15 60)) ∧
    (atRemCheck (afterPasses (initState 500 400) (watchTrace 15 59)) (u32 3601200) 500).REM
      = (remTimeout (afterPasses (initState 500 400) (watchTrace 15 59)) (u32 3601200)).REM ∧
    (afterPasses (initState 500 400) (watchTrace 15 60)).REM = true ∧
    (afterPasses (initState 500 400) (watchTrace 15 60)).flash_rapid_calls = 1 :=
  ⟨by decide,
    (rem_entered_only_when_watching (afterPasses (initState 500 400) (watchTrace 15 59))
      (afterPasses (initState 500 400) (watchTrace 15 60)) 3601200 500 (by decide)).2.1,
    by decide, by decide⟩

/-- The REM timeout block, case by case. -/
theorem remTimeout_cases (s : State) (now : Nat) :
    (s.REM = true ∧ sub32 now s.REM_cycle_start_timestamp ≥ 900000 ∧
      (remTimeout s now).REM = false) ∨
    (¬ (s.REM = true ∧ sub32 now s.REM_cycle_start_timestamp ≥ 900000) ∧
      remTimeout s now = s) := by
  unfold remTimeout REM_cycle_length
  by_cases hr : s.REM = true
  · by_cases hn : sub32 now s.REM_cycle_start_timestamp ≥ 900000
    · left; simp [hr, hn]
    · right; simp [hr, hn]
  · right; simp [hr]

/-- C9: a pass that starts with REM true (in a reachable state). Before 900000 ticks
(`60000 * REM_cycle_length`) have passed since `REM_cycle_start_timestamp`, REM stays
true, the timestamp is unchanged and no stimulus is fired, whatever `spike_counter` is.
From 900000 ticks on, the timeout block ends the episode whatever `spike_counter` is and
without modifying it, and a new episode (REM true, `REM_cycle_start_timestamp = now`, one
`flash_rapid()` call) begins in the same pass exactly when `spike_counter >=
spikes_needed` after the spike and decay blocks of that pass. -/
theorem rem_episode_timeout (s s1 : State) (millis_now sample : Nat) (hs : Reachable s)
    (hrem : s.REM = true) (h : sampleStep s millis_now sample = some s1) :
    (sub32 (u32 millis_now) s.REM_cycle_start_timestamp < 60000 * REM_cycle_length →
      s1.REM = true ∧ s1.REM_cycle_start_timestamp = s.REM_cycle_start_timestamp ∧
      s1.flash_rapid_calls = s.flash_rapid_calls) ∧
    (sub32 (u32 millis_now) s.REM_cycle_start_timestamp ≥ 60000 * REM_cycle_length →
      (remTimeout s (u32 millis_now)).REM = false ∧
      (remTimeout s (u32 millis_now)).spike_counter = s.spike_counter ∧
      s1.spike_counter = (afterDecay s (u32 millis_now) sample).spike_counter ∧
      ((afterDecay s (u32 millis_now) sample).spike_counter ≥ spikes_needed →
        s1.REM = true ∧ s1.REM_cycle_start_timestamp = u32 millis_now ∧
        s1.flash_rapid_calls = s.flash_rapid_calls + 1) ∧
      ((afterDecay s (u32 millis_now) sample).spike_counter < spikes_needed →
        s1.REM = false ∧ s1.REM_cycle_start_timestamp = s.REM_cycle_start_timestamp ∧
        s1.flash_rapid_calls = s.flash_rapid_calls)) := by
  have hidle : s.idling = false := by
    cases hi : s.idling
    · rfl
    · rw [reachable_idling_not_rem s hs hi] at hrem; exact absurd hrem (by simp)
  obtain ⟨r1, -, r3, r4⟩ := sampleStep_rem s s1 millis_now sample h
  obtain ⟨k1, k2⟩ := atRemCheck_keeps s (u32 millis_now) sample
  have hgate : atRemCheck s (u32 millis_now) sample = afterDecay s (u32 millis_now) sample := by
    rcases idleGate_cases (afterDecay s (u32 millis_now) sample) (u32 millis_now) with
      ⟨c, -⟩ | ⟨-, c⟩
    · rw [afterDecay_idling, hidle] at c; exact absurd c (by simp)
    · exact c
  have hREM := atRemCheck_REM s (u32 millis_now) sample
  have hcases := remDetect_cases (atRemCheck s (u32 millis_now) sample) (u32 millis_now)
  have hcnt := sampleStep_spike_counter s s1 millis_now sample h
  unfold afterRemDetect at r1 r3 r4
  unfold REM_cycle_length
  constructor
  · intro hlt
    rcases remTimeout_cases s (u32 millis_now) with ⟨-, c, -⟩ | ⟨-, c⟩
    · omega
    · rw [c, hrem] at hREM
      rcases hcases with ⟨c1, -⟩ | ⟨-, c2⟩
      · rw [hREM] at c1; exact absurd c1 (by simp)
      · rw [c2] at r1 r3 r4
        exact ⟨r1.trans hREM, r3.trans k1, r4.trans k2⟩
  · intro hge
    rcases remTimeout_cases s (u32 millis_now) with ⟨-, -, c⟩ | ⟨c, -⟩
    · have hi2 : (atRemCheck s (u32 millis_now) sample).idling = false := by
        rw [hgate, afterDecay_idling]; exact hidle
      refine ⟨c, by simp, by rw [hcnt, hgate], ?_, ?_⟩
      · intro hn
        rcases hcases with ⟨-, -, -, c4, c5, c6⟩ | ⟨c1, -⟩
        · exact ⟨r1.trans c4, r3.trans c5, by rw [r4, c6, k2]⟩
        · exact absurd ⟨hREM.trans c, hi2, hgate ▸ hn⟩ c1
      · intro hn
        rcases hcases with ⟨-, -, c3, -⟩ | ⟨-, c2⟩
        · rw [hgate] at c3; omega
        · rw [c2] at r1 r3 r4
          exact ⟨r1.trans (hREM.trans c), r3.trans k1, r4.trans k2⟩
    · exact absurd ⟨hrem, hge⟩ c

/-- Witness for C9: in the reachable state right after REM was entered at tick 3601200,
the pass at tick 3601220 keeps the episode; the timeout is at tick 4501200. -/
theorem rem_episode_timeout_witness :
    Reachable (afterPasses (initState 500 400) (watchTrace 15 60)) ∧
    (afterPasses (initState 500 400) (watchTrace 15 60)).REM = true ∧
    sampleStep (afterPasses (initState 500 400) (watchTrace 15 60)) 3601220 500
      = some (afterPasses (initState 500 400) (watchTrace 15 60 ++ [(3601220, 500)])) ∧
    (afterPasses (initState 500 400) (watchTrace 15 60 ++ [(3601220, 500)])).REM = true ∧
    (afterPasses (initState 500 400) (watchTrace 15 60 ++ [(3601220, 500)])).flash_rapid_calls
      = 1 :=
  ⟨reachable_afterPasses _ _ (Reachable.init 500 400 (by decide) (by decide)) (by decide),
    by decide, by decide,
    ((rem_episode_timeout (afterPasses (initState 500 400) (watchTrace 15 60))
      (afterPasses (initState 500 400) (watchTrace 15 60 ++ [(3601220, 500)])) 3601220 500
      (reachable_afterPasses _ _ (Reachable.init 500 400 (by decide) (by decide)) (by decide))
      (by decide) (by decide)).1 (by decide)).1,
    by decide⟩

theorem runSteps_idling (ins : List (Nat × Nat)) (s s1 : State)
    (h : runSteps s ins = some s1) (hi : s.idling = false) : s1.idling = false := by
  induction ins generalizing s with
  | nil =>
    simp only [runSteps, Option.some.injEq] at h
    exact h ▸ hi
  | cons p rest ih =>
    obtain ⟨t, x⟩ := p
    simp only [runSteps] at h
    cases hstep : sampleStep s t x with
    | none => rw [hstep] at h; exact absurd h (by simp)
    | some s2 =>
      rw [hstep] at h
      refine ih s2 h ?_
      rw [(sampleStep_rem s s2 t x hstep).2.1]
      rcases idleGate_cases (afterDecay s (u32 t) x) (u32 t) with ⟨-, -, c, -⟩ | ⟨-, c⟩
      · exact c
      · rw [atRemCheck, c, afterDecay_idling]; exact hi

/-- C10: the main loop is entered with idling true; in a pass idling changes from true to
false if and only if idling was true and `now >= 3600000` ticks (`60000 * idle_delay`,
with now the 32-bit tick value) in that pass; that pass also resets `spike_counter` to 0;
and once idling is false it is false in every later state of every run. -/
theorem idle_gate_one_way (s s1 : State) (millis_now sample : Nat)
    (h : sampleStep s millis_now sample = some s1) :
    (∀ b a, (initState b a).idling = true) ∧
    ((s.idling = true ∧ s1.idling = false) ↔
      (s.idling = true ∧ u32 millis_now ≥ 60000 * idle_delay)) ∧
    (s.idling = true ∧ s1.idling = false → s1.spike_counter = 0) ∧
    (s.idling = false → s1.idling = false) ∧
    (∀ (ins : List (Nat × Nat)) (s2 : State), runSteps s1 ins = some s2 →
      s1.idling = false → s2.idling = false) := by
  have r2 := (sampleStep_rem s s1 millis_now sample h).2.1
  have hcnt := sampleStep_spike_counter s s1 millis_now sample h
  have hid := afterDecay_idling s (u32 millis_now) sample
  unfold atRemCheck at r2 hcnt
  unfold idle_delay
  refine ⟨fun _ _ => rfl, ?_, ?_, ?_, fun ins s2 h2 hi => runSteps_idling ins s1 s2 h2 hi⟩
  · rcases idleGate_cases (afterDecay s (u32 millis_now) sample) (u32 millis_now) with
      ⟨c1, c2, c3, -⟩ | ⟨c1, c2⟩
    · rw [hid] at c1
      rw [c3] at r2
      exact ⟨fun _ => ⟨c1, c2⟩, fun _ => ⟨c1, r2⟩⟩
    · rw [c2, hid] at r2
      rw [hid] at c1
      constructor
      · intro hh; rw [r2, hh.1] at hh; exact absurd hh.2 (by simp)
      · intro hh; exact absurd hh c1
  · intro hh
    rcases idleGate_cases (afterDecay s (u32 millis_now) sample) (u32 millis_now) with
      ⟨-, -, -, c4⟩ | ⟨-, c2⟩
    · rw [hcnt, c4]
    · rw [c2, hid] at r2
      rw [r2, hh.1] at hh; exact absurd hh.2 (by simp)
  · intro hi
    rcases idleGate_cases (afterDecay s (u32 millis_now) sample) (u32 millis_now) with
      ⟨c1, -⟩ | ⟨-, c2⟩
    · rw [hid, hi] at c1; exact absurd c1 (by simp)
    · rw [r2, c2, hid]; exact hi

/-- Witness for C10: the pass at tick 3600000 from the entry state ends the idle period. -/
theorem idle_gate_one_way_witness :
    sampleStep (initState 500 400) 3600000 500
      = some (afterPasses (initState 500 400) [(3600000, 500)]) ∧
    (((initState 500 400).idling = true ∧
        (afterPasses (initState 500 400) [(3600000, 500)]).idling = false) ↔
      ((initState 500 400).idling = true ∧ u32 3600000 ≥ 60000 * idle_delay)) ∧
    (afterPasses (initState 500 400) [(3600000, 500)]).idling = false :=
  ⟨by decide,
    (idle_gate_one_way (initState 500 400) (afterPasses (initState 500 400) [(3600000, 500)])
      3600000 500 (by decide)).2.1,
    by decide⟩

/-! ## Status LED -/

theorem remTimeout_withLed (s : State) (b : Bool) (now : Nat) :
    remTimeout (withLed s b) now = withLed (remTimeout s now) b := by
  unfold remTimeout withLed; split_ifs <;> rfl

theorem takeSample_withLed (s : State) (b : Bool) (now x : Nat) :
    takeSample (withLed s b) now x = withLed (takeSample s now x) b := rfl

theorem absMean_withLed (s : State) (b : Bool) : absMean (withLed s b) = absMean s := rfl

theorem spikeDetect_withLed (s : State) (b : Bool) (a : Nat) :
    spikeDetect (withLed s b) a = withLed (spikeDetect s a) b := by
  unfold spikeDetect withLed; split_ifs <;> rfl

theorem spikeClose_withLed (s : State) (b : Bool) (now a : Nat) :
    spikeClose (withLed s b) now a = withLed (spikeClose s now a) b := by
  unfold spikeClose withLed; split_ifs <;> rfl

theorem spikeDecay_withLed (s : State) (b : Bool) (now : Nat) :
    spikeDecay (withLed s b) now = withLed (spikeDecay s now) b := by
  unfold spikeDecay withLed; split_ifs <;> rfl

theorem idleGate_withLed (s : State) (b : Bool) (now : Nat) :
    idleGate (withLed s b) now = withLed (idleGate s now) b := by
  unfold idleGate withLed; split_ifs <;> rfl

theorem remDetect_withLed (s : State) (b : Bool) (now : Nat) :
    remDetect (withLed s b) now = withLed (remDetect s now) b := by
  unfold remDetect withLed; split_ifs <;> rfl

theorem baselineStart_withLed (s : State) (b : Bool) (now x : Nat) :
    baselineStart (withLed s b) now x = withLed (baselineStart s now x) b := by
  unfold baselineStart withLed; split_ifs <;> rfl

theorem foldMinMax_withLed (s : State) (b : Bool) (x : Nat) :
    foldMinMax (withLed s b) x = withLed (foldMinMax s x) b := by
  unfold foldMinMax withLed; split_ifs <;> rfl

theorem baselineUpdate_withLed (s : State) (b : Bool) (now x : Nat) :
    baselineUpdate (withLed s b) now x = (baselineUpdate s now x).map (fun t => withLed t b) := by
  unfold baselineUpdate
  rw [foldMinMax_withLed]
  unfold withLed
  split_ifs <;> simp_all

theorem afterRemDetect_withLed (s : State) (b : Bool) (now x : Nat) :
    afterRemDetect (withLed s b) now x = withLed (afterRemDetect s now x) b := by
  unfold afterRemDetect atRemCheck afterDecay afterSpikeClose afterSample
  simp only [remTimeout_withLed, takeSample_withLed, absMean_withLed, spikeDetect_withLed,
    spikeClose_withLed, spikeDecay_withLed, idleGate_withLed, remDetect_withLed]

/-- The previous value of the LED bit has no influence on a pass. -/
theorem sampleStep_withLed (s : State) (b : Bool) (millis_now x : Nat) :
    sampleStep (withLed s b) millis_now x = sampleStep s millis_now x := by
  have hat : atRemCheck (withLed s b) (u32 millis_now) x
      = withLed (atRemCheck s (u32 millis_now) x) b := by
    unfold atRemCheck afterDecay afterSpikeClose afterSample
    simp only [remTimeout_withLed, takeSample_withLed, absMean_withLed, spikeDetect_withLed,
      spikeClose_withLed, spikeDecay_withLed, idleGate_withLed]
  have hct : calTick (withLed s b) millis_now x = calTick s millis_now x := by
    unfold calTick passEnd remEnters
    rw [hat]
    rfl
  unfold sampleStep calibratorBlocks
  rw [afterRemDetect_withLed, hct, baselineStart_withLed, baselineUpdate_withLed,
    Option.map_map]
  rfl

/-- C13: at the end of every pass the status LED is on if and only if REM is true or a
spike is open in the state at the end of that pass, and the pass gives the same result
whatever the LED showed before. -/
theorem status_led_recomputed (s s1 : State) (millis_now sample : Nat)
    (h : sampleStep s millis_now sample = some s1) :
    (s1.status_led = true ↔ (s1.REM = true ∨ s1.spike = true)) ∧
    (∀ b : Bool, sampleStep (withLed s b) millis_now sample = some s1) := by
  refine ⟨?_, fun b => by rw [sampleStep_withLed]; exact h⟩
  unfold sampleStep calibratorBlocks at h
  obtain ⟨t, -, rfl⟩ := Option.map_eq_some'.mp h
  simp [updateStatusLed]

/-- Witness for C13: the pass that closes the fifteenth spike of the watch trace ends in REM
with the LED on. -/
theorem status_led_recomputed_witness :
    sampleStep (afterPasses (initState 500 400) (watchTrace 15 59)) 3601200 500
      = some (afterPasses (initState 500 400) (watchTrace 15 60)) ∧
    ((afterPasses (initState 500 400) (watchTrace 15 60)).status_led = true ↔
      ((afterPasses (initState 500 400) (watchTrace 15 60)).REM = true ∨
        (afterPasses (initState 500 400) (watchTrace 15 60)).spike = true)) :=
  ⟨by decide,
    (status_led_recomputed (afterPasses (initState 500 400) (watchTrace 15 59))
      (afterPasses (initState 500 400) (watchTrace 15 60)) 3601200 500 (by decide)).1⟩

/-! ## Runs of a watching detector -/

theorem closeTicks_subset (ins : List (Nat × Nat)) (s : State) :
    ∀ c ∈ closeTicks s ins, c ∈ ins.map Prod.fst := by
  induction ins generalizing s with
  | nil => intro c hc; simp [closeTicks] at hc
  | cons p rest ih =>
    obtain ⟨t, x⟩ := p
    intro c hc
    simp only [closeTicks, List.mem_append] at hc
    simp only [List.map_cons, List.mem_cons]
    rcases hc with hc | hc
    · split_ifs at hc
      · left; simpa using hc
      · simp at hc
    · cases hstep : sampleStep s t x with
      | none => rw [hstep] at hc; simp at hc
      | some s1 => rw [hstep] at hc; exact Or.inr (ih s1 c hc)

/-- The counter after the spike-close block. -/
theorem afterSpikeClose_counter (s : State) (now x : Nat) :
    (afterSpikeClose s now x).spike_counter
      = if spikeCloses s now x = true then (s.spike_counter + 1) % 256
        else s.spike_counter := by
  have hiff := spikeCloses_iff s now x
  unfold afterSpikeClose spikeClose
  by_cases hc : spikeCloses s now x = true
  · rw [if_pos hc, if_pos (hiff.mp hc).1, if_pos (hiff.mp hc).2]
    simp [afterSample]
  · rw [if_neg hc]
    split_ifs with h1 h2
    · exact absurd (hiff.mpr ⟨h1, h2⟩) hc
    · simp [afterSample]
    · simp [afterSample]

/-- The spike flag after the spike-close block is cleared by a closure. -/
theorem afterSpikeClose_spike (s : State) (now x : Nat) (hc : spikeCloses s now x = true) :
    (afterSpikeClose s now x).spike = false := by
  have hiff := spikeCloses_iff s now x
  unfold afterSpikeClose spikeClose
  rw [if_pos (hiff.mp hc).1, if_pos (hiff.mp hc).2]

/-- A pass of a watching detector (not idling, REM false): the idle gate does nothing and
REM is entered exactly when the counter after the decay block has reached
`spikes_needed`. -/
theorem watching_pass (s s1 : State) (t x : Nat) (hidle : s.idling = false)
    (hrem : s.REM = false) (h : sampleStep s t x = some s1) :
    s1.idling = false ∧
    s1.spike_counter = (afterDecay s (u32 t) x).spike_counter ∧
    s1.last_spike_event_timestamp = (afterDecay s (u32 t) x).last_spike_event_timestamp ∧
    s1.spike = (afterDecay s (u32 t) x).spike ∧
    ((afterDecay s (u32 t) x).spike_counter < spikes_needed →
      s1.REM = false ∧ s1.flash_rapid_calls = s.flash_rapid_calls ∧
      s1.REM_cycle_start_timestamp = s.REM_cycle_start_timestamp) ∧
    ((afterDecay s (u32 t) x).spike_counter ≥ spikes_needed →
      s1.REM = true ∧ s1.flash_rapid_calls = s.flash_rapid_calls + 1 ∧
      s1.REM_cycle_start_timestamp = u32 t) := by
  obtain ⟨-, -, d3, -, d5, d6, d7, -, d9, d10, d11⟩ := sampleStep_detector s s1 t x h
  obtain ⟨k1, k2⟩ := atRemCheck_keeps s (u32 t) x
  have hgate : atRemCheck s (u32 t) x = afterDecay s (u32 t) x := by
    rcases idleGate_cases (afterDecay s (u32 t) x) (u32 t) with ⟨c, -⟩ | ⟨-, c⟩
    · rw [afterDecay_idling, hidle] at c; exact absurd c (by simp)
    · exact c
  have hREM : (afterDecay s (u32 t) x).REM = false := by
    rw [← hgate, atRemCheck_REM]; unfold remTimeout; simp [hrem]
  have hi : (afterDecay s (u32 t) x).idling = false := by rw [afterDecay_idling]; exact hidle
  unfold afterRemDetect at d3 d5 d6 d7 d9 d10 d11
  rw [hgate] at d3 d5 d6 d7 d9 d10 d11 k1 k2
  simp only [remDetect_keeps] at d3 d5 d7 d9
  refine ⟨d7.trans hi, d5, d9, d3, ?_, ?_⟩
  · intro hlt
    rcases remDetect_cases (afterDecay s (u32 t) x) (u32 t) with ⟨-, -, c, -⟩ | ⟨-, c⟩
    · omega
    · rw [c] at d6 d10 d11
      exact ⟨d6.trans hREM, d11.trans k2, d10.trans k1⟩
  · intro hge
    rcases remDetect_cases (afterDecay s (u32 t) x) (u32 t) with
      ⟨-, -, -, c4, c5, c6⟩ | ⟨c, -⟩
    · exact ⟨d6.trans c4, by rw [d11, c6, k2], d10.trans c5⟩
    · exact absurd ⟨hREM, hi, hge⟩ c

/-- The decay block after a closure does nothing. -/
theorem afterDecay_of_closes (s : State) (now x : Nat) (hc : spikeCloses s now x = true) :
    afterDecay s now x = afterSpikeClose s now x := by
  have hf := decayFires_of_spikeCloses s now x hc
  unfold afterDecay
  rcases spikeDecay_cases (afterSpikeClose s now x) now with ⟨c1, c2, -, -⟩ | ⟨-, c⟩
  · rw [(decayFires_iff s now x).mpr ⟨c1, c2⟩] at hf; exact absurd hf (by simp)
  · exact c

/-- Without closure and without decay the blocks up to the decay block leave the counter
and the event timestamp as they were. -/
theorem afterDecay_quiet (s : State) (now x : Nat) (hc : ¬ spikeCloses s now x = true)
    (hd : ¬ (s.spike_counter > 0 ∧ sub32 now s.last_spike_event_timestamp ≥ 15000)) :
    (afterDecay s now x).spike_counter = s.spike_counter ∧
    (afterDecay s now x).last_spike_event_timestamp = s.last_spike_event_timestamp := by
  have h1 := afterSpikeClose_counter s now x
  have h2 := afterSpikeClose_stamp s now x
  rw [if_neg hc] at h1 h2
  unfold afterDecay
  rcases spikeDecay_cases (afterSpikeClose s now x) now with ⟨c1, c2, -, -⟩ | ⟨-, c⟩
  · rw [h1] at c1; rw [h2] at c2; exact absurd ⟨c1, c2⟩ hd
  · rw [c]; exact ⟨h1, h2⟩
theorem sub32_u32_lt (t e : Nat) (h1 : e ≤ t) (h2 : t < e + 15000) :
    sub32 (u32 t) (u32 e) < 15000 := by
  unfold sub32 u32; omega

/-- A run of a watching detector in which every closure, and the tick `D` that follows the
run, comes less than 15000 ticks after the previous closure: while the closures number at
most 14 the counter counts them, no decay happens and REM is not entered. -/
theorem watch_prefix (ins : List (Nat × Nat)) :
    ∀ (s s1 : State) (tc D : Nat), s.idling = false → s.REM = false →
    s.spike_counter + (closeTicks s ins).length ≤ 14 →
    (s.spike_counter > 0 → ∃ e, e ≤ tc ∧ s.last_spike_event_timestamp = u32 e ∧
      ∀ n, (closeTicks s ins ++ [D]).head? = some n → n < e + 15000) →
    (tc :: (ins.map Prod.fst ++ [D])).Pairwise (fun a b => a ≤ b) →
    (closeTicks s ins ++ [D]).Chain' (fun a b => b < a + 15000) →
    runSteps s ins = some s1 →
    s1.idling = false ∧ s1.REM = false ∧
    s1.spike_counter = s.spike_counter + (closeTicks s ins).length ∧
    s1.flash_rapid_calls = s.flash_rapid_calls ∧
    s1.REM_cycle_start_timestamp = s.REM_cycle_start_timestamp ∧
    (s1.spike_counter > 0 → ∃ e, e ≤ D ∧ D < e + 15000 ∧
      s1.last_spike_event_timestamp = u32 e) := by
  induction ins with
  | nil =>
    intro s s1 tc D hidle hrem _ hstamp hsorted _ hrun
    simp only [runSteps, Option.some.injEq] at hrun
    subst hrun
    refine ⟨hidle, hrem, by simp [closeTicks], rfl, rfl, ?_⟩
    intro hpos
    obtain ⟨e, he, hl, hn⟩ := hstamp hpos
    have hD : tc ≤ D := by
      simp only [List.map_nil, List.nil_append, List.pairwise_cons, List.mem_singleton,
        forall_eq] at hsorted
      exact hsorted.1
    exact ⟨e, by omega, hn D (by simp [closeTicks]), hl⟩
  | cons p rest ih =>
    obtain ⟨t, x⟩ := p
    intro s s1 tc D hidle hrem hlen hstamp hsorted hchain hrun
    simp only [runSteps] at hrun
    cases hstep : sampleStep s t x with
    | none => rw [hstep] at hrun; exact absurd hrun (by simp)
    | some s2 =>
      rw [hstep] at hrun
      simp only at hrun
      have hct : closeTicks s ((t, x) :: rest)
          = (if spikeCloses s (u32 t) x = true then [t] else []) ++ closeTicks s2 rest := by
        simp only [closeTicks, hstep]
      rw [hct] at hlen hstamp hchain ⊢
      simp only [List.map_cons, List.cons_append, List.pairwise_cons] at hsorted
      obtain ⟨htc, hts, hrest⟩ := hsorted
      have htct : tc ≤ t := htc t (List.mem_cons_self _ _)
      have hsorted2 : (t :: (rest.map Prod.fst ++ [D])).Pairwise (fun a b => a ≤ b) :=
        List.pairwise_cons.mpr ⟨hts, hrest⟩
      obtain ⟨w1, w2, w3, -, w5, -⟩ := watching_pass s s2 t x hidle hrem hstep
      by_cases hc : spikeCloses s (u32 t) x = true
      · simp only [if_pos hc, List.singleton_append, List.length_cons, List.cons_append,
          List.nil_append]
          at hlen hstamp hchain ⊢
        have hcnt : (afterDecay s (u32 t) x).spike_counter = s.spike_counter + 1 := by
          rw [afterDecay_of_closes s _ x hc, afterSpikeClose_counter, if_pos hc]
          exact Nat.mod_eq_of_lt (by omega)
        have hst : (afterDecay s (u32 t) x).last_spike_event_timestamp = u32 t := by
          rw [afterDecay_of_closes s _ x hc, afterSpikeClose_stamp, if_pos hc]
        rw [hcnt] at w2 w5
        rw [hst] at w3
        obtain ⟨v1, v2, v3⟩ := w5 (by unfold spikes_needed; omega)
        have hch := List.chain'_cons'.mp hchain
        obtain ⟨r1, r2, r3, r4, r5, r6⟩ := ih s2 s1 t D w1 v1 (by omega)
          (fun _ => ⟨t, le_refl _, w3, fun n hn => hch.1 n hn⟩) hsorted2 hch.2 hrun
        exact ⟨r1, r2, by omega, r4.trans v2, r5.trans v3, r6⟩
      · simp only [if_neg hc, List.nil_append] at hlen hstamp hchain ⊢
        have hnodecay : ¬ (s.spike_counter > 0 ∧
            sub32 (u32 t) s.last_spike_event_timestamp ≥ 15000) := by
          rintro ⟨hpos, hge⟩
          obtain ⟨e, he, hl, hn⟩ := hstamp hpos
          rw [hl] at hge
          have hnext : ∃ n, (closeTicks s2 rest ++ [D]).head? = some n ∧ t ≤ n := by
            cases hcl : closeTicks s2 rest with
            | nil => exact ⟨D, by simp, hts D (by simp)⟩
            | cons c cs =>
              refine ⟨c, by simp, hts c ?_⟩
              have := closeTicks_subset rest s2 c (by rw [hcl]; exact List.mem_cons_self _ _)
              exact List.mem_append_left _ this
          obtain ⟨n, hn1, hn2⟩ := hnext
          have := hn n hn1
          have := sub32_u32_lt t e (by omega) (by omega)
          omega
        obtain ⟨q1, q2⟩ := afterDecay_quiet s (u32 t) x hc hnodecay
        rw [q1] at w2 w5
        rw [q2] at w3
        obtain ⟨v1, v2, v3⟩ := w5 (by unfold spikes_needed; omega)
        have hstamp2 : s2.spike_counter > 0 → ∃ e, e ≤ t ∧
            s2.last_spike_event_timestamp = u32 e ∧
            ∀ n, (closeTicks s2 rest ++ [D]).head? = some n → n < e + 15000 := by
          intro hpos
          obtain ⟨e, he, hl, hn⟩ := hstamp (by omega)
          exact ⟨e, by omega, w3.trans hl, hn⟩
        obtain ⟨r1, r2, r3, r4, r5, r6⟩ := ih s2 s1 t D w1 v1 (by omega) hstamp2 hsorted2
          hchain hrun
        exact ⟨r1, r2, by omega, r4.trans v2, r5.trans v3, r6⟩
theorem runSteps_append (a b : List (Nat × Nat)) (s : State) :
    runSteps s (a ++ b) = (runSteps s a).bind (fun sa => runSteps sa b) := by
  induction a generalizing s with
  | nil => simp [runSteps]
  | cons p rest ih =>
    obtain ⟨t, x⟩ := p
    simp only [List.cons_append, runSteps]
    cases sampleStep s t x with
    | none => simp
    | some s1 => simpa using ih s1

/-- A run that is defined ends in `afterPasses`. -/
theorem runSteps_eq_afterPasses (s : State) (ins : List (Nat × Nat))
    (h : (runSteps s ins).isSome = true) : runSteps s ins = some (afterPasses s ins) := by
  unfold afterPasses
  cases hr : runSteps s ins with
  | none => rw [hr] at h; exact absurd h (by simp)
  | some u => rfl

/-- The passes after the first of a defined run, from the state the first pass left. -/
theorem runSteps_tail (s : State) (p : Nat × Nat) (rest : List (Nat × Nat))
    (h : (runSteps s (p :: rest)).isSome = true) :
    runSteps (afterPasses s [p]) rest = some (afterPasses s (p :: rest)) := by
  obtain ⟨t, x⟩ := p
  unfold afterPasses at *
  simp only [runSteps] at h ⊢
  cases hs : sampleStep s t x with
  | none => rw [hs] at h; exact absurd h (by simp)
  | some s1 =>
    rw [hs] at h
    simp only [Option.getD_some] at h ⊢
    cases hr : runSteps s1 rest with
    | none => rw [hr] at h; exact absurd h (by simp)
    | some u => rfl

/-- The last pass of a defined run, from the state the passes before it left. -/
theorem sampleStep_last (s : State) (pre : List (Nat × Nat)) (t x : Nat)
    (h : (runSteps s (pre ++ [(t, x)])).isSome = true) :
    sampleStep (afterPasses s pre) t x = some (afterPasses s (pre ++ [(t, x)])) := by
  unfold afterPasses
  rw [runSteps_append] at h ⊢
  cases hr : runSteps s pre with
  | none => rw [hr] at h; exact absurd h (by simp)
  | some u =>
    rw [hr] at h
    simp only [Option.some_bind, runSteps, Option.getD_some] at h ⊢
    cases hs : sampleStep u t x with
    | none => rw [hs] at h; exact absurd h (by simp)
    | some s1 => rfl

/-- The number of `flash_rapid()` calls never decreases in a pass. -/
theorem sampleStep_flash_mono (s s1 : State) (t x : Nat) (h : sampleStep s t x = some s1) :
    s.flash_rapid_calls ≤ s1.flash_rapid_calls := by
  obtain ⟨-, -, -, r4⟩ := sampleStep_rem s s1 t x h
  obtain ⟨-, k2⟩ := atRemCheck_keeps s (u32 t) x
  unfold afterRemDetect at r4
  rcases remDetect_cases (atRemCheck s (u32 t) x) (u32 t) with ⟨-, -, -, -, -, c⟩ | ⟨-, c⟩
  · rw [r4, c, k2]; omega
  · rw [r4, c, k2]

theorem runSteps_flash_mono (ins : List (Nat × Nat)) (s s1 : State)
    (h : runSteps s ins = some s1) : s.flash_rapid_calls ≤ s1.flash_rapid_calls := by
  induction ins generalizing s with
  | nil =>
    simp only [runSteps, Option.some.injEq] at h
    rw [h]
  | cons p rest ih =>
    obtain ⟨t, x⟩ := p
    simp only [runSteps] at h
    cases hstep : sampleStep s t x with
    | none => rw [hstep] at h; exact absurd h (by simp)
    | some s2 =>
      rw [hstep] at h
      exact le_trans (sampleStep_flash_mono s s2 t x hstep) (ih s2 h)

/-- The LED bit at the end of a pass. -/
theorem sampleStep_led (s s1 : State) (t x : Nat) (h : sampleStep s t x = some s1) :
    s1.status_led = (s1.REM || s1.spike) := by
  unfold sampleStep calibratorBlocks at h
  obtain ⟨u, -, rfl⟩ := Option.map_eq_some'.mp h
  simp [updateStatusLed]

/-- C11: from any watching state (idling false, REM false) with `spike_counter = 0`, over
every run with non-decreasing ticks in which fifteen spikes are closed, each closure less
than 15000 ticks after the previous one, the pass that closes the fifteenth spike ends
with `spike_counter = 15`, REM true, `REM_cycle_start_timestamp = now`, the status LED on
and exactly one `flash_rapid()` call in that pass, and no call in any earlier pass of the
run. -/
theorem fifteen_spikes_enter_rem (s0 sp s1 : State) (pre : List (Nat × Nat)) (t x : Nat)
    (hidle : s0.idling = false) (hrem : s0.REM = false) (hcnt : s0.spike_counter = 0)
    (hsorted : (pre.map Prod.fst ++ [t]).Pairwise (fun a b => a ≤ b))
    (h14 : (closeTicks s0 pre).length = 14)
    (hchain : (closeTicks s0 pre ++ [t]).Chain' (fun a b => b < a + 15000))
    (hpre : runSteps s0 pre = some sp)
    (hclose : spikeCloses sp (u32 t) x = true)
    (hlast : sampleStep sp t x = some s1) :
    s1.spike_counter = 15 ∧ s1.REM = true ∧ s1.REM_cycle_start_timestamp = u32 t ∧
    s1.status_led = true ∧ s1.flash_rapid_calls = sp.flash_rapid_calls + 1 ∧
    (∀ (a b : List (Nat × Nat)) (sa : State), pre = a ++ b → runSteps s0 a = some sa →
      sa.flash_rapid_calls = s0.flash_rapid_calls) := by
  obtain ⟨p1, p2, p3, p4, -, -⟩ := watch_prefix pre s0 sp 0 t hidle hrem (by omega)
    (fun h => absurd hcnt (by omega))
    (List.pairwise_cons.mpr ⟨fun _ _ => Nat.zero_le _, hsorted⟩) hchain hpre
  obtain ⟨-, w2, -, -, -, w6⟩ := watching_pass sp s1 t x p1 p2 hlast
  have hc15 : (afterDecay sp (u32 t) x).spike_counter = 15 := by
    rw [afterDecay_of_closes sp _ x hclose, afterSpikeClose_counter, if_pos hclose, p3, hcnt,
      h14]
  rw [hc15] at w2 w6
  obtain ⟨v1, v2, v3⟩ := w6 (by unfold spikes_needed; omega)
  refine ⟨w2, v1, v3, ?_, v2, ?_⟩
  · rw [sampleStep_led sp s1 t x hlast, v1]; rfl
  · intro a b sa hab ha
    have hb : runSteps sa b = some sp := by
      rw [hab, runSteps_append, ha] at hpre
      simpa using hpre
    have h1 := runSteps_flash_mono a s0 sa ha
    have h2 := runSteps_flash_mono b sa sp hb
    omega

/-- The closure ticks of the first 59 passes of the fifteen-spike watch trace. -/
theorem closeTicks_watch_trace :
    closeTicks (afterPasses (initState 500 400) [(3600000, 500)])
      ((spikeTrainFrom 3600000 15).take 59)
      = [3600080, 3600160, 3600240, 3600320, 3600400, 3600480, 3600560, 3600640, 3600720,
         3600800, 3600880, 3600960, 3601040, 3601120] := by
  decide

/-- Witness for C11: the watching state reached at tick 3600000, fed a train of fifteen
spikes 80 ticks apart; the pass at tick 3601200 closes the fifteenth spike. -/
theorem fifteen_spikes_enter_rem_witness :
    (afterPasses (initState 500 400) [(3600000, 500)]).idling = false ∧
    (afterPasses (initState 500 400) [(3600000, 500)]).REM = false ∧
    (afterPasses (initState 500 400) [(3600000, 500)]).spike_counter = 0 ∧
    (closeTicks (afterPasses (initState 500 400) [(3600000, 500)])
      ((spikeTrainFrom 3600000 15).take 59)).length = 14 ∧
    (afterPasses (initState 500 400) (watchTrace 15 60)).spike_counter = 15 ∧
    (afterPasses (initState 500 400) (watchTrace 15 60)).REM = true ∧
    (afterPasses (initState 500 400) (watchTrace 15 60)).REM_cycle_start_timestamp
      = u32 3601200 ∧
    (afterPasses (initState 500 400) (watchTrace 15 60)).status_led = true ∧
    (afterPasses (initState 500 400) (watchTrace 15 60)).flash_rapid_calls
      = (afterPasses (initState 500 400) (watchTrace 15 59)).flash_rapid_calls + 1 :=
  have e : watchTrace 15 60 = watchTrace 15 59 ++ [(3601200, 500)] := by decide
  have h := fifteen_spikes_enter_rem (afterPasses (initState 500 400) [(3600000, 500)])
    (afterPasses (initState 500 400) (watchTrace 15 59))
    (afterPasses (initState 500 400) (watchTrace 15 60))
    ((spikeTrainFrom 3600000 15).take 59) 3601200 500
    (by decide) (by decide) (by decide) (by decide) (by decide)
    (by rw [closeTicks_watch_trace]; simp)
    (runSteps_tail (initState 500 400) (3600000, 500) _ (by decide))
    (by decide)
    (by rw [e]; exact sampleStep_last (initState 500 400) (watchTrace 15 59) 3601200 500
          (by decide))
  ⟨by decide, by decide, by decide, by decide, h.1, h.2.1, h.2.2.1, h.2.2.2.1, h.2.2.2.2.1⟩

/-! ## Quiet runs: no spike closes -/

theorem closeTicks_append (a b : List (Nat × Nat)) (s : State) :
    closeTicks s (a ++ b)
      = closeTicks s a ++ (match runSteps s a with
                           | some sa => closeTicks sa b
                           | none => []) := by
  induction a generalizing s with
  | nil => simp [closeTicks, runSteps]
  | cons p rest ih =>
    obtain ⟨t, x⟩ := p
    simp only [List.cons_append, closeTicks, runSteps]
    cases sampleStep s t x with
    | none => simp
    | some s1 =>
      have := ih s1
      simp only [List.append_assoc]
      exact congrArg _ this

/-- One pass of a watching detector that closes no spike: the counter drops by one when the
decay block fires and is unchanged otherwise; REM is not entered. -/
theorem quiet_pass (s s1 : State) (t x : Nat) (hidle : s.idling = false)
    (hrem : s.REM = false) (hcnt : s.spike_counter ≤ 14)
    (hc : ¬ spikeCloses s (u32 t) x = true) (h : sampleStep s t x = some s1) :
    s1.idling = false ∧ s1.REM = false ∧ s1.flash_rapid_calls = s.flash_rapid_calls ∧
    (decayFires s (u32 t) x = true ↔
      (s.spike_counter > 0 ∧ sub32 (u32 t) s.last_spike_event_timestamp ≥ 15000)) ∧
    (decayFires s (u32 t) x = true →
      s1.spike_counter + 1 = s.spike_counter ∧ s1.last_spike_event_timestamp = u32 t) ∧
    (¬ decayFires s (u32 t) x = true →
      s1.spike_counter = s.spike_counter ∧
      s1.last_spike_event_timestamp = s.last_spike_event_timestamp) := by
  obtain ⟨w1, w2, w3, -, w5, -⟩ := watching_pass s s1 t x hidle hrem h
  have h1 := afterSpikeClose_counter s (u32 t) x
  have h2 := afterSpikeClose_stamp s (u32 t) x
  rw [if_neg hc] at h1 h2
  have hiff := decayFires_iff s (u32 t) x
  rw [h1, h2] at hiff
  have hle : (afterDecay s (u32 t) x).spike_counter ≤ s.spike_counter := by
    unfold afterDecay
    exact le_trans (spikeDecay_counter_le _ _) (le_of_eq h1)
  obtain ⟨v1, v2, -⟩ := w5 (by unfold spikes_needed; omega)
  refine ⟨w1, v1, v2, hiff, ?_, ?_⟩
  · intro hf
    rw [w2, w3]
    unfold afterDecay
    rcases spikeDecay_cases (afterSpikeClose s (u32 t) x) (u32 t) with
      ⟨-, -, c3, c4⟩ | ⟨c, -⟩
    · rw [h1] at c3; exact ⟨c3, c4⟩
    · rw [h1, h2] at c; exact absurd (hiff.mp hf) c
  · intro hf
    rw [w2, w3]
    exact afterDecay_quiet s (u32 t) x hc (fun hh => hf (hiff.mpr hh))

/-- A run of a watching detector with a counter of at most 14 in which no spike closes: REM
is not entered and every decay decrement lowers the counter by one. -/
theorem quiet_run (ins : List (Nat × Nat)) :
    ∀ (s s1 : State), s.idling = false → s.REM = false → s.spike_counter ≤ 14 →
    closeTicks s ins = [] → runSteps s ins = some s1 →
    s1.idling = false ∧ s1.REM = false ∧ s1.flash_rapid_calls = s.flash_rapid_calls ∧
    s1.spike_counter + (decayTicks s ins).length = s.spike_counter := by
  induction ins with
  | nil =>
    intro s s1 hidle hrem _ _ hrun
    simp only [runSteps, Option.some.injEq] at hrun
    subst hrun
    exact ⟨hidle, hrem, rfl, by simp [decayTicks]⟩
  | cons p rest ih =>
    obtain ⟨t, x⟩ := p
    intro s s1 hidle hrem hcnt hquiet hrun
    simp only [runSteps] at hrun
    cases hstep : sampleStep s t x with
    | none => rw [hstep] at hrun; exact absurd hrun (by simp)
    | some s2 =>
      rw [hstep] at hrun
      simp only [closeTicks, hstep, List.append_eq_nil] at hquiet
      have hc : ¬ spikeCloses s (u32 t) x = true := by
        intro hc; rw [if_pos hc] at hquiet; exact absurd hquiet.1 (by simp)
      obtain ⟨q1, q2, q3, -, q5, q6⟩ := quiet_pass s s2 t x hidle hrem hcnt hc hstep
      simp only [decayTicks, hstep]
      by_cases hf : decayFires s (u32 t) x = true
      · obtain ⟨r1, r2, r3, r4⟩ := ih s2 s1 q1 q2 (by have := (q5 hf).1; omega) hquiet.2 hrun
        rw [if_pos hf]
        refine ⟨r1, r2, r3.trans q3, ?_⟩
        have := (q5 hf).1
        simp only [List.singleton_append, List.length_cons]
        omega
      · obtain ⟨r1, r2, r3, r4⟩ := ih s2 s1 q1 q2 (by rw [(q6 hf).1]; exact hcnt) hquiet.2 hrun
        rw [if_neg hf]
        refine ⟨r1, r2, r3.trans q3, ?_⟩
        rw [List.nil_append, r4, (q6 hf).1]

/-- A quiet run whose passes all come less than 15000 ticks (32-bit difference) after the
recorded event leaves the counter and the event timestamp unchanged. -/
theorem quiet_run_before_interval (ins : List (Nat × Nat)) :
    ∀ (s s1 : State), s.idling = false → s.REM = false → s.spike_counter ≤ 14 →
    closeTicks s ins = [] →
    (∀ p ∈ ins, sub32 (u32 p.1) s.last_spike_event_timestamp < 15000) →
    runSteps s ins = some s1 →
    s1.spike_counter = s.spike_counter ∧
    s1.last_spike_event_timestamp = s.last_spike_event_timestamp := by
  induction ins with
  | nil =>
    intro s s1 _ _ _ _ _ hrun
    simp only [runSteps, Option.some.injEq] at hrun
    subst hrun
    exact ⟨rfl, rfl⟩
  | cons p rest ih =>
    obtain ⟨t, x⟩ := p
    intro s s1 hidle hrem hcnt hquiet hearly hrun
    simp only [runSteps] at hrun
    cases hstep : sampleStep s t x with
    | none => rw [hstep] at hrun; exact absurd hrun (by simp)
    | some s2 =>
      rw [hstep] at hrun
      simp only [closeTicks, hstep, List.append_eq_nil] at hquiet
      have hc : ¬ spikeCloses s (u32 t) x = true := by
        intro hc; rw [if_pos hc] at hquiet; exact absurd hquiet.1 (by simp)
      obtain ⟨q1, q2, -, q4, -, q6⟩ := quiet_pass s s2 t x hidle hrem hcnt hc hstep
      have hf : ¬ decayFires s (u32 t) x = true := by
        intro hf
        have := (q4.mp hf).2
        have := hearly (t, x) (List.mem_cons_self _ _)
        simp only at this
        omega
      obtain ⟨e1, e2⟩ := q6 hf
      obtain ⟨r1, r2⟩ := ih s2 s1 q1 q2 (by omega) hquiet.2
        (fun p hp => by rw [e2]; exact hearly p (List.mem_cons_of_mem _ hp)) hrun
      exact ⟨r1.trans e1, r2.trans e2⟩

/-- C12: from any watching state with REM false and `spike_counter = 14`, over every run
in which no further spike closes, REM is never entered, no stimulus is fired and
`spike_counter` never increases (it is 14 minus the number of decay decrements so far); the
first pass with `now - last_spike_event_timestamp >= 15000` leaves `spike_counter = 13`
and restarts the decay timer. -/
theorem fourteen_spikes_only_decay (s : State) (ins : List (Nat × Nat))
    (hidle : s.idling = false) (hrem : s.REM = false) (hcnt : s.spike_counter = 14)
    (hquiet : closeTicks s ins = []) :
    (∀ (a b : List (Nat × Nat)) (sa : State), ins = a ++ b → runSteps s a = some sa →
      sa.idling = false ∧ sa.REM = false ∧ sa.flash_rapid_calls = s.flash_rapid_calls ∧
      sa.spike_counter + (decayTicks s a).length = 14 ∧
      (∀ sb, runSteps sa b = some sb → sb.spike_counter ≤ sa.spike_counter)) ∧
    (∀ (pre rest : List (Nat × Nat)) (t x : Nat) (sp s1 : State),
      ins = pre ++ (t, x) :: rest →
      (∀ p ∈ pre, sub32 (u32 p.1) s.last_spike_event_timestamp < 15000) →
      sub32 (u32 t) s.last_spike_event_timestamp ≥ 15000 →
      runSteps s pre = some sp → sampleStep sp t x = some s1 →
      sp.spike_counter = 14 ∧ s1.spike_counter = 13 ∧
      s1.last_spike_event_timestamp = u32 t ∧ s1.REM = false) := by
  constructor
  · intro a b sa hab ha
    have hq := hquiet
    rw [hab, closeTicks_append, ha] at hq
    simp only [List.append_eq_nil] at hq
    obtain ⟨r1, r2, r3, r4⟩ := quiet_run a s sa hidle hrem (by omega) hq.1 ha
    refine ⟨r1, r2, r3, by omega, ?_⟩
    intro sb hb
    obtain ⟨-, -, -, u4⟩ := quiet_run b sa sb r1 r2 (by omega) hq.2 hb
    omega
  · intro pre rest t x sp s1 hsplit hearly hlate hpre hstep
    have hq := hquiet
    rw [hsplit, closeTicks_append, hpre] at hq
    simp only [List.append_eq_nil] at hq
    obtain ⟨r1, r2, -, -⟩ := quiet_run pre s sp hidle hrem (by omega) hq.1 hpre
    obtain ⟨e1, e2⟩ := quiet_run_before_interval pre s sp hidle hrem (by omega) hq.1 hearly hpre
    have hq2 := hq.2
    simp only [closeTicks, hstep, List.append_eq_nil] at hq2
    have hc : ¬ spikeCloses sp (u32 t) x = true := by
      intro hc; rw [if_pos hc] at hq2; exact absurd hq2.1 (by simp)
    obtain ⟨-, q2, -, q4, q5, -⟩ := quiet_pass sp s1 t x r1 r2 (by omega) hc hstep
    have hf : decayFires sp (u32 t) x = true := q4.mpr ⟨by omega, by rw [e2]; exact hlate⟩
    obtain ⟨f1, f2⟩ := q5 hf
    exact ⟨by omega, by omega, f2, q2⟩
/-- Witness for C12: fourteen spikes closed by tick 3601120, then a quiet pass at tick
3601140 and a quiet pass at tick 3616120, the first one 15000 ticks after the last
closure, which leaves the counter at 13. -/
theorem fourteen_spikes_only_decay_witness :
    (afterPasses (initState 500 400) (watchTrace 14 56)).idling = false ∧
    (afterPasses (initState 500 400) (watchTrace 14 56)).REM = false ∧
    (afterPasses (initState 500 400) (watchTrace 14 56)).spike_counter = 14 ∧
    closeTicks (afterPasses (initState 500 400) (watchTrace 14 56))
      [(3601140, 500), (3616120, 500)] = [] ∧
    (afterPasses (initState 500 400)
      (watchTrace 14 56 ++ [(3601140, 500), (3616120, 500)])).spike_counter = 13 ∧
    (afterPasses (initState 500 400)
      (watchTrace 14 56 ++ [(3601140, 500), (3616120, 500)])).REM = false :=
  have h := (fourteen_spikes_only_decay (afterPasses (initState 500 400) (watchTrace 14 56))
    [(3601140, 500), (3616120, 500)] (by decide) (by decide) (by decide) (by decide)).2
    [(3601140, 500)] [] 3616120 500
    (afterPasses (initState 500 400) (watchTrace 14 56 ++ [(3601140, 500)]))
    (afterPasses (initState 500 400) (watchTrace 14 56 ++ [(3601140, 500), (3616120, 500)]))
    rfl (by decide) (by decide) (by decide) (by decide)
  ⟨by decide, by decide, by decide, by decide, h.2.1, h.2.2.2⟩

/-! ## Startup baseline -/

theorem runMin_le_runMax (readings : List Nat) :
    ∀ a b : Nat, a ≤ b → readings.foldl min a ≤ readings.foldl max b := by
  induction readings with
  | nil => intro a b h; simpa using h
  | cons c rest ih =>
    intro a b h
    simp only [List.foldl_cons]
    exact ih _ _ (le_trans (min_le_left a c) (le_trans h (le_max_left b c)))

/-- The loop of `getBaseLine` started with `min = a <= max = b`: one step. -/
theorem baseLineLoop_succ (bl n a b : Nat) (base : Int) (c : Nat) (rest : List Nat)
    (hab : a ≤ b) :
    baseLineLoop bl (n + 1) (a : Int) (b : Int) base (c :: rest)
      = if min a c + 20 < max b c then some (Outcome.returned bl)
        else baseLineLoop bl n ((min a c : Nat) : Int) ((max b c : Nat) : Int)
          (base + (c : Int)) rest := by
  have hmn : (if (c : Int) < (a : Int) then (c : Int) else (a : Int)) = ((min a c : Nat) : Int) := by
    split_ifs with h
    · have : c < a := by exact_mod_cast h
      rw [min_eq_right (le_of_lt this)]
    · have : a ≤ c := by
        have : ¬ c < a := fun hh => h (by exact_mod_cast hh)
        omega
      rw [min_eq_left this]
  have hmx : (if (c : Int) < (a : Int) then (b : Int)
      else if (c : Int) > (b : Int) then (c : Int) else (b : Int)) = ((max b c : Nat) : Int) := by
    split_ifs with h h2
    · have : c < a := by exact_mod_cast h
      rw [max_eq_left (by omega)]
    · have : b < c := by exact_mod_cast h2
      rw [max_eq_right (le_of_lt this)]
    · have : ¬ b < c := fun hh => h2 (by exact_mod_cast hh)
      rw [max_eq_left (by omega)]
  simp only [baseLineLoop]
  rw [hmn, hmx]
  have hiff : ((max b c : Nat) : Int) - ((min a c : Nat) : Int) > 20 ↔ min a c + 20 < max b c := by
    omega
  by_cases hs : min a c + 20 < max b c
  · rw [if_pos (hiff.mpr hs), if_pos hs]
  · rw [if_neg (fun h => hs (hiff.mp h)), if_neg hs]

/-- An unstable loop reading makes the attempt return the global `baseLine`. -/
theorem baseLineLoop_unstable (bl : Nat) (n : Nat) :
    ∀ (a b : Nat) (base : Int) (rs : List Nat) (i : Nat), a ≤ b → i < n → i < rs.length →
    (rs.take (i + 1)).foldl min a + 20 < (rs.take (i + 1)).foldl max b →
    baseLineLoop bl n (a : Int) (b : Int) base rs = some (Outcome.returned bl) := by
  induction n with
  | zero => intro a b base rs i _ hi; omega
  | succ n ih =>
    intro a b base rs i hab hi hlen hun
    cases rs with
    | nil => simp at hlen
    | cons c rest =>
      rw [baseLineLoop_succ bl n a b base c rest hab]
      by_cases hs : min a c + 20 < max b c
      · rw [if_pos hs]
      · rw [if_neg hs]
        cases i with
        | zero => simp at hun; omega
        | succ j =>
          simp only [List.take_succ_cons, List.foldl_cons] at hun
          simp only [List.length_cons] at hlen
          exact ih (min a c) (max b c) _ rest j
            (le_trans (min_le_left a c) (le_trans hab (le_max_left b c))) (by omega)
            (by omega) hun

/-- With enough readings, none of them unstable, the loop ends in the final check of the
sum. -/
theorem baseLineLoop_stable (bl : Nat) (n : Nat) :
    ∀ (a b : Nat) (base : Int) (rs : List Nat), a ≤ b → n ≤ rs.length →
    (∀ i, i < n → ¬ ((rs.take (i + 1)).foldl min a + 20 < (rs.take (i + 1)).foldl max b)) →
    baseLineLoop bl n (a : Int) (b : Int) base rs
      = some (baseLineFinish (base + (((rs.take n).sum : Nat) : Int))) := by
  induction n with
  | zero => intro a b base rs _ _ _; simp [baseLineLoop]
  | succ n ih =>
    intro a b base rs hab hlen hst
    cases rs with
    | nil => simp at hlen
    | cons c rest =>
      rw [baseLineLoop_succ bl n a b base c rest hab]
      have h0 := hst 0 (by omega)
      simp only [zero_add, List.take_succ_cons, List.take_zero, List.foldl_cons,
        List.foldl_nil] at h0
      rw [if_neg h0]
      simp only [List.length_cons] at hlen
      rw [ih (min a c) (max b c) _ rest
        (le_trans (min_le_left a c) (le_trans hab (le_max_left b c))) (by omega)
        (fun i hi => by
          have := hst (i + 1) (by omega)
          simpa only [List.take_succ_cons, List.foldl_cons] using this)]
      simp only [List.take_succ_cons, List.sum_cons]
      push_cast
      rw [add_assoc]

/-- The final check of `getBaseLine` on a non-negative sum. -/
theorem baseLineFinish_nat (sum : Nat) :
    baseLineFinish (sum : Int)
      = if sum / 300 < 200 ∨ sum / 300 > 800 then Outcome.died
        else Outcome.returned (sum / 300) := by
  have hq : (sum : Int).tdiv 300 = ((sum / 300 : Nat) : Int) := by
    rw [Int.tdiv_eq_ediv (by omega) (by omega)]; norm_cast
  unfold baseLineFinish
  rw [hq]
  by_cases h : sum / 300 < 200 ∨ sum / 300 > 800
  · rw [if_pos h, if_pos (by omega)]
  · rw [if_neg h, if_neg (by omega)]
    congr 1
    omega

/-- A returned value of the loop is the global `baseLine` or lies in 200..800. -/
theorem baseLineLoop_returned (bl : Nat) (n : Nat) :
    ∀ (mn mx base : Int) (rs : List Nat) (v : Nat),
    baseLineLoop bl n mn mx base rs = some (Outcome.returned v) →
    v = bl ∨ (200 ≤ v ∧ v ≤ 800) := by
  induction n with
  | zero =>
    intro mn mx base rs v h
    simp only [baseLineLoop, baseLineFinish, Option.some.injEq] at h
    split_ifs at h with hc
    simp only [Outcome.returned.injEq] at h
    right
    omega
  | succ n ih =>
    intro mn mx base rs v h
    cases rs with
    | nil => simp [baseLineLoop] at h
    | cons c rest =>
      simp only [baseLineLoop] at h
      split_ifs at h with h1 h2 h3
      all_goals first
        | (simp only [Option.some.injEq, Outcome.returned.injEq] at h; exact Or.inl h.symm)
        | exact ih _ _ _ _ _ h
theorem startupBaseLine_returned (attempts : List (Nat × List Nat)) :
    ∀ (b v : Nat), (b = 0 ∨ (200 ≤ b ∧ b ≤ 800)) →
    startupBaseLine b attempts = some (Outcome.returned v) → 200 ≤ v ∧ v ≤ 800 := by
  induction attempts with
  | nil =>
    intro b v hb h
    simp only [startupBaseLine] at h
    split_ifs at h with h0
    simp only [Option.some.injEq, Outcome.returned.injEq] at h
    omega
  | cons p rest ih =>
    obtain ⟨f, rs⟩ := p
    intro b v hb h
    simp only [startupBaseLine] at h
    split_ifs at h with h0
    · cases hg : getBaseLine b f rs with
      | none => rw [hg] at h; simp at h
      | some o =>
        rw [hg] at h
        cases o with
        | died => simp at h
        | returned w =>
          simp only at h
          have hw := baseLineLoop_returned b 300 _ _ _ _ w hg
          exact ih w v (by omega) h
    · simp only [Option.some.injEq, Outcome.returned.injEq] at h
      omega

/-- C14: one attempt of `getBaseLine` on an initial reading and the loop readings. If at
some loop reading the running spread `max - min` (initial reading included) exceeds 20,
the attempt returns the current `baseLine` unchanged, which at boot is 0 and makes the
startup loop retry. Otherwise, with 300 loop readings, it computes
`base = (sum of the 300 loop readings) / 300` and halts in `die()` if and only if
`base < 200` or `base > 800`, else returns `base`. With 300 readings the attempt always
ends, and the startup loop `while (baseLine == 0)` is left only with `baseLine` in
200..800. -/
theorem getBaseLine_attempt (baseLine first : Nat) (readings : List Nat) :
    ((∃ i, i < 300 ∧ i < readings.length ∧ unstableAt first readings i) →
      getBaseLine baseLine first readings = some (Outcome.returned baseLine) ∧
      ∀ rest, startupBaseLine 0 ((first, readings) :: rest) = startupBaseLine 0 rest) ∧
    (300 ≤ readings.length → (∀ i, i < 300 → ¬ unstableAt first readings i) →
      getBaseLine baseLine first readings
        = some (if (readings.take 300).sum / 300 < 200 ∨ (readings.take 300).sum / 300 > 800
            then Outcome.died else Outcome.returned ((readings.take 300).sum / 300))) ∧
    (300 ≤ readings.length → getBaseLine baseLine first readings ≠ none) ∧
    (∀ (attempts : List (Nat × List Nat)) (v : Nat),
      startupBaseLine 0 attempts = some (Outcome.returned v) → 200 ≤ v ∧ v ≤ 800) := by
  have hun : ∀ bl, (∃ i, i < 300 ∧ i < readings.length ∧ unstableAt first readings i) →
      getBaseLine bl first readings = some (Outcome.returned bl) := by
    rintro bl ⟨i, hi, hlen, hu⟩
    exact baseLineLoop_unstable bl 300 first first 0 readings i (le_refl _) hi hlen hu
  have hst : 300 ≤ readings.length → (∀ i, i < 300 → ¬ unstableAt first readings i) →
      getBaseLine baseLine first readings
        = some (if (readings.take 300).sum / 300 < 200 ∨ (readings.take 300).sum / 300 > 800
            then Outcome.died else Outcome.returned ((readings.take 300).sum / 300)) := by
    intro hlen hs
    unfold getBaseLine
    rw [baseLineLoop_stable baseLine 300 first first 0 readings (le_refl _) hlen hs, zero_add,
      baseLineFinish_nat]
  refine ⟨fun h => ⟨hun baseLine h, fun rest => ?_⟩, hst, ?_,
    fun attempts v h => startupBaseLine_returned attempts 0 v (Or.inl rfl) h⟩
  · conv_lhs => rw [startupBaseLine]
    rw [if_pos rfl, hun 0 h]
  · intro hlen
    by_cases hex : ∃ i, i < 300 ∧ i < readings.length ∧ unstableAt first readings i
    · rw [hun baseLine hex]; simp
    · rw [hst hlen (fun i hi hu => hex ⟨i, hi, by omega, hu⟩)]; simp

set_option maxRecDepth 100000 in
/-- Witness for C14: after the initial reading 400 the loop reading 425 is unstable and the
attempt returns the boot value 0 of `baseLine`; 300 readings of 512 after an initial 512
return 512. -/
theorem getBaseLine_attempt_witness :
    unstableAt 400 [425] 0 ∧
    getBaseLine 0 400 [425] = some (Outcome.returned 0) ∧
    getBaseLine 0 512 (List.replicate 300 512) = some (Outcome.returned 512) ∧
    startupBaseLine 0 [(400, [425]), (512, List.replicate 300 512)]
      = some (Outcome.returned 512) :=
  ⟨by unfold unstableAt; decide,
    ((getBaseLine_attempt 0 400 [425]).1 ⟨0, by decide, by decide,
      by unfold unstableAt; decide⟩).1,
    by decide, by decide⟩

/-! ## Startup amplitude -/

theorem slotPos_of_nonneg (r : Ring) (i : Nat) (h : 0 ≤ r.bufferPointer) :
    slotPos r i = ((r.bufferPointer + (i : Int)) % 3).toNat := by
  unfold slotPos BUFFERLEN
  have h1 : (r.bufferPointer + (i : Int)).tmod ((3 : Nat) : Int)
      = (r.bufferPointer + (i : Int)) % 3 := by
    rw [Int.tmod_eq_emod (by omega) (by omega)]; rfl
  rw [h1]
  congr 1
  omega

/-- With a non-negative head index the three logical positions are a rotation of the
physical slots 0, 1, 2. -/
theorem slotAt_rotation (r : Ring) (s0 s1 s2 : Nat) (rest : List Nat)
    (hdata : r.data = s0 :: s1 :: s2 :: rest) (hbp : 0 ≤ r.bufferPointer) :
    (slotAt r 0 = s0 ∧ slotAt r 1 = s1 ∧ slotAt r 2 = s2) ∨
    (slotAt r 0 = s1 ∧ slotAt r 1 = s2 ∧ slotAt r 2 = s0) ∨
    (slotAt r 0 = s2 ∧ slotAt r 1 = s0 ∧ slotAt r 2 = s1) := by
  have hk : r.bufferPointer % 3 = 0 ∨ r.bufferPointer % 3 = 1 ∨ r.bufferPointer % 3 = 2 := by
    omega
  unfold slotAt
  rw [slotPos_of_nonneg r 0 hbp, slotPos_of_nonneg r 1 hbp, slotPos_of_nonneg r 2 hbp, hdata]
  rcases hk with hk | hk | hk
  · left
    have e0 : (r.bufferPointer + ((0 : Nat) : Int)) % 3 = 0 := by omega
    have e1 : (r.bufferPointer + ((1 : Nat) : Int)) % 3 = 1 := by omega
    have e2 : (r.bufferPointer + ((2 : Nat) : Int)) % 3 = 2 := by omega
    rw [e0, e1, e2]
    exact ⟨rfl, rfl, rfl⟩
  · right; left
    have e0 : (r.bufferPointer + ((0 : Nat) : Int)) % 3 = 1 := by omega
    have e1 : (r.bufferPointer + ((1 : Nat) : Int)) % 3 = 2 := by omega
    have e2 : (r.bufferPointer + ((2 : Nat) : Int)) % 3 = 0 := by omega
    rw [e0, e1, e2]
    exact ⟨rfl, rfl, rfl⟩
  · right; right
    have e0 : (r.bufferPointer + ((0 : Nat) : Int)) % 3 = 2 := by omega
    have e1 : (r.bufferPointer + ((1 : Nat) : Int)) % 3 = 0 := by omega
    have e2 : (r.bufferPointer + ((2 : Nat) : Int)) % 3 = 1 := by omega
    rw [e0, e1, e2]
    exact ⟨rfl, rfl, rfl⟩

theorem toInt16_of_fit (x : Int) (h1 : -32768 ≤ x) (h2 : x ≤ 32767) : toInt16 x = x := by
  unfold toInt16
  split_ifs <;> omega

/-- C16: for every buffer state in which the three slots `s0`, `s1`, `s2` are non-zero and
every baseline, `calculateMean` computes `(s0 + s1 + s2 - 3 * baseLine) / 3` with the
quotient truncated toward zero, whatever the (non-negative) value of `bufferPointer`; the
`int16_t` return value is that quotient whenever it lies in -32768..32767. -/
theorem calculateMean_full_buffer (r : Ring) (baseLine s0 s1 s2 : Nat) (rest : List Nat)
    (hdata : r.data = s0 :: s1 :: s2 :: rest) (hbp : 0 ≤ r.bufferPointer)
    (h0 : s0 ≠ 0) (h1 : s1 ≠ 0) (h2 : s2 ≠ 0) :
    calculateMean32 r baseLine
      = Int.tdiv ((s0 : Int) + (s1 : Int) + (s2 : Int) - 3 * (baseLine : Int)) 3 ∧
    calculateMean r baseLine
      = toInt16 (Int.tdiv ((s0 : Int) + (s1 : Int) + (s2 : Int) - 3 * (baseLine : Int)) 3) ∧
    (-32768 ≤ Int.tdiv ((s0 : Int) + (s1 : Int) + (s2 : Int) - 3 * (baseLine : Int)) 3 →
      Int.tdiv ((s0 : Int) + (s1 : Int) + (s2 : Int) - 3 * (baseLine : Int)) 3 ≤ 32767 →
      calculateMean r baseLine
        = Int.tdiv ((s0 : Int) + (s1 : Int) + (s2 : Int) - 3 * (baseLine : Int)) 3) := by
  have hsum : calculateMeanSum r baseLine
      = (s0 : Int) + (s1 : Int) + (s2 : Int) - 3 * (baseLine : Int) := by
    rw [calculateMeanSum_eq]
    unfold meanIter
    rcases slotAt_rotation r s0 s1 s2 rest hdata hbp with ⟨a, b, c⟩ | ⟨a, b, c⟩ | ⟨a, b, c⟩ <;>
      rw [a, b, c] <;> simp only [h0, h1, h2, if_false] <;> ring
  have h32 : calculateMean32 r baseLine
      = Int.tdiv ((s0 : Int) + (s1 : Int) + (s2 : Int) - 3 * (baseLine : Int)) 3 := by
    unfold calculateMean32 BUFFERLEN
    rw [hsum]; rfl
  refine ⟨h32, ?_, ?_⟩
  · unfold calculateMean; rw [h32]
  · intro hlo hhi
    unfold calculateMean
    rw [h32, toInt16_of_fit _ hlo hhi]

/-- Witness for C16: the slots 1000, 500, 500 with baseline 500 and head index 1. -/
theorem calculateMean_full_buffer_witness :
    calculateMean ⟨[1000, 500, 500, 0, 0, 0], 1⟩ 500
      = Int.tdiv ((1000 : Int) + 500 + 500 - 3 * 500) 3 ∧
    calculateMean ⟨[1000, 500, 500, 0, 0, 0], 1⟩ 500 = 166 :=
  ⟨(calculateMean_full_buffer ⟨[1000, 500, 500, 0, 0, 0], 1⟩ 500 1000 500 500 [0, 0, 0] rfl
      (by decide) (by decide) (by decide) (by decide)).2.2 (by decide) (by decide),
    by decide⟩

theorem tdiv_three_bound (x : Int) (h1 : -3069 ≤ x) (h2 : x ≤ 3069) :
    -1023 ≤ x.tdiv 3 ∧ x.tdiv 3 ≤ 1023 := by
  rcases le_or_lt 0 x with h | h
  · rw [Int.tdiv_eq_ediv h (by omega)]; omega
  · have : x.tdiv 3 = -((-x) / 3) := by
      have h3 : x = -(-x) := by omega
      conv_lhs => rw [h3, Int.neg_tdiv, Int.tdiv_eq_ediv (by omega) (by omega)]
    rw [this]; omega

theorem meanIter_bound (r : Ring) (b : Nat) (m : Int) (i : Nat) (hs : slotAt r i ≤ 1023)
    (hb : b ≤ 1023) :
    m - 1023 ≤ meanIter r b m i ∧ meanIter r b m i ≤ m + 1023 := by
  unfold meanIter
  split_ifs <;> omega

/-- C20: for every buffer whose slots are within the ADC range 0..1023 and every baseline
in 0..1023, the 32-bit value computed by `calculateMean` lies in -1023..1023, so the
conversion to the `int16_t` return value is exact, and `abs(mean)` of the main loop is at
most 1023, within the range of the `uint16_t abs_mean`. -/
theorem calculateMean_adc_range (r : Ring) (baseLine : Nat)
    (hslots : ∀ i, i < 3 → slotAt r i ≤ 1023) (hb : baseLine ≤ 1023) :
    (-1023 ≤ calculateMean32 r baseLine ∧ calculateMean32 r baseLine ≤ 1023) ∧
    calculateMean r baseLine = calculateMean32 r baseLine ∧
    (calculateMean r baseLine).natAbs ≤ 1023 ∧
    (∀ s : State, s.ring = r → s.baseLine = baseLine → absMean s ≤ 1023 ∧ absMean s < 65536) := by
  have hsum : -3069 ≤ calculateMeanSum r baseLine ∧ calculateMeanSum r baseLine ≤ 3069 := by
    rw [calculateMeanSum_eq]
    have a0 := meanIter_bound r baseLine 0 0 (hslots 0 (by omega)) hb
    have a1 := meanIter_bound r baseLine (meanIter r baseLine 0 0) 1 (hslots 1 (by omega)) hb
    have a2 := meanIter_bound r baseLine (meanIter r baseLine (meanIter r baseLine 0 0) 1) 2
      (hslots 2 (by omega)) hb
    omega
  have h32 : -1023 ≤ calculateMean32 r baseLine ∧ calculateMean32 r baseLine ≤ 1023 := by
    unfold calculateMean32 BUFFERLEN
    exact tdiv_three_bound _ hsum.1 hsum.2
  have heq : calculateMean r baseLine = calculateMean32 r baseLine := by
    unfold calculateMean
    exact toInt16_of_fit _ (by omega) (by omega)
  have habs : (calculateMean r baseLine).natAbs ≤ 1023 := by
    rw [heq]; omega
  refine ⟨h32, heq, habs, ?_⟩
  intro s hr hbl
  unfold absMean
  rw [hr, hbl]
  omega

/-- Witness for C20: the slots 1023, 1023, 1023 with baseline 0. -/
theorem calculateMean_adc_range_witness :
    (∀ i, i < 3 → slotAt ⟨[1023, 1023, 1023, 0, 0, 0], 0⟩ i ≤ 1023) ∧
    calculateMean ⟨[1023, 1023, 1023, 0, 0, 0], 0⟩ 0
      = calculateMean32 ⟨[1023, 1023, 1023, 0, 0, 0], 0⟩ 0 ∧
    calculateMean32 ⟨[1023, 1023, 1023, 0, 0, 0], 0⟩ 0 = 1023 :=
  ⟨by decide,
    (calculateMean_adc_range ⟨[1023, 1023, 1023, 0, 0, 0], 0⟩ 0 (by decide) (by decide)).2.1,
    by decide⟩

/-! ## Calibration windows under the sampling schedule -/

theorem sub16_self (x : Nat) : sub16 x x = 0 := by
  unfold sub16; omega

/-- The tick at which a pass ends and the tick its calibrator block reads: the tick of the
pass, or `flash_rapid_ticks` later. -/
theorem passEnd_cases (s : State) (m x : Nat) :
    (passEnd s m x = m ∧ calTick s m x = u32 m) ∨
    (passEnd s m x = m + flash_rapid_ticks ∧
      calTick s m x = u32 (m + flash_rapid_ticks)) := by
  unfold calTick passEnd
  cases remEnters s (u32 m) x <;> simp

/-- A pass that ends in a calibrating state either started the window and accumulated its
own sample, or continued a window and accumulated its sample. -/
theorem calibrating_after_pass (s s1 : State) (m x : Nat) (hx : x < 65536)
    (h : sampleStep s m x = some s1) (hc1 : s1.calculating_base_line = true) :
    (s.calculating_base_line = false ∧ windowStarts s (calTick s m x) = true ∧
      accumulates s (calTick s m x) x = true ∧
      s1.base_line_calculation_start = calTick s m x ∧ s1.Bs_cnt = 1 ∧
      s1.temp_baseLine = x ∧ s1.max_value = x ∧ s1.min_value = x) ∨
    (s.calculating_base_line = true ∧ windowStarts s (calTick s m x) = false ∧
      accumulates s (calTick s m x) x = true ∧
      sub32 (calTick s m x) s.base_line_calculation_start < 3000 ∧
      sub16 (foldMinMax s x).max_value (foldMinMax s x).min_value ≤ 20 ∧
      s1.base_line_calculation_start = s.base_line_calculation_start ∧
      s1.Bs_cnt = (s.Bs_cnt + 1) % 65536 ∧ s1.temp_baseLine = u32 (s.temp_baseLine + x) ∧
      s1.max_value = (foldMinMax s x).max_value ∧
      s1.min_value = (foldMinMax s x).min_value) := by
  obtain ⟨c1, c2, c3, c4, c5, c6, c7, c8, c9⟩ := afterRemDetect_calibration s (u32 m) x
  unfold sampleStep calibratorBlocks at h
  generalize afterRemDetect s (u32 m) x = t at *
  generalize calTick s m x = c at *
  obtain ⟨t1, ht1, rfl⟩ := Option.map_eq_some'.mp h
  simp only [updateStatusLed] at hc1 ⊢
  have h0 : sub32 c c = 0 := sub32_self _
  have hux : u32 x = x := by unfold u32; omega
  cases hc : s.calculating_base_line
  · left
    rw [hc] at c7
    by_cases hdue : sub32 c s.last_baseline_timestamp ≥ 60000 * Bs
    · have hws : windowStarts s c = true := by simp [windowStarts, hc, hdue]
      have hacc : accumulates s c x = true := by
        simp [accumulates, baselineStart, hc, hdue, h0, foldMinMax, sub16_self]
      simp only [baselineUpdate, baselineStart, c7, c8, hdue, Bool.not_false, if_true, h0,
        foldMinMax, lt_irrefl, if_false, sub16_self, Option.some.injEq] at ht1
      norm_num at ht1
      subst ht1
      simp [hws, hacc, hux]
    · exfalso
      simp only [baselineUpdate, baselineStart, c7, c8, hdue, Bool.not_false, if_true,
        if_false, Option.some.injEq] at ht1
      simp at ht1
      subst ht1
      rw [c7] at hc1
      exact absurd hc1 (by simp)
  · right
    rw [hc] at c7
    have hws : windowStarts s c = false := by simp [windowStarts, hc]
    have hbs : baselineStart t c x = t := by unfold baselineStart; simp [c7]
    have hbs2 : baselineStart s c x = s := by unfold baselineStart; simp [hc]
    rw [hbs] at ht1
    have hfmx : (foldMinMax t x).max_value = (foldMinMax s x).max_value := by
      rw [foldMinMax_max_value, foldMinMax_max_value, c4]
    have hfmn : (foldMinMax t x).min_value = (foldMinMax s x).min_value := by
      rw [foldMinMax_min_value, foldMinMax_min_value, c4, c5]
    obtain ⟨f1, f2, f3, f4⟩ := foldMinMax_rest t x
    unfold baselineUpdate at ht1
    rw [if_pos c7, c9, hfmx, hfmn] at ht1
    by_cases hel : sub32 c s.base_line_calculation_start ≥ 3000
    · exfalso
      rw [if_pos hel] at ht1
      split_ifs at ht1
      simp only [Option.some.injEq] at ht1
      subst ht1
      exact absurd hc1 (by simp)
    · rw [if_neg hel] at ht1
      by_cases hsp : sub16 (foldMinMax s x).max_value (foldMinMax s x).min_value > 20
      · exfalso
        rw [if_pos hsp] at ht1
        simp only [Option.some.injEq] at ht1
        subst ht1
        exact absurd hc1 (by simp)
      · rw [if_neg hsp] at ht1
        simp only [Option.some.injEq] at ht1
        subst ht1
        have hacc : accumulates s c x = true := by
          simp only [accumulates, hbs2, hc, Bool.true_and, Bool.and_eq_true,
            decide_eq_true_eq]
          exact ⟨by omega, by omega⟩
        refine ⟨rfl, hws, hacc, by omega, by omega, ?_, ?_, ?_, hfmx, hfmn⟩
        · simp only; rw [f4, c9]
        · simp only; rw [c3]
        · simp only; rw [c2]

/-- The sample timestamp after a pass is the tick at which the pass began. -/
theorem sampleStep_last_sample (s s1 : State) (m x : Nat)
    (h : sampleStep s m x = some s1) : s1.last_sample_timestamp = u32 m := by
  have hd := (sampleStep_detector s s1 m x h).2.2.2.2.2.2.2.1
  rw [hd]
  simp [afterRemDetect, atRemCheck, afterDecay, afterSpikeClose, afterSample, takeSample]

theorem list_sum_le_of_le (w : List Nat) (M : Nat) (h : ∀ y ∈ w, y ≤ M) :
    w.sum ≤ w.length * M := by
  induction w with
  | nil => simp
  | cons a rest ih =>
    simp only [List.sum_cons, List.length_cons]
    have h1 := h a (List.mem_cons_self _ _)
    have h2 := ih (fun y hy => h y (List.mem_cons_of_mem _ hy))
    rw [Nat.add_mul, Nat.one_mul]
    omega

/-- The window invariant holds in every state reached under the schedule. -/
theorem scheduled_windowInv (s : State) (t : Nat) (w : List Nat) (hs : Scheduled s t w) :
    WindowInv s t w := by
  induction hs with
  | init b a hb ha =>
    refine ⟨⟨0, rfl, le_refl _, Nat.zero_le _⟩, ?_⟩
    intro hc
    exact absurd hc (by simp [initState])
  | step s s1 t t1 w x hs hmono hgate hwrap hx h ih =>
    have hlast := sampleStep_last_sample s s1 t1 x h
    obtain ⟨⟨T, iT1, iT2, iT3⟩, ihw⟩ := ih
    have hpe := passEnd_cases s t1 x
    unfold flash_rapid_ticks at hpe iT3
    refine ⟨⟨t1, hlast, ?_, ?_⟩, ?_⟩
    · rcases hpe with ⟨e, -⟩ | ⟨e, -⟩ <;> omega
    · unfold flash_rapid_ticks
      rcases hpe with ⟨e, -⟩ | ⟨e, -⟩ <;> omega
    intro hc1
    unfold Ts at hgate
    rcases calibrating_after_pass s s1 t1 x hx h hc1 with
      ⟨hc, hws, hacc, e1, e2, e3, e4, e5⟩ | ⟨hc, hws, hacc, hel, hsp, e1, e2, e3, e4, e5⟩
    · simp only [windowSamples, hws, hacc, if_true, List.append_nil]
      refine ⟨⟨passEnd s t1 x, e1, le_refl _, by omega,
          by simp only [List.length_singleton]; omega, Or.inr ⟨by simp, rfl⟩⟩,
        by simp [e2], by omega, by simp [e3], ?_, by omega, by omega, by omega⟩
      intro y hy
      simp only [List.mem_singleton] at hy
      subst hy
      omega
    · obtain ⟨⟨S, i1, i2, i3, i4, i4b⟩, i5, i6, i7, i8, i9, i10, i11⟩ := ihw hc
      have hd : passEnd s t1 x = t1 ∧ calTick s t1 x = u32 t1 := by
        rcases hpe with h0 | ⟨-, ec⟩
        · exact h0
        · exfalso
          rw [ec, i1] at hel
          unfold sub32 u32 at hel
          omega
      rw [hd.2, i1] at hel
      have hreal : t1 < S + 3000 := by
        unfold sub32 u32 at hel
        omega
      have hstep : 20 * (w.length + 1) + S ≤ t1 + 40 := by
        rcases i4b with hl | ⟨hl, hS⟩
        · rw [hl] at hgate
          unfold sub32 u32 at hgate
          omega
        · omega
      simp only [windowSamples, hws, hacc, if_true, Bool.false_eq_true, if_false,
        List.singleton_append]
      rw [hd.1]
      have hlen : w.length ≤ 151 := by omega
      have hsum : w.sum ≤ w.length * 65535 :=
        list_sum_le_of_le w 65535 (fun y hy => by have := (i8 y hy).2; omega)
      have hmx : (foldMinMax s x).max_value = if x > s.max_value then x else s.max_value :=
        foldMinMax_max_value s x
      have hmn : (foldMinMax s x).min_value
          = if x > s.max_value then s.min_value
            else if x < s.min_value then x else s.min_value := foldMinMax_min_value s x
      have hfold : (foldMinMax s x).min_value ≤ x ∧ x ≤ (foldMinMax s x).max_value ∧
          (foldMinMax s x).min_value ≤ s.min_value ∧
          s.max_value ≤ (foldMinMax s x).max_value ∧
          (foldMinMax s x).max_value < 65536 := by
        rw [hmx, hmn]
        split_ifs <;> omega
      have hspread : (foldMinMax s x).max_value ≤ (foldMinMax s x).min_value + 20 := by
        unfold sub16 at hsp
        omega
      refine ⟨⟨S, e1.trans i1, by omega, hreal, ?_, Or.inl hlast⟩, ?_, ?_, ?_, ?_, ?_, ?_, ?_⟩
      · simp only [List.length_cons]; omega
      · simp only [List.length_cons]; rw [e2, ← i5]; omega
      · rw [e2]; omega
      · rw [e3, i7, List.sum_cons]; unfold u32; omega
      · intro y hy
        rw [e4, e5]
        simp only [List.mem_cons] at hy
        rcases hy with rfl | hy
        · exact ⟨hfold.1, hfold.2.1⟩
        · have := i8 y hy
          omega
      · rw [e4, e5]; omega
      · rw [e4, e5]; exact hspread
      · rw [e4]; exact hfold.2.2.2.2

/-- A run of `runScheduled` stays within the schedule. -/
theorem scheduled_runScheduled (ins : List (Nat × Nat)) (s : State) (t : Nat) (w : List Nat)
    (hs : Scheduled s t w) (r : State × Nat × List Nat)
    (h : runScheduled s t w ins = some r) : Scheduled r.1 r.2.1 r.2.2 := by
  induction ins generalizing s t w with
  | nil =>
    simp only [runScheduled, Option.some.injEq] at h
    subst h
    exact hs
  | cons p rest ih =>
    obtain ⟨t1, x⟩ := p
    simp only [runScheduled] at h
    split_ifs at h with hc
    obtain ⟨hmono, hgate, hwrap, hx⟩ := hc
    cases hstep : sampleStep s t1 x with
    | none => rw [hstep] at h; exact absurd h (by simp)
    | some s1 =>
      rw [hstep] at h
      exact ih s1 _ _ (Scheduled.step s s1 t t1 w x hs hmono hgate hwrap hx hstep) h

/-- The end of a run of `runScheduled` is reached under the schedule. -/
theorem scheduled_scheduledEnd (ins : List (Nat × Nat)) (s : State) (t : Nat) (w : List Nat)
    (hs : Scheduled s t w) :
    Scheduled (scheduledEnd s t w ins).1 (scheduledEnd s t w ins).2.1
      (scheduledEnd s t w ins).2.2 := by
  unfold scheduledEnd
  cases h : runScheduled s t w ins with
  | none => exact hs
  | some r => exact scheduled_runScheduled ins s t w hs r h

/-- The pass that starts a calibration window accumulates its own sample. -/
theorem window_start_pass (s0 s1 : State) (t1 x : Nat)
    (hidle : s0.calculating_base_line = false)
    (hdue : sub32 (calTick s0 t1 x) s0.last_baseline_timestamp ≥ 60000 * Bs)
    (hx : x < 65536) (h : sampleStep s0 t1 x = some s1) :
    s1.calculating_base_line = true ∧ s1.Bs_cnt = 1 ∧ s1.temp_baseLine = x ∧
    s1.base_line_calculation_start = calTick s0 t1 x := by
  have hc1 : s1.calculating_base_line = true := by
    obtain ⟨u, hu, hc, -⟩ := window_open_pass s0 t1 x hidle (by unfold Bs at hdue; omega)
    rw [h, Option.some.injEq] at hu
    rw [hu]
    exact hc
  rcases calibrating_after_pass s0 s1 t1 x hx h hc1 with
    ⟨-, -, -, e1, e2, e3, -, -⟩ | ⟨hc, -⟩
  · exact ⟨hc1, e2, e3, e1⟩
  · rw [hidle] at hc; exact absurd hc (by simp)

/-- The pass that ends a calibration window stores the quotient. -/
theorem window_end_pass (s s1 : State) (t1 x : Nat) (hcal : s.calculating_base_line = true)
    (hel : sub32 (calTick s t1 x) s.base_line_calculation_start ≥ 3000)
    (h : sampleStep s t1 x = some s1) :
    s.Bs_cnt ≠ 0 ∧ s1.calculating_base_line = false ∧
    s1.baseLine = (s.temp_baseLine / s.Bs_cnt) % 65536 := by
  obtain ⟨t, ⟨-, c2, c3, -, -, -, c7, -, c9⟩, hstep⟩ := sampleStep_calibrating s t1 x hcal
  rw [hstep] at h
  obtain ⟨u, hu, rfl⟩ := Option.map_eq_some'.mp h
  unfold baselineUpdate at hu
  rw [if_pos (c7.trans hcal), c9, if_pos hel, c3, c2] at hu
  split_ifs at hu with h0
  simp only [Option.some.injEq] at hu
  subst hu
  exact ⟨h0, rfl, rfl⟩

set_option maxRecDepth 100000 in
/-- C17 as stated is refuted: a pass that enters REM at tick 3663000 opens a calibration
window only after `flash_rapid()`, at tick 3670000, while the sample timestamp it stored is
3663000; the gate therefore lets the next pass in at tick 3670000 as well, and with 149
more passes 20 ticks apart the window holds 151 samples. Every pass of the run begins at
least `Ts = 20` ticks after the previous one began. -/
theorem calibration_counter_reaches_151 :
    Scheduled (scheduledEnd (initState 500 400) 0 [] (flashWindowTrace 150)).1
      (scheduledEnd (initState 500 400) 0 [] (flashWindowTrace 150)).2.1
      (scheduledEnd (initState 500 400) 0 [] (flashWindowTrace 150)).2.2 ∧
    (runScheduled (initState 500 400) 0 [] (flashWindowTrace 150)).isSome = true ∧
    (∀ i, i < 211 →
      ((flashWindowTrace 150).map Prod.fst).getD i 0 + Ts
        ≤ ((flashWindowTrace 150).map Prod.fst).getD (i + 1) 0) ∧
    (scheduledEnd (initState 500 400) 0 [] (flashWindowTrace 150)).1.calculating_base_line
      = true ∧
    (scheduledEnd (initState 500 400) 0 [] (flashWindowTrace 150)).1.Bs_cnt = 151 ∧
    ¬ (scheduledEnd (initState 500 400) 0 [] (flashWindowTrace 150)).1.Bs_cnt ≤ 150 :=
  ⟨scheduled_scheduledEnd (flashWindowTrace 150) (initState 500 400) 0 []
      (Scheduled.init 500 400 (by decide) (by decide)),
    by decide, by decide, by decide, by decide, by decide⟩

/-- C17, amended: under the sampling schedule (a pass begins no earlier than the previous
one ended and only when the gate of the main loop finds at least `Ts = 20` ticks on the
sample timestamp), in every reachable state at the start of a pass `calculating_base_line`
implies `1 <= Bs_cnt <= 151`; the sample timestamp is the tick at which the last pass
began, at most `flash_rapid_ticks` before it ended, and the gate passes exactly the ticks
at least `Ts` after it; the pass that starts a calibration window accumulates its own
sample, so the division `temp_baseLine / Bs_cnt` of the window end never has a zero
divisor (no pass is undefined), and within a window neither the 16-bit `Bs_cnt` nor the
32-bit `temp_baseLine` overflows. -/
theorem calibration_counter_bounded (s : State) (t : Nat) (w : List Nat)
    (hs : Scheduled s t w) :
    (s.calculating_base_line = true →
      1 ≤ s.Bs_cnt ∧ s.Bs_cnt ≤ 151 ∧ s.temp_baseLine ≤ 65535 * s.Bs_cnt ∧
      s.Bs_cnt + 1 < 65536 ∧ s.temp_baseLine + 65535 < 4294967296) ∧
    (∀ t1 x, sampleStep s t1 x ≠ none) ∧
    (∃ T, s.last_sample_timestamp = u32 T ∧ T ≤ t ∧ t ≤ T + flash_rapid_ticks ∧
      (∀ t1 x, T + Ts ≤ t1 → t1 < T + 4294967296 →
        mainLoopPass s t1 x = sampleStep s t1 x) ∧
      (∀ t1 x, T ≤ t1 → t1 < T + Ts → mainLoopPass s t1 x = some s)) ∧
    (∀ (s0 s1 : State) (t1 x : Nat), s0.calculating_base_line = false →
      sub32 (calTick s0 t1 x) s0.last_baseline_timestamp ≥ 60000 * Bs → x < 65536 →
      sampleStep s0 t1 x = some s1 →
      s1.calculating_base_line = true ∧ s1.Bs_cnt = 1 ∧ s1.temp_baseLine = x ∧
      s1.base_line_calculation_start = calTick s0 t1 x) := by
  obtain ⟨⟨T, hT1, hT2, hT3⟩, hinv⟩ := scheduled_windowInv s t w hs
  have hbound : s.calculating_base_line = true →
      1 ≤ s.Bs_cnt ∧ s.Bs_cnt ≤ 151 ∧ s.temp_baseLine ≤ 65535 * s.Bs_cnt := by
    intro hc
    obtain ⟨⟨S, -, i2, i3, i4, -⟩, i5, i6, i7, i8, -, -, i11⟩ := hinv hc
    have hsum : w.sum ≤ w.length * 65535 :=
      list_sum_le_of_le w 65535 (fun y hy => by have := (i8 y hy).2; omega)
    refine ⟨i6, by omega, ?_⟩
    rw [i7, ← i5]; omega
  refine ⟨fun hc => ?_, ?_, ⟨T, hT1, hT2, hT3, ?_, ?_⟩, ?_⟩
  · obtain ⟨b1, b2, b3⟩ := hbound hc
    exact ⟨b1, b2, b3, by omega, by omega⟩
  · intro t1 x hnone
    obtain ⟨hc, -, hz⟩ := (sampleStep_eq_none_iff s t1 x).mp hnone
    have := (hbound hc).1
    omega
  · intro t1 x hgap hwrap
    unfold mainLoopPass
    rw [hT1, if_pos]
    unfold sub32 u32 Ts at *
    omega
  · intro t1 x h1 h2
    unfold mainLoopPass
    rw [hT1, if_neg]
    unfold sub32 u32 Ts at *
    omega
  · intro s0 s1 t1 x hidle hdue hx h
    exact window_start_pass s0 s1 t1 x hidle hdue hx h

/-- Witness for C17: the state after the pass at tick 60000, which started a window with
the sample 400, is reached under the schedule and has `Bs_cnt = 1`. -/
theorem calibration_counter_bounded_witness :
    Scheduled (afterPasses (initState 500 400) [(60000, 400)])
      (passEnd (initState 500 400) 60000 400)
      (windowSamples (initState 500 400) [] (calTick (initState 500 400) 60000 400) 400) ∧
    passEnd (initState 500 400) 60000 400 = 60000 ∧
    (afterPasses (initState 500 400) [(60000, 400)]).calculating_base_line = true ∧
    1 ≤ (afterPasses (initState 500 400) [(60000, 400)]).Bs_cnt ∧
    (afterPasses (initState 500 400) [(60000, 400)]).Bs_cnt ≤ 151 :=
  have hs : Scheduled (afterPasses (initState 500 400) [(60000, 400)])
      (passEnd (initState 500 400) 60000 400)
      (windowSamples (initState 500 400) [] (calTick (initState 500 400) 60000 400) 400) :=
    Scheduled.step (initState 500 400) _ 0 60000 [] 400
      (Scheduled.init 500 400 (by decide) (by decide)) (by decide) (by decide) (by decide)
      (by decide) (sampleStep_last (initState 500 400) [] 60000 400 (by decide))
  have h := (calibration_counter_bounded _ _ _ hs).1 (by decide)
  ⟨hs, by decide, by decide, h.1, h.2.1⟩

theorem list_sum_ge_of_ge (w : List Nat) (m : Nat) (h : ∀ y ∈ w, m ≤ y) :
    w.length * m ≤ w.sum := by
  induction w with
  | nil => simp
  | cons a rest ih =>
    simp only [List.sum_cons, List.length_cons]
    have h1 := h a (List.mem_cons_self _ _)
    have h2 := ih (fun y hy => h y (List.mem_cons_of_mem _ hy))
    rw [Nat.add_mul, Nat.one_mul]
    omega

/-- C18: in every state reached under the sampling schedule in which
`calculating_base_line` is true, `max_value - min_value <= 20`, every sample accumulated
so far in the window lies in `[min_value, max_value]`, and `temp_baseLine` is the sum of
exactly `Bs_cnt` such samples; hence when the window completes (the calibrator block of
a pass finds it elapsed at the tick it reads, which it does whenever the window has elapsed
at the tick the pass began) the new `baseLine` is their integer average, lies in
`[min_value, max_value]` and differs by at most 20 from every sample accumulated in that
window. -/
theorem calibration_window_samples (s : State) (t : Nat) (w : List Nat)
    (hs : Scheduled s t w) (hcal : s.calculating_base_line = true) :
    s.min_value ≤ s.max_value ∧ s.max_value ≤ s.min_value + 20 ∧
    (∀ y ∈ w, s.min_value ≤ y ∧ y ≤ s.max_value) ∧
    w.length = s.Bs_cnt ∧ s.temp_baseLine = w.sum ∧
    (∀ (t1 x : Nat) (s1 : State), sampleStep s t1 x = some s1 →
      sub32 (calTick s t1 x) s.base_line_calculation_start ≥ 3000 →
      s1.calculating_base_line = false ∧ s1.baseLine = w.sum / w.length ∧
      s.min_value ≤ s1.baseLine ∧ s1.baseLine ≤ s.max_value ∧
      ∀ y ∈ w, s1.baseLine ≤ y + 20 ∧ y ≤ s1.baseLine + 20) ∧
    (∀ (t1 x : Nat), t ≤ t1 → t1 + 10000 < t + 4294967296 →
      sub32 (u32 t1) s.base_line_calculation_start ≥ 3000 →
      sub32 (calTick s t1 x) s.base_line_calculation_start ≥ 3000) := by
  obtain ⟨⟨S, j1, j2, j3, -, -⟩, i5, i6, i7, i8, i9, i10, i11⟩ :=
    (scheduled_windowInv s t w hs).2 hcal
  refine ⟨i9, i10, i8, i5, i7, ?_, ?_⟩
  · intro t1 x s1 h hel
    obtain ⟨-, e2, e3⟩ := window_end_pass s s1 t1 x hcal hel h
    have hlo : w.length * s.min_value ≤ w.sum :=
      list_sum_ge_of_ge w _ (fun y hy => (i8 y hy).1)
    have hhi : w.sum ≤ w.length * s.max_value :=
      list_sum_le_of_le w _ (fun y hy => (i8 y hy).2)
    have hpos : 0 < w.length := by omega
    have h1 : s.min_value ≤ w.sum / w.length :=
      (Nat.le_div_iff_mul_le hpos).mpr (by rw [Nat.mul_comm]; exact hlo)
    have h2 : w.sum / w.length ≤ s.max_value := Nat.div_le_of_le_mul hhi
    have hb : s1.baseLine = w.sum / w.length := by
      rw [e3, i7, ← i5, Nat.mod_eq_of_lt (by omega)]
    refine ⟨e2, hb, by omega, by omega, ?_⟩
    intro y hy
    have := i8 y hy
    omega
  · intro t1 x hmono hwrap hel
    rw [j1] at hel ⊢
    rcases passEnd_cases s t1 x with ⟨-, ec⟩ | ⟨-, ec⟩
    · rw [ec]; exact hel
    · rw [ec]
      unfold sub32 u32 flash_rapid_ticks at *
      omega

/-- Witness for C18: the window started at tick 60000 with the sample 400 and fed 410 at
tick 60020 holds the samples 410 and 400. -/
theorem calibration_window_samples_witness :
    Scheduled (scheduledEnd (initState 500 400) 0 [] [(60000, 400), (60020, 410)]).1
      (scheduledEnd (initState 500 400) 0 [] [(60000, 400), (60020, 410)]).2.1
      (scheduledEnd (initState 500 400) 0 [] [(60000, 400), (60020, 410)]).2.2 ∧
    (scheduledEnd (initState 500 400) 0 [] [(60000, 400), (60020, 410)]).1.calculating_base_line
      = true ∧
    (scheduledEnd (initState 500 400) 0 [] [(60000, 400), (60020, 410)]).2.1 = 60020 ∧
    (scheduledEnd (initState 500 400) 0 [] [(60000, 400), (60020, 410)]).2.2 = [410, 400] ∧
    (scheduledEnd (initState 500 400) 0 [] [(60000, 400), (60020, 410)]).1.temp_baseLine
      = (scheduledEnd (initState 500 400) 0 [] [(60000, 400), (60020, 410)]).2.2.sum ∧
    (scheduledEnd (initState 500 400) 0 [] [(60000, 400), (60020, 410)]).1.temp_baseLine
      = 810 :=
  have hs := scheduled_scheduledEnd [(60000, 400), (60020, 410)] (initState 500 400) 0 []
    (Scheduled.init 500 400 (by decide) (by decide))
  ⟨hs, by decide, by decide, by decide,
    (calibration_window_samples _ _ _ hs (by decide)).2.2.2.2.1, by decide⟩

/-! ## The open spike and its peak -/

/-- The spike variables at the end of a pass are those the spike-close block left. -/
theorem sampleStep_spike (s s1 : State) (m x : Nat) (h : sampleStep s m x = some s1) :
    s1.spike = (afterSpikeClose s (u32 m) x).spike ∧
    s1.spike_value = (afterSpikeClose s (u32 m) x).spike_value ∧
    s1.max_amplitude = s.max_amplitude := by
  obtain ⟨-, d2, d3, d4, -⟩ := sampleStep_detector s s1 m x h
  rw [d2, d3, d4]
  simp [afterRemDetect, atRemCheck, afterDecay, afterSpikeClose, afterSample]

/-- The spike flag and peak after the spike-close block, from those before the pass and
the `abs_mean` of the pass. -/
theorem afterSpikeClose_cases (s : State) (now x : Nat) :
    (s.spike = false ∧ absMean (afterSample s now x) < s.max_amplitude / 4 ∧
      (afterSpikeClose s now x).spike = false ∧
      (afterSpikeClose s now x).spike_value = s.spike_value) ∨
    (spikeCloses s now x = true ∧ (afterSpikeClose s now x).spike = false ∧
      (afterSpikeClose s now x).spike_value = 0) ∨
    (spikeCloses s now x = false ∧ (afterSpikeClose s now x).spike = true ∧
      s.spike = false ∧ absMean (afterSample s now x) ≥ s.max_amplitude / 4 ∧
      (afterSpikeClose s now x).spike_value
        = max s.spike_value (absMean (afterSample s now x))) ∨
    (spikeCloses s now x = false ∧ (afterSpikeClose s now x).spike = true ∧
      s.spike = true ∧
      (afterSpikeClose s now x).spike_value
        = if absMean (afterSample s now x) ≥ s.max_amplitude / 4
          then max s.spike_value (absMean (afterSample s now x)) else s.spike_value) := by
  have hu1 : (afterSample s now x).spike = s.spike := by simp [afterSample]
  have hu2 : (afterSample s now x).spike_value = s.spike_value := by simp [afterSample]
  have hu3 : (afterSample s now x).max_amplitude = s.max_amplitude := by simp [afterSample]
  unfold spikeCloses afterSpikeClose
  generalize absMean (afterSample s now x) = a
  generalize afterSample s now x = u at hu1 hu2 hu3
  unfold spikeClose spikeDetect
  rw [hu3, hu2]
  by_cases hthr : a ≥ s.max_amplitude / 4
  · simp only [hthr, if_true]
    by_cases hcl : a < (if a > s.spike_value then a else s.spike_value) / 3
    · right; left
      simp [hcl]
    · cases hsp : s.spike
      · right; right; left
        refine ⟨by simp [hcl], by simp [hcl], rfl, trivial, ?_⟩
        simp only [hcl, if_true, if_false]
        split_ifs with h1
        · rw [max_eq_right (le_of_lt h1)]
        · rw [max_eq_left (by omega)]
      · right; right; right
        refine ⟨by simp [hcl], by simp [hcl], rfl, ?_⟩
        simp only [hcl, if_true, if_false]
        split_ifs with h1
        · rw [max_eq_right (le_of_lt h1)]
        · rw [max_eq_left (by omega)]
  · simp only [hthr, if_false]
    cases hsp : s.spike
    · left
      rw [hsp] at hu1
      simp [hu1, hu2]
      omega
    · rw [hsp] at hu1
      by_cases hcl : a < s.spike_value / 3
      · right; left
        simp [hu1, hu2, hcl]
      · right; right; right
        simp [hu1, hu2, hcl]
theorem spikeTraced_inv (s : State) (g : List Nat) (hs : SpikeTraced s g) :
    (s.spike = false → s.spike_value = 0 ∧ g = []) ∧
    (s.spike = true → s.max_amplitude / 4 ≤ s.spike_value ∧ s.spike_value ∈ g ∧
      ∀ y ∈ g, y ≤ s.spike_value) := by
  induction hs with
  | init b a hb ha =>
    exact ⟨fun _ => ⟨rfl, rfl⟩, fun h => absurd h (by simp [initState])⟩
  | step s s1 m x g hs hx h ih =>
    obtain ⟨e1, e2, e3⟩ := sampleStep_spike s s1 m x h
    rw [e1, e2, e3]
    unfold spikeObserved
    rcases afterSpikeClose_cases s (u32 m) x with
      ⟨c1, c2, c3, c4⟩ | ⟨c1, c2, c3⟩ | ⟨c1, c2, c3, c4, c5⟩ | ⟨c1, c2, c3, c5⟩
    · rw [c3, c4]
      exact ⟨fun _ => ⟨(ih.1 c1).1, by simp⟩, fun hh => absurd hh (by simp)⟩
    · rw [c2, c3]
      exact ⟨fun _ => ⟨rfl, by simp⟩, fun hh => absurd hh (by simp)⟩
    · rw [c2, c5, (ih.1 c3).1, c3]
      refine ⟨fun hh => absurd hh (by simp), fun _ => ?_⟩
      simp only [if_true, Bool.false_eq_true, if_false, Nat.zero_max, List.mem_singleton,
        forall_eq, le_refl, and_true]
      exact c4
    · obtain ⟨i1, i2, i3⟩ := ih.2 c3
      rw [c2, c5, c3]
      refine ⟨fun hh => absurd hh (by simp), fun _ => ?_⟩
      simp only [if_true, List.mem_cons, forall_eq_or_imp]
      split_ifs with hthr
      · refine ⟨le_trans i1 (le_max_left _ _), ?_, le_max_right _ _,
          fun y hy => le_trans (i3 y hy) (le_max_left _ _)⟩
        rcases le_total s.spike_value (absMean (afterSample s (u32 m) x)) with hle | hle
        · left; exact max_eq_right hle
        · right; rw [max_eq_left hle]; exact i2
      · exact ⟨i1, Or.inr i2, by omega, i3⟩

theorem reachable_spikeTraced (s : State) (hs : Reachable s) : ∃ g, SpikeTraced s g := by
  induction hs with
  | init b a hb ha => exact ⟨[], SpikeTraced.init b a hb ha⟩
  | step s s1 m x hs hx h ih =>
    obtain ⟨g, hg⟩ := ih
    exact ⟨_, SpikeTraced.step s s1 m x g hg hx h⟩

/-- C19: in every state reachable by passes from the entry state, at the end of each pass:
if no spike is open then `spike_value = 0`, and if a spike is open then
`spike_value >= max_amplitude / 4` and `spike_value` is the maximum of the `abs_mean`
values observed since that spike was opened (it is one of them and none of them exceeds
it). -/
theorem spike_value_tracks_peak (s : State) (g : List Nat) (hs : SpikeTraced s g) :
    (s.spike = false → s.spike_value = 0 ∧ g = []) ∧
    (s.spike = true → s.max_amplitude / 4 ≤ s.spike_value ∧ s.spike_value ∈ g ∧
      ∀ y ∈ g, y ≤ s.spike_value) ∧
    (∀ s0 : State, Reachable s0 →
      (∃ g0, SpikeTraced s0 g0) ∧ (s0.spike = false → s0.spike_value = 0) ∧
      (s0.spike = true → s0.max_amplitude / 4 ≤ s0.spike_value)) := by
  obtain ⟨h1, h2⟩ := spikeTraced_inv s g hs
  refine ⟨h1, h2, fun s0 h0 => ?_⟩
  obtain ⟨g0, hg0⟩ := reachable_spikeTraced s0 h0
  obtain ⟨k1, k2⟩ := spikeTraced_inv s0 g0 hg0
  exact ⟨⟨g0, hg0⟩, fun h => (k1 h).1, fun h => (k2 h).1⟩

/-- Witness for C19: after the first pass of a spike train (reading 1000 against the
baseline 500) a spike is open with the peak 166, the one `abs_mean` observed so far. -/
theorem spike_value_tracks_peak_witness :
    SpikeTraced (afterPasses (initState 500 400) [(20, 1000)])
      (spikeObserved (initState 500 400) [] (u32 20) 1000) ∧
    (afterPasses (initState 500 400) [(20, 1000)]).spike = true ∧
    spikeObserved (initState 500 400) [] (u32 20) 1000 = [166] ∧
    (afterPasses (initState 500 400) [(20, 1000)]).spike_value
      ∈ spikeObserved (initState 500 400) [] (u32 20) 1000 :=
  have hs : SpikeTraced (afterPasses (initState 500 400) [(20, 1000)])
      (spikeObserved (initState 500 400) [] (u32 20) 1000) :=
    SpikeTraced.step (initState 500 400) _ 20 1000 []
      (SpikeTraced.init 500 400 (by decide) (by decide)) (by decide) (by decide)
  ⟨hs, by decide, by decide, ((spike_value_tracks_peak _ _ hs).2.1 (by decide)).2.1⟩

/-! ## Passes that enter REM while a calibration window is open -/

/-- Every sample of `remWindowTrace` is a 16-bit value. -/
theorem remWindowTrace_samples : ∀ p ∈ remWindowTrace, p.2 < 65536 := by
  decide

/-- C4 as stated is refuted: in the reachable state after `remWindowTrace` a calibration
window opened at tick 3663000 holds two samples of 510 and the fifteenth spike is open.
The pass at tick 3665000 with the sample 600 begins 2000 ticks into the window, and 600
folded into the running minimum and maximum gives a spread of 90; but the pass closes the
spike, enters REM and runs `flash_rapid()` before its calibrator block, which reads the
tick 3672000, finds the window elapsed and ends it: no abort, `unstable_base_line` stays
false, `baseLine` changes from 500 to 510 and `last_baseline_timestamp` is not the tick of
the pass. -/
theorem rem_entry_pass_ends_window_instead_of_abort :
    Reachable (afterPasses (initState 500 400) remWindowTrace) ∧
    (afterPasses (initState 500 400) remWindowTrace).calculating_base_line = true ∧
    sub32 (u32 3665000)
      (afterPasses (initState 500 400) remWindowTrace).base_line_calculation_start < 3000 ∧
    (foldMinMax (afterPasses (initState 500 400) remWindowTrace) 600).min_value + 20
      < (foldMinMax (afterPasses (initState 500 400) remWindowTrace) 600).max_value ∧
    sub16 (foldMinMax (afterPasses (initState 500 400) remWindowTrace) 600).max_value
      (foldMinMax (afterPasses (initState 500 400) remWindowTrace) 600).min_value > 20 ∧
    sampleStep (afterPasses (initState 500 400) remWindowTrace) 3665000 600
      = some (afterPasses (initState 500 400) (remWindowTrace ++ [(3665000, 600)])) ∧
    (afterPasses (initState 500 400) (remWindowTrace ++ [(3665000, 600)])).unstable_base_line
      = false ∧
    (afterPasses (initState 500 400) remWindowTrace).baseLine = 500 ∧
    (afterPasses (initState 500 400) (remWindowTrace ++ [(3665000, 600)])).baseLine = 510 ∧
    (afterPasses (initState 500 400)
      (remWindowTrace ++ [(3665000, 600)])).last_baseline_timestamp ≠ u32 3665000 :=
  ⟨reachable_afterPasses remWindowTrace (initState 500 400)
      (Reachable.init 500 400 (by decide) (by decide)) remWindowTrace_samples,
    by decide, by decide, by decide, by decide,
    sampleStep_last (initState 500 400) remWindowTrace 3665000 600 (by decide),
    by decide, by decide, by decide, by decide⟩

/-- C5 as stated is refuted: in the reachable state after `remWindowTrace` the calibrator
is calibrating and the window, opened at tick 3663000, has not elapsed at the tick 3665000
at which the next pass begins; that pass enters REM, its calibrator block runs after
`flash_rapid()` at tick 3672000 and replaces `baseLine` (500) by
`temp_baseLine / Bs_cnt = 1020 / 2 = 510`, and `last_baseline_timestamp` becomes 3672000,
not the tick of the pass. -/
theorem rem_entry_pass_replaces_baseLine_mid_window :
    Reachable (afterPasses (initState 500 400) remWindowTrace) ∧
    (afterPasses (initState 500 400) remWindowTrace).calculating_base_line = true ∧
    ¬ sub32 (u32 3665000)
      (afterPasses (initState 500 400) remWindowTrace).base_line_calculation_start ≥ 3000 ∧
    sampleStep (afterPasses (initState 500 400) remWindowTrace) 3665000 600
      = some (afterPasses (initState 500 400) (remWindowTrace ++ [(3665000, 600)])) ∧
    (afterPasses (initState 500 400) (remWindowTrace ++ [(3665000, 600)])).baseLine
      ≠ (afterPasses (initState 500 400) remWindowTrace).baseLine ∧
    (afterPasses (initState 500 400) (remWindowTrace ++ [(3665000, 600)])).baseLine
      = (afterPasses (initState 500 400) remWindowTrace).temp_baseLine
        / (afterPasses (initState 500 400) remWindowTrace).Bs_cnt ∧
    (afterPasses (initState 500 400)
      (remWindowTrace ++ [(3665000, 600)])).last_baseline_timestamp = u32 3672000 ∧
    calTick (afterPasses (initState 500 400) remWindowTrace) 3665000 600 = u32 3672000 :=
  ⟨reachable_afterPasses remWindowTrace (initState 500 400)
      (Reachable.init 500 400 (by decide) (by decide)) remWindowTrace_samples,
    by decide, by decide,
    sampleStep_last (initState 500 400) remWindowTrace 3665000 600 (by decide),
    by decide, by decide, by decide, by decide⟩

end Eog
